import Mathlib

/-!
# swagger-express: annotation translation and aggregation

A shallow embedding of `src/parse-swagger.js` (type resolver, tag translators,
file formatter) and `src/parse-swagger-util.js` (swagger aggregator), followed
by theorems about them.

Conventions of the embedding.

* A JavaScript string is a `String`; the string primitives work on its list of
  characters (`String.data`) by structural recursion.
* A value that may be `undefined` or `null` is an `Option`; `none` stands for
  the missing value.
* A function that can raise returns `Except JsError _`.
* A JavaScript object used as a finite map is an association list in insertion
  order (`Obj`); assignment to an existing key keeps the key in place. An
  object given as an input lists its properties in the order in which the
  language enumerates them. Properties inherited from `Object.prototype` are
  not modelled.
* A function that writes to its argument in place returns the argument as the
  call leaves it.
-/

namespace SwaggerExpress

/-! ## Errors -/

/-- An exception raised by the program: a `TypeError` of the language (member
access on `undefined` or `null`, call of a non-function), or an `Error` thrown
by the program itself. -/
inductive JsError where
  | typeError (reason : String)
  | error (message : String)
  deriving DecidableEq, Repr

deriving instance DecidableEq for Except

/-! ## String primitives -/

/-- The `WhiteSpace` and `LineTerminator` code points of the language: what
`String.prototype.trim` strips and what `\s` matches. -/
def isWhiteSpace (c : Char) : Bool :=
  c = '\t' || c = '\n' || c = '\x0b' || c = '\x0c' || c = '\r' || c = ' '
    || c = '\u00a0' || c = '\u1680'
    || (0x2000 ≤ c.toNat && c.toNat ≤ 0x200a)
    || c = '\u2028' || c = '\u2029' || c = '\u202f' || c = '\u205f'
    || c = '\u3000' || c = '\ufeff'

/-- Class `\w`: an ASCII letter, a digit or the underscore. -/
def isWordChar (c : Char) : Bool :=
  ('a'.toNat ≤ c.toNat && c.toNat ≤ 'z'.toNat)
    || ('A'.toNat ≤ c.toNat && c.toNat ≤ 'Z'.toNat)
    || ('0'.toNat ≤ c.toNat && c.toNat ≤ '9'.toNat) || c = '_'

/-- Class `\d`: an ASCII digit. -/
def isDigitChar (c : Char) : Bool :=
  '0'.toNat ≤ c.toNat && c.toNat ≤ '9'.toNat

/-- Method `str.split(sep)` for a one-character separator, on character lists. The
result is never empty: the empty string splits into one empty piece. -/
def splitChars (sep : Char) : List Char → List (List Char)
  | [] => [[]]
  | c :: cs =>
    if c = sep then [] :: splitChars sep cs
    else
      match splitChars sep cs with
      | [] => [[c]]
      | piece :: pieces => (c :: piece) :: pieces

/-- Method `str.split(sep)` for a one-character separator. -/
def split (sep : Char) (str : String) : List String :=
  (splitChars sep str.data).map String.mk

/-- Method `str.trim()`. -/
def trim (str : String) : String :=
  String.mk ((str.data.dropWhile isWhiteSpace).reverse.dropWhile isWhiteSpace).reverse

/-! ### Case mapping

`String.prototype.toLowerCase` is the default case conversion of the Unicode
standard: the simple lower-case mapping of `UnicodeData.txt` for every code
point, and the two entries of `SpecialCasing.txt` that do not depend on the
language, U+0130 and the capital sigma in the context `Final_Sigma`. The tables
are those of version 14.0 of the Unicode Character Database. -/

/-- The simple lower-case mappings of the code points from U+0080 on, as runs
`(first, last, step, image)`: the code points `first`, `first + step`, .. up
to `last` map to `image`, `image + step`, .. in this order. The ASCII letters
are mapped by `Char.toLower`. -/
def lowerCaseRuns : List (Nat × Nat × Nat × Nat) :=
  [
    (0x00C0, 0x00D6, 1, 0x00E0), (0x00D8, 0x00DE, 1, 0x00F8), (0x0100, 0x012E, 2, 0x0101),
    (0x0132, 0x0136, 2, 0x0133), (0x0139, 0x0147, 2, 0x013A), (0x014A, 0x0176, 2, 0x014B),
    (0x0178, 0x0178, 1, 0x00FF), (0x0179, 0x017D, 2, 0x017A), (0x0181, 0x0181, 1, 0x0253),
    (0x0182, 0x0184, 2, 0x0183), (0x0186, 0x0186, 1, 0x0254), (0x0187, 0x0187, 1, 0x0188),
    (0x0189, 0x018A, 1, 0x0256), (0x018B, 0x018B, 1, 0x018C), (0x018E, 0x018E, 1, 0x01DD),
    (0x018F, 0x018F, 1, 0x0259), (0x0190, 0x0190, 1, 0x025B), (0x0191, 0x0191, 1, 0x0192),
    (0x0193, 0x0193, 1, 0x0260), (0x0194, 0x0194, 1, 0x0263), (0x0196, 0x0196, 1, 0x0269),
    (0x0197, 0x0197, 1, 0x0268), (0x0198, 0x0198, 1, 0x0199), (0x019C, 0x019C, 1, 0x026F),
    (0x019D, 0x019D, 1, 0x0272), (0x019F, 0x019F, 1, 0x0275), (0x01A0, 0x01A4, 2, 0x01A1),
    (0x01A6, 0x01A6, 1, 0x0280), (0x01A7, 0x01A7, 1, 0x01A8), (0x01A9, 0x01A9, 1, 0x0283),
    (0x01AC, 0x01AC, 1, 0x01AD), (0x01AE, 0x01AE, 1, 0x0288), (0x01AF, 0x01AF, 1, 0x01B0),
    (0x01B1, 0x01B2, 1, 0x028A), (0x01B3, 0x01B5, 2, 0x01B4), (0x01B7, 0x01B7, 1, 0x0292),
    (0x01B8, 0x01B8, 1, 0x01B9), (0x01BC, 0x01BC, 1, 0x01BD), (0x01C4, 0x01C4, 1, 0x01C6),
    (0x01C5, 0x01C5, 1, 0x01C6), (0x01C7, 0x01C7, 1, 0x01C9), (0x01C8, 0x01C8, 1, 0x01C9),
    (0x01CA, 0x01CA, 1, 0x01CC), (0x01CB, 0x01DB, 2, 0x01CC), (0x01DE, 0x01EE, 2, 0x01DF),
    (0x01F1, 0x01F1, 1, 0x01F3), (0x01F2, 0x01F4, 2, 0x01F3), (0x01F6, 0x01F6, 1, 0x0195),
    (0x01F7, 0x01F7, 1, 0x01BF), (0x01F8, 0x021E, 2, 0x01F9), (0x0220, 0x0220, 1, 0x019E),
    (0x0222, 0x0232, 2, 0x0223), (0x023A, 0x023A, 1, 0x2C65), (0x023B, 0x023B, 1, 0x023C),
    (0x023D, 0x023D, 1, 0x019A), (0x023E, 0x023E, 1, 0x2C66), (0x0241, 0x0241, 1, 0x0242),
    (0x0243, 0x0243, 1, 0x0180), (0x0244, 0x0244, 1, 0x0289), (0x0245, 0x0245, 1, 0x028C),
    (0x0246, 0x024E, 2, 0x0247), (0x0370, 0x0372, 2, 0x0371), (0x0376, 0x0376, 1, 0x0377),
    (0x037F, 0x037F, 1, 0x03F3), (0x0386, 0x0386, 1, 0x03AC), (0x0388, 0x038A, 1, 0x03AD),
    (0x038C, 0x038C, 1, 0x03CC), (0x038E, 0x038F, 1, 0x03CD), (0x0391, 0x03A1, 1, 0x03B1),
    (0x03A3, 0x03AB, 1, 0x03C3), (0x03CF, 0x03CF, 1, 0x03D7), (0x03D8, 0x03EE, 2, 0x03D9),
    (0x03F4, 0x03F4, 1, 0x03B8), (0x03F7, 0x03F7, 1, 0x03F8), (0x03F9, 0x03F9, 1, 0x03F2),
    (0x03FA, 0x03FA, 1, 0x03FB), (0x03FD, 0x03FF, 1, 0x037B), (0x0400, 0x040F, 1, 0x0450),
    (0x0410, 0x042F, 1, 0x0430), (0x0460, 0x0480, 2, 0x0461), (0x048A, 0x04BE, 2, 0x048B),
    (0x04C0, 0x04C0, 1, 0x04CF), (0x04C1, 0x04CD, 2, 0x04C2), (0x04D0, 0x052E, 2, 0x04D1),
    (0x0531, 0x0556, 1, 0x0561), (0x10A0, 0x10C5, 1, 0x2D00), (0x10C7, 0x10C7, 1, 0x2D27),
    (0x10CD, 0x10CD, 1, 0x2D2D), (0x13A0, 0x13EF, 1, 0xAB70), (0x13F0, 0x13F5, 1, 0x13F8),
    (0x1C90, 0x1CBA, 1, 0x10D0), (0x1CBD, 0x1CBF, 1, 0x10FD), (0x1E00, 0x1E94, 2, 0x1E01),
    (0x1E9E, 0x1E9E, 1, 0x00DF), (0x1EA0, 0x1EFE, 2, 0x1EA1), (0x1F08, 0x1F0F, 1, 0x1F00),
    (0x1F18, 0x1F1D, 1, 0x1F10), (0x1F28, 0x1F2F, 1, 0x1F20), (0x1F38, 0x1F3F, 1, 0x1F30),
    (0x1F48, 0x1F4D, 1, 0x1F40), (0x1F59, 0x1F5F, 2, 0x1F51), (0x1F68, 0x1F6F, 1, 0x1F60),
    (0x1F88, 0x1F8F, 1, 0x1F80), (0x1F98, 0x1F9F, 1, 0x1F90), (0x1FA8, 0x1FAF, 1, 0x1FA0),
    (0x1FB8, 0x1FB9, 1, 0x1FB0), (0x1FBA, 0x1FBB, 1, 0x1F70), (0x1FBC, 0x1FBC, 1, 0x1FB3),
    (0x1FC8, 0x1FCB, 1, 0x1F72), (0x1FCC, 0x1FCC, 1, 0x1FC3), (0x1FD8, 0x1FD9, 1, 0x1FD0),
    (0x1FDA, 0x1FDB, 1, 0x1F76), (0x1FE8, 0x1FE9, 1, 0x1FE0), (0x1FEA, 0x1FEB, 1, 0x1F7A),
    (0x1FEC, 0x1FEC, 1, 0x1FE5), (0x1FF8, 0x1FF9, 1, 0x1F78), (0x1FFA, 0x1FFB, 1, 0x1F7C),
    (0x1FFC, 0x1FFC, 1, 0x1FF3), (0x2126, 0x2126, 1, 0x03C9), (0x212A, 0x212A, 1, 0x006B),
    (0x212B, 0x212B, 1, 0x00E5), (0x2132, 0x2132, 1, 0x214E), (0x2160, 0x216F, 1, 0x2170),
    (0x2183, 0x2183, 1, 0x2184), (0x24B6, 0x24CF, 1, 0x24D0), (0x2C00, 0x2C2F, 1, 0x2C30),
    (0x2C60, 0x2C60, 1, 0x2C61), (0x2C62, 0x2C62, 1, 0x026B), (0x2C63, 0x2C63, 1, 0x1D7D),
    (0x2C64, 0x2C64, 1, 0x027D), (0x2C67, 0x2C6B, 2, 0x2C68), (0x2C6D, 0x2C6D, 1, 0x0251),
    (0x2C6E, 0x2C6E, 1, 0x0271), (0x2C6F, 0x2C6F, 1, 0x0250), (0x2C70, 0x2C70, 1, 0x0252),
    (0x2C72, 0x2C72, 1, 0x2C73), (0x2C75, 0x2C75, 1, 0x2C76), (0x2C7E, 0x2C7F, 1, 0x023F),
    (0x2C80, 0x2CE2, 2, 0x2C81), (0x2CEB, 0x2CED, 2, 0x2CEC), (0x2CF2, 0x2CF2, 1, 0x2CF3),
    (0xA640, 0xA66C, 2, 0xA641), (0xA680, 0xA69A, 2, 0xA681), (0xA722, 0xA72E, 2, 0xA723),
    (0xA732, 0xA76E, 2, 0xA733), (0xA779, 0xA77B, 2, 0xA77A), (0xA77D, 0xA77D, 1, 0x1D79),
    (0xA77E, 0xA786, 2, 0xA77F), (0xA78B, 0xA78B, 1, 0xA78C), (0xA78D, 0xA78D, 1, 0x0265),
    (0xA790, 0xA792, 2, 0xA791), (0xA796, 0xA7A8, 2, 0xA797), (0xA7AA, 0xA7AA, 1, 0x0266),
    (0xA7AB, 0xA7AB, 1, 0x025C), (0xA7AC, 0xA7AC, 1, 0x0261), (0xA7AD, 0xA7AD, 1, 0x026C),
    (0xA7AE, 0xA7AE, 1, 0x026A), (0xA7B0, 0xA7B0, 1, 0x029E), (0xA7B1, 0xA7B1, 1, 0x0287),
    (0xA7B2, 0xA7B2, 1, 0x029D), (0xA7B3, 0xA7B3, 1, 0xAB53), (0xA7B4, 0xA7C2, 2, 0xA7B5),
    (0xA7C4, 0xA7C4, 1, 0xA794), (0xA7C5, 0xA7C5, 1, 0x0282), (0xA7C6, 0xA7C6, 1, 0x1D8E),
    (0xA7C7, 0xA7C9, 2, 0xA7C8), (0xA7D0, 0xA7D0, 1, 0xA7D1), (0xA7D6, 0xA7D8, 2, 0xA7D7),
    (0xA7F5, 0xA7F5, 1, 0xA7F6), (0xFF21, 0xFF3A, 1, 0xFF41), (0x10400, 0x10427, 1, 0x10428),
    (0x104B0, 0x104D3, 1, 0x104D8), (0x10570, 0x10594, 2, 0x10597), (0x10571, 0x1057A, 1, 0x10598),
    (0x1057C, 0x1058A, 1, 0x105A3), (0x1058C, 0x10592, 1, 0x105B3), (0x10594, 0x10595, 1, 0x105BB),
    (0x10C80, 0x10CB2, 1, 0x10CC0), (0x118A0, 0x118BF, 1, 0x118C0), (0x16E40, 0x16E5F, 1, 0x16E60),
    (0x1E900, 0x1E921, 1, 0x1E922)
  ]

/-- The ranges `(first, last)` of the code points with the property `Cased`
(`DerivedCoreProperties.txt`). -/
def casedRanges : List (Nat × Nat) :=
  [
    (0x0041, 0x005A), (0x0061, 0x007A), (0x00AA, 0x00AA), (0x00B5, 0x00B5), (0x00BA, 0x00BA),
    (0x00C0, 0x00D6), (0x00D8, 0x00F6), (0x00F8, 0x01BA), (0x01BC, 0x01BF), (0x01C4, 0x0293),
    (0x0295, 0x02B8), (0x02C0, 0x02C1), (0x02E0, 0x02E4), (0x0345, 0x0345), (0x0370, 0x0373),
    (0x0376, 0x0377), (0x037A, 0x037D), (0x037F, 0x037F), (0x0386, 0x0386), (0x0388, 0x038A),
    (0x038C, 0x038C), (0x038E, 0x03A1), (0x03A3, 0x03F5), (0x03F7, 0x0481), (0x048A, 0x052F),
    (0x0531, 0x0556), (0x0560, 0x0588), (0x10A0, 0x10C5), (0x10C7, 0x10C7), (0x10CD, 0x10CD),
    (0x10D0, 0x10FA), (0x10FD, 0x10FF), (0x13A0, 0x13F5), (0x13F8, 0x13FD), (0x1C80, 0x1C88),
    (0x1C90, 0x1CBA), (0x1CBD, 0x1CBF), (0x1D00, 0x1DBF), (0x1E00, 0x1F15), (0x1F18, 0x1F1D),
    (0x1F20, 0x1F45), (0x1F48, 0x1F4D), (0x1F50, 0x1F57), (0x1F59, 0x1F59), (0x1F5B, 0x1F5B),
    (0x1F5D, 0x1F5D), (0x1F5F, 0x1F7D), (0x1F80, 0x1FB4), (0x1FB6, 0x1FBC), (0x1FBE, 0x1FBE),
    (0x1FC2, 0x1FC4), (0x1FC6, 0x1FCC), (0x1FD0, 0x1FD3), (0x1FD6, 0x1FDB), (0x1FE0, 0x1FEC),
    (0x1FF2, 0x1FF4), (0x1FF6, 0x1FFC), (0x2071, 0x2071), (0x207F, 0x207F), (0x2090, 0x209C),
    (0x2102, 0x2102), (0x2107, 0x2107), (0x210A, 0x2113), (0x2115, 0x2115), (0x2119, 0x211D),
    (0x2124, 0x2124), (0x2126, 0x2126), (0x2128, 0x2128), (0x212A, 0x212D), (0x212F, 0x2134),
    (0x2139, 0x2139), (0x213C, 0x213F), (0x2145, 0x2149), (0x214E, 0x214E), (0x2160, 0x217F),
    (0x2183, 0x2184), (0x24B6, 0x24E9), (0x2C00, 0x2CE4), (0x2CEB, 0x2CEE), (0x2CF2, 0x2CF3),
    (0x2D00, 0x2D25), (0x2D27, 0x2D27), (0x2D2D, 0x2D2D), (0xA640, 0xA66D), (0xA680, 0xA69D),
    (0xA722, 0xA787), (0xA78B, 0xA78E), (0xA790, 0xA7CA), (0xA7D0, 0xA7D1), (0xA7D3, 0xA7D3),
    (0xA7D5, 0xA7D9), (0xA7F5, 0xA7F6), (0xA7F8, 0xA7FA), (0xAB30, 0xAB5A), (0xAB5C, 0xAB68),
    (0xAB70, 0xABBF), (0xFB00, 0xFB06), (0xFB13, 0xFB17), (0xFF21, 0xFF3A), (0xFF41, 0xFF5A),
    (0x10400, 0x1044F), (0x104B0, 0x104D3), (0x104D8, 0x104FB), (0x10570, 0x1057A), (0x1057C, 0x1058A),
    (0x1058C, 0x10592), (0x10594, 0x10595), (0x10597, 0x105A1), (0x105A3, 0x105B1), (0x105B3, 0x105B9),
    (0x105BB, 0x105BC), (0x10780, 0x10780), (0x10783, 0x10785), (0x10787, 0x107B0), (0x107B2, 0x107BA),
    (0x10C80, 0x10CB2), (0x10CC0, 0x10CF2), (0x118A0, 0x118DF), (0x16E40, 0x16E7F), (0x1D400, 0x1D454),
    (0x1D456, 0x1D49C), (0x1D49E, 0x1D49F), (0x1D4A2, 0x1D4A2), (0x1D4A5, 0x1D4A6), (0x1D4A9, 0x1D4AC),
    (0x1D4AE, 0x1D4B9), (0x1D4BB, 0x1D4BB), (0x1D4BD, 0x1D4C3), (0x1D4C5, 0x1D505), (0x1D507, 0x1D50A),
    (0x1D50D, 0x1D514), (0x1D516, 0x1D51C), (0x1D51E, 0x1D539), (0x1D53B, 0x1D53E), (0x1D540, 0x1D544),
    (0x1D546, 0x1D546), (0x1D54A, 0x1D550), (0x1D552, 0x1D6A5), (0x1D6A8, 0x1D6C0), (0x1D6C2, 0x1D6DA),
    (0x1D6DC, 0x1D6FA), (0x1D6FC, 0x1D714), (0x1D716, 0x1D734), (0x1D736, 0x1D74E), (0x1D750, 0x1D76E),
    (0x1D770, 0x1D788), (0x1D78A, 0x1D7A8), (0x1D7AA, 0x1D7C2), (0x1D7C4, 0x1D7CB), (0x1DF00, 0x1DF09),
    (0x1DF0B, 0x1DF1E), (0x1E900, 0x1E943), (0x1F130, 0x1F149), (0x1F150, 0x1F169), (0x1F170, 0x1F189)
  ]

/-- The ranges `(first, last)` of the code points with the property
`Case_Ignorable` (`DerivedCoreProperties.txt`). -/
def caseIgnorableRanges : List (Nat × Nat) :=
  [
    (0x0027, 0x0027), (0x002E, 0x002E), (0x003A, 0x003A), (0x005E, 0x005E), (0x0060, 0x0060),
    (0x00A8, 0x00A8), (0x00AD, 0x00AD), (0x00AF, 0x00AF), (0x00B4, 0x00B4), (0x00B7, 0x00B8),
    (0x02B0, 0x036F), (0x0374, 0x0375), (0x037A, 0x037A), (0x0384, 0x0385), (0x0387, 0x0387),
    (0x0483, 0x0489), (0x0559, 0x0559), (0x055F, 0x055F), (0x0591, 0x05BD), (0x05BF, 0x05BF),
    (0x05C1, 0x05C2), (0x05C4, 0x05C5), (0x05C7, 0x05C7), (0x05F4, 0x05F4), (0x0600, 0x0605),
    (0x0610, 0x061A), (0x061C, 0x061C), (0x0640, 0x0640), (0x064B, 0x065F), (0x0670, 0x0670),
    (0x06D6, 0x06DD), (0x06DF, 0x06E8), (0x06EA, 0x06ED), (0x070F, 0x070F), (0x0711, 0x0711),
    (0x0730, 0x074A), (0x07A6, 0x07B0), (0x07EB, 0x07F5), (0x07FA, 0x07FA), (0x07FD, 0x07FD),
    (0x0816, 0x082D), (0x0859, 0x085B), (0x0888, 0x0888), (0x0890, 0x0891), (0x0898, 0x089F),
    (0x08C9, 0x0902), (0x093A, 0x093A), (0x093C, 0x093C), (0x0941, 0x0948), (0x094D, 0x094D),
    (0x0951, 0x0957), (0x0962, 0x0963), (0x0971, 0x0971), (0x0981, 0x0981), (0x09BC, 0x09BC),
    (0x09C1, 0x09C4), (0x09CD, 0x09CD), (0x09E2, 0x09E3), (0x09FE, 0x09FE), (0x0A01, 0x0A02),
    (0x0A3C, 0x0A3C), (0x0A41, 0x0A42), (0x0A47, 0x0A48), (0x0A4B, 0x0A4D), (0x0A51, 0x0A51),
    (0x0A70, 0x0A71), (0x0A75, 0x0A75), (0x0A81, 0x0A82), (0x0ABC, 0x0ABC), (0x0AC1, 0x0AC5),
    (0x0AC7, 0x0AC8), (0x0ACD, 0x0ACD), (0x0AE2, 0x0AE3), (0x0AFA, 0x0AFF), (0x0B01, 0x0B01),
    (0x0B3C, 0x0B3C), (0x0B3F, 0x0B3F), (0x0B41, 0x0B44), (0x0B4D, 0x0B4D), (0x0B55, 0x0B56),
    (0x0B62, 0x0B63), (0x0B82, 0x0B82), (0x0BC0, 0x0BC0), (0x0BCD, 0x0BCD), (0x0C00, 0x0C00),
    (0x0C04, 0x0C04), (0x0C3C, 0x0C3C), (0x0C3E, 0x0C40), (0x0C46, 0x0C48), (0x0C4A, 0x0C4D),
    (0x0C55, 0x0C56), (0x0C62, 0x0C63), (0x0C81, 0x0C81), (0x0CBC, 0x0CBC), (0x0CBF, 0x0CBF),
    (0x0CC6, 0x0CC6), (0x0CCC, 0x0CCD), (0x0CE2, 0x0CE3), (0x0D00, 0x0D01), (0x0D3B, 0x0D3C),
    (0x0D41, 0x0D44), (0x0D4D, 0x0D4D), (0x0D62, 0x0D63), (0x0D81, 0x0D81), (0x0DCA, 0x0DCA),
    (0x0DD2, 0x0DD4), (0x0DD6, 0x0DD6), (0x0E31, 0x0E31), (0x0E34, 0x0E3A), (0x0E46, 0x0E4E),
    (0x0EB1, 0x0EB1), (0x0EB4, 0x0EBC), (0x0EC6, 0x0EC6), (0x0EC8, 0x0ECD), (0x0F18, 0x0F19),
    (0x0F35, 0x0F35), (0x0F37, 0x0F37), (0x0F39, 0x0F39), (0x0F71, 0x0F7E), (0x0F80, 0x0F84),
    (0x0F86, 0x0F87), (0x0F8D, 0x0F97), (0x0F99, 0x0FBC), (0x0FC6, 0x0FC6), (0x102D, 0x1030),
    (0x1032, 0x1037), (0x1039, 0x103A), (0x103D, 0x103E), (0x1058, 0x1059), (0x105E, 0x1060),
    (0x1071, 0x1074), (0x1082, 0x1082), (0x1085, 0x1086), (0x108D, 0x108D), (0x109D, 0x109D),
    (0x10FC, 0x10FC), (0x135D, 0x135F), (0x1712, 0x1714), (0x1732, 0x1733), (0x1752, 0x1753),
    (0x1772, 0x1773), (0x17B4, 0x17B5), (0x17B7, 0x17BD), (0x17C6, 0x17C6), (0x17C9, 0x17D3),
    (0x17D7, 0x17D7), (0x17DD, 0x17DD), (0x180B, 0x180F), (0x1843, 0x1843), (0x1885, 0x1886),
    (0x18A9, 0x18A9), (0x1920, 0x1922), (0x1927, 0x1928), (0x1932, 0x1932), (0x1939, 0x193B),
    (0x1A17, 0x1A18), (0x1A1B, 0x1A1B), (0x1A56, 0x1A56), (0x1A58, 0x1A5E), (0x1A60, 0x1A60),
    (0x1A62, 0x1A62), (0x1A65, 0x1A6C), (0x1A73, 0x1A7C), (0x1A7F, 0x1A7F), (0x1AA7, 0x1AA7),
    (0x1AB0, 0x1ACE), (0x1B00, 0x1B03), (0x1B34, 0x1B34), (0x1B36, 0x1B3A), (0x1B3C, 0x1B3C),
    (0x1B42, 0x1B42), (0x1B6B, 0x1B73), (0x1B80, 0x1B81), (0x1BA2, 0x1BA5), (0x1BA8, 0x1BA9),
    (0x1BAB, 0x1BAD), (0x1BE6, 0x1BE6), (0x1BE8, 0x1BE9), (0x1BED, 0x1BED), (0x1BEF, 0x1BF1),
    (0x1C2C, 0x1C33), (0x1C36, 0x1C37), (0x1C78, 0x1C7D), (0x1CD0, 0x1CD2), (0x1CD4, 0x1CE0),
    (0x1CE2, 0x1CE8), (0x1CED, 0x1CED), (0x1CF4, 0x1CF4), (0x1CF8, 0x1CF9), (0x1D2C, 0x1D6A),
    (0x1D78, 0x1D78), (0x1D9B, 0x1DFF), (0x1FBD, 0x1FBD), (0x1FBF, 0x1FC1), (0x1FCD, 0x1FCF),
    (0x1FDD, 0x1FDF), (0x1FED, 0x1FEF), (0x1FFD, 0x1FFE), (0x200B, 0x200F), (0x2018, 0x2019),
    (0x2024, 0x2024), (0x2027, 0x2027), (0x202A, 0x202E), (0x2060, 0x2064), (0x2066, 0x206F),
    (0x2071, 0x2071), (0x207F, 0x207F), (0x2090, 0x209C), (0x20D0, 0x20F0), (0x2C7C, 0x2C7D),
    (0x2CEF, 0x2CF1), (0x2D6F, 0x2D6F), (0x2D7F, 0x2D7F), (0x2DE0, 0x2DFF), (0x2E2F, 0x2E2F),
    (0x3005, 0x3005), (0x302A, 0x302D), (0x3031, 0x3035), (0x303B, 0x303B), (0x3099, 0x309E),
    (0x30FC, 0x30FE), (0xA015, 0xA015), (0xA4F8, 0xA4FD), (0xA60C, 0xA60C), (0xA66F, 0xA672),
    (0xA674, 0xA67D), (0xA67F, 0xA67F), (0xA69C, 0xA69F), (0xA6F0, 0xA6F1), (0xA700, 0xA721),
    (0xA770, 0xA770), (0xA788, 0xA78A), (0xA7F2, 0xA7F4), (0xA7F8, 0xA7F9), (0xA802, 0xA802),
    (0xA806, 0xA806), (0xA80B, 0xA80B), (0xA825, 0xA826), (0xA82C, 0xA82C), (0xA8C4, 0xA8C5),
    (0xA8E0, 0xA8F1), (0xA8FF, 0xA8FF), (0xA926, 0xA92D), (0xA947, 0xA951), (0xA980, 0xA982),
    (0xA9B3, 0xA9B3), (0xA9B6, 0xA9B9), (0xA9BC, 0xA9BD), (0xA9CF, 0xA9CF), (0xA9E5, 0xA9E6),
    (0xAA29, 0xAA2E), (0xAA31, 0xAA32), (0xAA35, 0xAA36), (0xAA43, 0xAA43), (0xAA4C, 0xAA4C),
    (0xAA70, 0xAA70), (0xAA7C, 0xAA7C), (0xAAB0, 0xAAB0), (0xAAB2, 0xAAB4), (0xAAB7, 0xAAB8),
    (0xAABE, 0xAABF), (0xAAC1, 0xAAC1), (0xAADD, 0xAADD), (0xAAEC, 0xAAED), (0xAAF3, 0xAAF4),
    (0xAAF6, 0xAAF6), (0xAB5B, 0xAB5F), (0xAB69, 0xAB6B), (0xABE5, 0xABE5), (0xABE8, 0xABE8),
    (0xABED, 0xABED), (0xFB1E, 0xFB1E), (0xFBB2, 0xFBC2), (0xFE00, 0xFE0F), (0xFE13, 0xFE13),
    (0xFE20, 0xFE2F), (0xFE52, 0xFE52), (0xFE55, 0xFE55), (0xFEFF, 0xFEFF), (0xFF07, 0xFF07),
    (0xFF0E, 0xFF0E), (0xFF1A, 0xFF1A), (0xFF3E, 0xFF3E), (0xFF40, 0xFF40), (0xFF70, 0xFF70),
    (0xFF9E, 0xFF9F), (0xFFE3, 0xFFE3), (0xFFF9, 0xFFFB), (0x101FD, 0x101FD), (0x102E0, 0x102E0),
    (0x10376, 0x1037A), (0x10780, 0x10785), (0x10787, 0x107B0), (0x107B2, 0x107BA), (0x10A01, 0x10A03),
    (0x10A05, 0x10A06), (0x10A0C, 0x10A0F), (0x10A38, 0x10A3A), (0x10A3F, 0x10A3F), (0x10AE5, 0x10AE6),
    (0x10D24, 0x10D27), (0x10EAB, 0x10EAC), (0x10F46, 0x10F50), (0x10F82, 0x10F85), (0x11001, 0x11001),
    (0x11038, 0x11046), (0x11070, 0x11070), (0x11073, 0x11074), (0x1107F, 0x11081), (0x110B3, 0x110B6),
    (0x110B9, 0x110BA), (0x110BD, 0x110BD), (0x110C2, 0x110C2), (0x110CD, 0x110CD), (0x11100, 0x11102),
    (0x11127, 0x1112B), (0x1112D, 0x11134), (0x11173, 0x11173), (0x11180, 0x11181), (0x111B6, 0x111BE),
    (0x111C9, 0x111CC), (0x111CF, 0x111CF), (0x1122F, 0x11231), (0x11234, 0x11234), (0x11236, 0x11237),
    (0x1123E, 0x1123E), (0x112DF, 0x112DF), (0x112E3, 0x112EA), (0x11300, 0x11301), (0x1133B, 0x1133C),
    (0x11340, 0x11340), (0x11366, 0x1136C), (0x11370, 0x11374), (0x11438, 0x1143F), (0x11442, 0x11444),
    (0x11446, 0x11446), (0x1145E, 0x1145E), (0x114B3, 0x114B8), (0x114BA, 0x114BA), (0x114BF, 0x114C0),
    (0x114C2, 0x114C3), (0x115B2, 0x115B5), (0x115BC, 0x115BD), (0x115BF, 0x115C0), (0x115DC, 0x115DD),
    (0x11633, 0x1163A), (0x1163D, 0x1163D), (0x1163F, 0x11640), (0x116AB, 0x116AB), (0x116AD, 0x116AD),
    (0x116B0, 0x116B5), (0x116B7, 0x116B7), (0x1171D, 0x1171F), (0x11722, 0x11725), (0x11727, 0x1172B),
    (0x1182F, 0x11837), (0x11839, 0x1183A), (0x1193B, 0x1193C), (0x1193E, 0x1193E), (0x11943, 0x11943),
    (0x119D4, 0x119D7), (0x119DA, 0x119DB), (0x119E0, 0x119E0), (0x11A01, 0x11A0A), (0x11A33, 0x11A38),
    (0x11A3B, 0x11A3E), (0x11A47, 0x11A47), (0x11A51, 0x11A56), (0x11A59, 0x11A5B), (0x11A8A, 0x11A96),
    (0x11A98, 0x11A99), (0x11C30, 0x11C36), (0x11C38, 0x11C3D), (0x11C3F, 0x11C3F), (0x11C92, 0x11CA7),
    (0x11CAA, 0x11CB0), (0x11CB2, 0x11CB3), (0x11CB5, 0x11CB6), (0x11D31, 0x11D36), (0x11D3A, 0x11D3A),
    (0x11D3C, 0x11D3D), (0x11D3F, 0x11D45), (0x11D47, 0x11D47), (0x11D90, 0x11D91), (0x11D95, 0x11D95),
    (0x11D97, 0x11D97), (0x11EF3, 0x11EF4), (0x13430, 0x13438), (0x16AF0, 0x16AF4), (0x16B30, 0x16B36),
    (0x16B40, 0x16B43), (0x16F4F, 0x16F4F), (0x16F8F, 0x16F9F), (0x16FE0, 0x16FE1), (0x16FE3, 0x16FE4),
    (0x1AFF0, 0x1AFF3), (0x1AFF5, 0x1AFFB), (0x1AFFD, 0x1AFFE), (0x1BC9D, 0x1BC9E), (0x1BCA0, 0x1BCA3),
    (0x1CF00, 0x1CF2D), (0x1CF30, 0x1CF46), (0x1D167, 0x1D169), (0x1D173, 0x1D182), (0x1D185, 0x1D18B),
    (0x1D1AA, 0x1D1AD), (0x1D242, 0x1D244), (0x1DA00, 0x1DA36), (0x1DA3B, 0x1DA6C), (0x1DA75, 0x1DA75),
    (0x1DA84, 0x1DA84), (0x1DA9B, 0x1DA9F), (0x1DAA1, 0x1DAAF), (0x1E000, 0x1E006), (0x1E008, 0x1E018),
    (0x1E01B, 0x1E021), (0x1E023, 0x1E024), (0x1E026, 0x1E02A), (0x1E130, 0x1E13D), (0x1E2AE, 0x1E2AE),
    (0x1E2EC, 0x1E2EF), (0x1E8D0, 0x1E8D6), (0x1E944, 0x1E94B), (0x1F3FB, 0x1F3FF), (0xE0001, 0xE0001),
    (0xE0020, 0xE007F), (0xE0100, 0xE01EF)
  ]

/-- Membership of a code point in a list of ranges. -/
def inRanges (ranges : List (Nat × Nat)) (n : Nat) : Bool :=
  ranges.any (fun r => r.1 ≤ n && n ≤ r.2)

/-- Property `Cased` of a character. -/
def isCased (c : Char) : Bool := inRanges casedRanges c.toNat

/-- Property `Case_Ignorable` of a character. -/
def isCaseIgnorable (c : Char) : Bool := inRanges caseIgnorableRanges c.toNat

/-- The simple lower-case mapping of a code point from U+0080 on: the image in
its run of `lowerCaseRuns`, and the code point itself when no run holds it. -/
def lowerCode (n : Nat) : Nat :=
  match lowerCaseRuns.find? (fun r => r.1 ≤ n && n ≤ r.2.1 && (n - r.1) % r.2.2.1 == 0) with
  | some r => r.2.2.2 + (n - r.1)
  | none => n

/-- Condition `Final_Sigma` of `SpecialCasing.txt` for a capital sigma that
stands after the characters `before` (the nearest first) and in front of the
characters `after`: a cased letter precedes it, with only case-ignorable
characters in between, and no cased letter follows it in the same way. -/
def isFinalSigma (before after : List Char) : Bool :=
  (match before.dropWhile isCaseIgnorable with
   | c :: _ => isCased c
   | [] => false)
    && (match after.dropWhile isCaseIgnorable with
        | c :: _ => !isCased c
        | [] => true)

/-- The lower-case form of the characters of a string that follow the
characters `before` (the nearest first). -/
def lowerChars (before : List Char) : List Char → List Char
  | [] => []
  | c :: rest =>
    (if c.toNat < 0x80 then [Char.toLower c]
     else if c.toNat = 0x03A3 then [if isFinalSigma before rest then 'ς' else 'σ']
     else if c.toNat = 0x0130 then ['i', '\u0307']
     else [Char.ofNat (lowerCode c.toNat)]) ++ lowerChars (c :: before) rest

/-- Method `str.toLowerCase()`. -/
def toLowerCase (str : String) : String :=
  String.mk (lowerChars [] str.data)

/-- Truthiness of a string that may be missing: present and not empty. -/
def truthy : Option String → Bool
  | some s => s != ""
  | none => false

/-- Template-literal interpolation of a string that may be `undefined`. -/
def interpolate : Option String → String
  | some s => s
  | none => "undefined"

/-! ## Type expressions -/

/-- An annotated-type node of the comment parser, as far as the program reads
it: `name` (a name expression), `expression` and `applications` (a type
application). Every field may be missing. -/
inductive TypeExpr where
  | mk (name : Option String) (expression : Option TypeExpr)
      (applications : Option (List TypeExpr))

namespace TypeExpr

/-- The `name` field. -/
def name : TypeExpr → Option String
  | mk n _ _ => n

/-- The `expression` field. -/
def expression : TypeExpr → Option TypeExpr
  | mk _ e _ => e

/-- The `applications` field. -/
def applications : TypeExpr → Option (List TypeExpr)
  | mk _ _ a => a

/-- A name expression `{name}`. -/
def named (n : String) : TypeExpr := mk (some n) none none

/-- A type application `container.<args>`: `{expression: {name: container},
applications: args}`. -/
def applied (container : String) (args : List TypeExpr) : TypeExpr :=
  mk none (some (named container)) (some args)

end TypeExpr

/-! ## Leaf translators (`parse-swagger.js`, lines 13-107) -/

/-- Route descriptor returned by `parseRoute`. -/
structure Route where
  method : String
  uri : String
  deriving DecidableEq, Repr

/-- Function `parseRoute(str)`, lines 13-20. -/
def parseRoute (str : String) : Route :=
  let split := split ' ' str
  { method :=
      let m := toLowerCase (split.headD "")
      if m != "" then m else "get"
    uri :=
      match split[1]? with
      | some u => if u != "" then u else ""
      | none => "" }

/-- Result of `parseField`. -/
structure Field where
  name : String
  parameter_type : String
  required : Bool
  deriving DecidableEq, Repr

/-- Function `parseField(str)`, lines 22-29. -/
def parseField (str : String) : Field :=
  let split := split '.' str
  { name := split.headD ""
    parameter_type :=
      match split[1]? with
      | some p => if p != "" then p else "get"
      | none => "get"
    required :=
      match split[2]? with
      | some r => if r != "" && r == "required" then true else false
      | none => false }

/-- Function `parseType(obj)`, lines 31-44. `none` as a result is `undefined`. -/
def parseType (obj : Option TypeExpr) : Option String :=
  match obj with
  | none => none
  | some obj =>
    if truthy obj.name then
      let name := obj.name.getD ""
      let spl := split '.' name
      if spl.length > 1 && spl[1]? == some "model" then
        some (spl.headD "")
      else some name
    else
      match obj.expression with
      | some expression =>
        if truthy expression.name then
          some (toLowerCase (expression.name.getD ""))
        else some "string"
      | none => some "string"

/-- The `items` value of a container schema, an entry of `oneOf`, and the
result of `parseItems`: `{type}` or `{$ref}`. -/
inductive Items where
  | type (type : String)
  | ref (ref : String)
  deriving DecidableEq, Repr

/-- Schema fragment returned by `parseSchema`. -/
inductive Schema where
  /-- The object `{$ref}`. -/
  | ref (ref : String)
  /-- The object `{type, items}`. -/
  | container (type : String) (items : Items)
  /-- The object `{type, items: {oneOf}}`. -/
  | oneOf (type : String) (oneOf : List Items)
  deriving DecidableEq, Repr

/-- The test `type === 'object' || type === 'string' || type === 'integer' ||
type === 'boolean'` of lines 59-64, 82-87 and 191-196. -/
def isPrimitive (type : Option String) : Bool :=
  type == some "object" || type == some "string" || type == some "integer"
    || type == some "boolean"

/-- The entry built from one type argument: `{type}` for a primitive keyword
and a reference to the definition of that name otherwise. -/
def itemOf (type : Option String) : Items :=
  if isPrimitive type then .type (interpolate type)
  else .ref ("#/definitions/" ++ interpolate type)

/-- Expression `obj.expression.name.toLowerCase()`: raises when `expression` or its
`name` is missing. -/
def containerType (obj : TypeExpr) : Except JsError String :=
  match obj.expression with
  | none => throw (.typeError "obj.expression is undefined")
  | some expression =>
    match expression.name with
    | none => throw (.typeError "obj.expression.name is undefined")
    | some name => pure (toLowerCase name)

/-- The loop of lines 79-103 over `obj.applications`, entered with the
accumulated `oneOf`. Its body pushes the entry of the current type argument
and then executes the `return` of lines 97-102, which stands inside the loop:
the first iteration ends the function. With no type argument the loop body is
not run and control reaches the `return undefined` of line 106. -/
def oneOfLoop (obj : TypeExpr) (oneOf : List Items) :
    List TypeExpr → Except JsError (Option Schema)
  | [] => pure none
  | application :: _ => do
    let oneOf := oneOf ++ [itemOf application.name]
    let container ← containerType obj
    pure (some (.oneOf container oneOf))

/-- Function `parseSchema(obj)`, lines 46-107. `none` as a result is `undefined`. The
argument is read without a guard, so a missing argument raises. -/
def parseSchema (obj : Option TypeExpr) : Except JsError (Option Schema) :=
  match obj with
  | none => throw (.typeError "obj is undefined")
  | some obj =>
    if !(truthy obj.name || obj.applications.isSome) then pure none
    else
      match obj.name with
      | some name =>
        let spl := split '.' name
        if spl.length > 1 && spl[1]? == some "model" then
          pure (some (.ref ("#/definitions/" ++ spl.headD "")))
        else pure none
      | none =>
        match obj.applications with
        | some [application] => do
          let type := application.name
          if isPrimitive type then
            let container ← containerType obj
            pure (some (.container container (.type (interpolate type))))
          else
            let container ← containerType obj
            pure (some (.container container
              (.ref ("#/definitions/" ++ interpolate application.name))))
        | some applications => oneOfLoop obj [] applications
        | none => pure none

/-- Function `parseItems(obj)`, lines 184-202. The argument is read without a guard. -/
def parseItems (obj : Option TypeExpr) : Except JsError (Option Items) :=
  match obj with
  | none => throw (.typeError "obj is undefined")
  | some obj =>
    match obj.applications with
    | some (application :: _) =>
      if truthy application.name then pure (some (itemOf application.name))
      else pure none
    | _ => pure none

/-! ## Regular expressions of the program -/

/-- Method `str.split(re)` for a regular expression without capture groups that
matches no empty string. `matchAt` is the matcher anchored at the start of
its argument and returns the length of the match. The scan tries each position
from the left; after a match it continues behind it. `skip` counts the
characters of the current match still to pass, `cur` is the piece under
construction, reversed. -/
def regexSplitAux (matchAt : List Char → Option Nat) :
    Nat → List Char → List Char → List (List Char)
  | _, cur, [] => [cur.reverse]
  | skip + 1, cur, _ :: cs => regexSplitAux matchAt skip cur cs
  | 0, cur, c :: cs =>
    match matchAt (c :: cs) with
    | some (n + 1) => cur.reverse :: regexSplitAux matchAt n [] cs
    | _ => regexSplitAux matchAt 0 (c :: cur) cs

/-- Method `str.split(re)`, see `regexSplitAux`. -/
def regexSplit (matchAt : List Char → Option Nat) (str : String) : List String :=
  (regexSplitAux matchAt 0 [] str.data).map String.mk

/-- Length of the leading run of white space. -/
def spaceRun (cs : List Char) : Nat := (cs.takeWhile isWhiteSpace).length

/-- Matcher of the example marker of lines 252 and 304: a hyphen, `\s*`,
`eg:`, `\s*`. -/
def matchExampleMarker : List Char → Option Nat
  | '-' :: cs =>
    match cs.drop (spaceRun cs) with
    | 'e' :: 'g' :: ':' :: rest => some (1 + spaceRun cs + 3 + spaceRun rest)
    | _ => none
  | _ => none

/-- Matcher of the separator of line 149: `\s+`, a hyphen, `\s+`. -/
def matchSpacedHyphen (cs : List Char) : Option Nat :=
  if spaceRun cs = 0 then none
  else
    match cs.drop (spaceRun cs) with
    | '-' :: rest =>
      if spaceRun rest = 0 then none else some (spaceRun cs + 1 + spaceRun rest)
    | _ => none

/-- Matcher of `\s+` (lines 125 and 129). -/
def matchSpaces (cs : List Char) : Option Nat :=
  if spaceRun cs = 0 then none else some (spaceRun cs)

/-- Method `str.match(/c+/)` for a character class `c`: the leftmost maximal run of
characters of the class, `none` (`null`) when there is none. -/
def firstRun (p : Char → Bool) (str : String) : Option String :=
  match str.data.dropWhile (fun c => !p c) with
  | [] => none
  | cs => some (String.mk (cs.takeWhile p))

/-- Method `str.replace(pattern, '')` for a string pattern: the first occurrence is
removed. -/
def removeFirst (pattern : List Char) : List Char → List Char
  | [] => []
  | c :: cs =>
    if pattern.isPrefixOf (c :: cs) then (c :: cs).drop pattern.length
    else c :: removeFirst pattern cs

/-! ## Objects and values -/

/-- A JavaScript object used as a finite map: its own properties in insertion
order. -/
abbrev Obj (α : Type) := List (String × α)

namespace Obj

/-- Property read `o[k]`; `none` is `undefined`. -/
def get {α : Type} : Obj α → String → Option α
  | [], _ => none
  | (k, v) :: rest, key => if k = key then some v else get rest key

/-- Property write `o[k] = v`: an existing key keeps its position. -/
def set {α : Type} : Obj α → String → α → Obj α
  | [], key, value => [(key, value)]
  | (k, v) :: rest, key, value =>
    if k = key then (k, value) :: rest else (k, v) :: set rest key value

end Obj

/-- A JavaScript value in general (JSON-like data, and `undefined`). -/
inductive JsValue where
  | undefined
  | null
  | bool (b : Bool)
  | num (n : Int)
  | str (s : String)
  | arr (items : List JsValue)
  | obj (members : List (String × JsValue))

/-! ## Tags, comment blocks and the host -/

/-- A tag of a comment block, as the comment parser delivers it. A field that
is `none` is missing (`null` for `description`, which the comment parser sets
on every tag; an absent key for `name` and `type`). -/
structure Tag where
  title : String
  name : Option String := none
  description : Option String := none
  type : Option TypeExpr := none

/-- A comment block `{description, tags}`. -/
structure Comment where
  description : Option String := none
  tags : List Tag

/-- The keys that `for (const i in comments)` enumerates. -/
def Comment.keys (_ : Comment) : List String := ["description", "tags"]

/-- The value that a plain call `f(x)` binds to `this` in the callee.
`undefined` in strict code, which the code of an ES module always is, and the
global object in a non-strict script, where the top-level function
declarations `parseDescription` and `parseType` are properties of that
object. `fileFormat` (line 580), `parseTypedef` (line 364) and `parseReturn`
(line 438) are all called plainly. -/
inductive ThisValue where
  | undefined
  | globalObject
  deriving DecidableEq, Repr

/-- What the translators take from outside of the file: the binding of `this`
in plain calls, and the built-in `JSON.parse` (`none`: it raises). -/
structure Host where
  thisValue : ThisValue
  jsonParse : String → Option JsValue

/-- The binding of `this` for the file as it is: an ES module (lines 1-7 are
`import` declarations, line 548 is an `export`). -/
def moduleHost (jsonParse : String → Option JsValue) : Host :=
  { thisValue := .undefined, jsonParse := jsonParse }

/-- Conversion `String(value)` for a description that may be `null`. -/
def stringOfNullable : Option String → String
  | some s => s
  | none => "null"

/-- A string method is called on `str`: raises when `str` is missing. -/
def requireString (what : String) : Option String → Except JsError String
  | some s => pure s
  | none => throw (.typeError (what ++ " is null or undefined"))

/-! ## Tag translators (`parse-swagger.js`, lines 109-264) -/

/-- Function `parseDescription(obj)`, lines 109-113. -/
def parseDescription (obj : Comment) : String :=
  let description := if truthy obj.description then obj.description.getD "" else ""
  String.mk (removeFirst "/**".data description.data)

/-- Call `this.parseDescription(comments)` of line 357. -/
def thisParseDescription (host : Host) (comments : Comment) : Except JsError String :=
  match host.thisValue with
  | .undefined => throw (.typeError "this is undefined (reading parseDescription)")
  | .globalObject => pure (parseDescription comments)

/-- Call `this.parseType(obj)` of lines 221, 302 and 395. -/
def thisParseType (host : Host) (obj : Option TypeExpr) : Except JsError (Option String) :=
  match host.thisValue with
  | .undefined => throw (.typeError "this is undefined (reading parseType)")
  | .globalObject => pure (parseType obj)

/-- What `parseTag` reads of each value that its `for ... in` enumerates: the
properties `title` and `description` of that value. -/
structure Member where
  title : Option String
  description : Option String

/-- Function `parseTag(tags)`, lines 115-122, on the values that the loop
enumerates; `none` is a value `null`, on which reading `title` raises. -/
def parseTag : List (Option Member) → Except JsError (List String)
  | [] => pure ["default", ""]
  | none :: _ => throw (.typeError "Cannot read properties of null (reading title)")
  | some member :: rest =>
    if member.title == some "group" then do
      let description ← requireString "description" member.description
      pure (split '-' description)
    else parseTag rest

/-- The values enumerated in an array of tags: the tags. -/
def membersOfTags (tags : List Tag) : List (Option Member) :=
  tags.map (fun tag => some { title := some tag.title, description := tag.description })

/-- The values enumerated in one tag object, which is what line 373 passes:
the values of its own properties `title`, `description`, `type` and `name`.
A string and a type node have no property `title` or `description`; a
description that is `null` is enumerated as `null`. -/
def membersOfTag (tag : Tag) : List (Option Member) :=
  let other : Option Member := some { title := none, description := none }
  [other] ++ [if tag.description.isSome then other else none]
    ++ (if tag.type.isSome then [other] else [])
    ++ (if tag.name.isSome then [other] else [])

/-- Function `parseProduces(str)` and `parseConsumes(str)`, lines 124-130. -/
def parseProduces (str : String) : List String := regexSplit matchSpaces str

/-- Function `parseSecurity(comments)`, lines 132-143. -/
def parseSecurity (host : Host) (comments : Option String) : JsValue :=
  let text := stringOfNullable comments
  match host.jsonParse text with
  | some security => security
  | none => .arr [.obj [(text, .arr [])]]

/-- A header entry `{type, description}`. -/
structure Header where
  type : String
  description : Option String
  deriving DecidableEq, Repr

/-- The loop of `parseHeaders`, lines 147-176, with the accumulated `headers`;
each `break` returns what has been accumulated. -/
def parseHeadersLoop : List Tag → Obj (Obj Header) → Except JsError (Obj (Obj Header))
  | [], headers => pure headers
  | comment :: rest, headers =>
    if comment.title == "headers" || comment.title == "header" then do
      let text ← requireString "description" comment.description
      let description := regexSplit matchSpacedHyphen text
      if description.length < 1 then pure headers
      else
        let code2name := split '.' (description.headD "")
        if code2name.length < 2 then pure headers
        else
          let type := firstRun isWordChar (code2name.headD "")
          let code := firstRun isDigitChar (code2name.headD "")
          match type, code with
          | some type0, some code =>
            let code0 := trim code
            let headers := if (headers.get code0).isNone then headers.set code0 [] else headers
            let entry : Header := { type := type0, description := description[1]? }
            let headers :=
              headers.set code0 (((headers.get code0).getD []).set (code2name[1]?.getD "") entry)
            parseHeadersLoop rest headers
          | _, _ => pure headers
    else parseHeadersLoop rest headers

/-- Function `parseHeaders(comments)`, lines 145-178. -/
def parseHeaders (comments : List Tag) : Except JsError (Obj (Obj Header)) :=
  parseHeadersLoop comments []

/-- A response entry `{description, headers, schema}`. -/
structure Response where
  description : String
  headers : Option (Obj Header) := none
  schema : Option Schema := none
  deriving DecidableEq, Repr

/-- Function `parseReturn(tags)`, lines 208-245. -/
def parseReturn (host : Host) (tags : List Tag) : Except JsError (Obj Response) := do
  let headers ← parseHeaders tags
  tags.foldlM (fun (rets : Obj Response) tag =>
    if tag.title == "returns" || tag.title == "return" then do
      let text ← requireString "description" tag.description
      let description := split '-' text
      let key := trim (description.headD "")
      let entry : Response :=
        { description := if truthy description[1]? then trim (description[1]?.getD "") else ""
          headers := headers.get key }
      let type ← thisParseType host tag.type
      if truthy type then do
        let schema ← parseSchema tag.type
        pure (rets.set key { entry with schema := schema })
      else pure (rets.set key entry)
    else pure rets) []

/-- Value of `parseType.length`: the number of declared parameters of the function
`parseType(obj)`, which is what line 257 tests. -/
def parseType_length : Nat := 1

/-- Result of `parseEnums`: the object `{type, enums}`, or the empty array of
line 254, on which both properties are `undefined`. -/
structure ParsedEnum where
  type : Option String
  enums : Option (List String)
  deriving DecidableEq, Repr

/-- Function `parseEnums(description)`, lines 251-264. Line 257 tests the function
`parseType`, not `currentParseType`, and line 258 reads `parseType[0]`, which
is `undefined`; line 262 then calls `split` on it. -/
def parseEnums (description : String) : Except JsError ParsedEnum :=
  let enums := regexSplit matchExampleMarker description
  if enums.length < 2 then pure { type := none, enums := none }
  else do
    let currentParseType : List (Option String) :=
      if parseType_length = 1 then [some "string", none]
      else (split ':' (enums[1]?.getD "")).map some
    let second ← requireString "currentParseType[1]" (currentParseType[1]?.bind id)
    pure { type := currentParseType.headD none, enums := some (split ',' second) }

/-! ## Typedef translator (`parse-swagger.js`, lines 273-344) -/

/-- The value of a property's `example` field. -/
inductive ExampleValue where
  /-- The boolean `example === 'true'`. -/
  | bool (b : Bool)
  /-- The number `+example`, kept as the text it is converted from. -/
  | number (source : String)
  /-- The text itself. -/
  | string (s : String)
  deriving DecidableEq, Repr

/-- The object `prop` of lines 309-323 and 325-339. -/
structure Property where
  type : Option String
  description : String
  items : Option Items
  readOnly : Option Bool := none
  enum : Option (List String) := none
  «example» : Option ExampleValue := none
  deriving DecidableEq, Repr

/-- A value of `details.properties`: a schema (line 299) or a `prop`
(line 317). -/
inductive PropertySchema where
  | schema (schema : Schema)
  | prop (prop : Property)
  deriving DecidableEq, Repr

/-- The object `details` of `parseTypedef`. -/
structure Definition where
  required : List String := []
  properties : Obj PropertySchema := []
  allOf : Option (List Schema) := none
  deriving DecidableEq, Repr

/-- Result of `parseTypedef`; the type name is used as a property key. -/
structure Typedef where
  typeName : String
  details : Definition
  deriving DecidableEq, Repr

/-- The body of the loop of `parseTypedef`, lines 283-341, for the tag
`tags[i]`. -/
def parseProperty (host : Host) (details : Definition) (tag : Tag) :
    Except JsError Definition :=
  if tag.title == "property" then do
    let currentPropName ← requireString "name" tag.name
    let propNameArr := split '.' currentPropName
    let props := propNameArr.drop 1
    let required := props.contains "required"
    let readOnly := props.contains "readOnly"
    let currentPropName :=
      if required then (split '.' currentPropName).headD "" else currentPropName
    let details :=
      if required then { details with required := details.required ++ [currentPropName] }
      else details
    let schema ← parseSchema tag.type
    match schema with
    | some schema =>
      pure { details with properties := details.properties.set currentPropName (.schema schema) }
    | none => do
      let type ← thisParseType host tag.type
      let parsedDescription :=
        regexSplit matchExampleMarker (if truthy tag.description then tag.description.getD "" else "")
      let description := parsedDescription.headD ""
      let exampleText := parsedDescription[1]?
      let items ← parseItems tag.type
      let prop : Property := { type := type, description := description, items := items }
      let prop := if readOnly then { prop with readOnly := some true } else prop
      let prop ←
        if prop.type == some "enum" then do
          let parsedEnum ← parseEnums ("-eg:" ++ interpolate exampleText)
          pure { prop with type := parsedEnum.type, enum := parsedEnum.enums }
        else pure prop
      let prop :=
        match exampleText with
        | some text =>
          if text != "" then
            if type == some "boolean" then { prop with «example» := some (.bool (text == "true")) }
            else if type == some "integer" then { prop with «example» := some (.number text) }
            else if type == some "enum" then prop
            else { prop with «example» := some (.string text) }
          else prop
        | none => prop
      pure { details with properties := details.properties.set currentPropName (.prop prop) }
  else pure details

/-- Function `parseTypedef(tags)`, lines 273-344. -/
def parseTypedef (host : Host) (tags : List Tag) : Except JsError Typedef :=
  match tags with
  | [] => throw (.typeError "tags[0] is undefined")
  | first :: rest => do
    let details : Definition :=
      match first.type with
      | some type =>
        if truthy type.name then
          { allOf := some [.ref ("#/definitions/" ++ interpolate type.name)] }
        else {}
      | none => {}
    let details ← rest.foldlM (parseProperty host) details
    pure { typeName := interpolate first.name, details := details }

/-! ## File formatter (`parse-swagger.js`, lines 350-520) -/

/-- The object `properties` of lines 386-402. -/
structure Parameter where
  name : String
  «in» : String
  description : Option String
  required : Bool
  type : Option String := none
  enum : Option (List String) := none
  schema : Option Schema := none
  deriving DecidableEq, Repr

/-- An operation object `parameters[route.uri][route.method]`; it starts as
`{}` (line 375). -/
structure Operation where
  parameters : Option (List Parameter) := none
  description : Option String := none
  tags : Option (List String) := none
  operationId : Option String := none
  summary : Option String := none
  produces : Option (List String) := none
  consumes : Option (List String) := none
  security : Option JsValue := none
  deprecated : Option Bool := none
  responses : Option (Obj Response) := none

/-- A tag-grouping entry `{name, description}` of line 379. -/
structure TagEntry where
  name : String
  description : String
  deriving DecidableEq, Repr

/-- The local variables of `fileFormat`, lines 351-355. -/
structure FormatState where
  route : Option Route := none
  parameters : Obj (Obj Operation) := []
  params : List Parameter := []
  tags : List TagEntry := []
  definitions : Obj Definition := []

/-- The assignment `parameters[route.uri][route.method].field = value`, as an
update of the operation at the current route. -/
def FormatState.updateOperation (st : FormatState) (route : Route)
    (update : Operation → Operation) : Except JsError FormatState :=
  match st.parameters.get route.uri with
  | none => throw (.typeError "parameters[route.uri] is undefined")
  | some methods =>
    match methods.get route.method with
    | none => throw (.typeError "parameters[route.uri][route.method] is undefined")
    | some operation =>
      pure { st with
        parameters := st.parameters.set route.uri (methods.set route.method (update operation)) }

/-- The block `if (title === 'route')`, lines 371-383. -/
def formatRoute (desc : String) (st : FormatState) (comment : Tag) :
    Except JsError FormatState := do
  let description ← requireString "description" comment.description
  let route := parseRoute description
  let tag ← parseTag (membersOfTag comment)
  let methods := (st.parameters.get route.uri).getD []
  let operation := (methods.get route.method).getD {}
  let operation :=
    { operation with
      parameters := some []
      description := some desc
      tags := some [trim (tag.headD "")] }
  pure { st with
    route := some route
    parameters := st.parameters.set route.uri (methods.set route.method operation)
    tags := st.tags ++
      [{ name := trim (tag.headD "")
         description := match tag[1]? with
           | some d => trim d
           | none => "" }] }

/-- The block `if (title === 'param')`, lines 384-404. -/
def formatParam (host : Host) (st : FormatState) (comment : Tag) :
    Except JsError FormatState := do
  let name ← requireString "name" comment.name
  let field := parseField name
  let properties : Parameter :=
    { name := field.name
      «in» := field.parameter_type
      description := comment.description
      required := field.required }
  let schema ← parseSchema comment.type
  let properties ←
    match schema with
    | none => do
      let type ← thisParseType host comment.type
      if type == some "enum" then do
        let parsedEnum ← parseEnums (stringOfNullable comment.description)
        pure { properties with type := parsedEnum.type, enum := parsedEnum.enums }
      else pure { properties with type := type }
    | some schema => pure { properties with schema := some schema }
  pure { st with params := st.params ++ [properties] }

/-- The blocks `if (title === ... && route)`, lines 406-434. -/
def formatOperationField (host : Host) (st : FormatState) (comment : Tag) :
    Except JsError FormatState :=
  match st.route with
  | none => pure st
  | some route =>
    if comment.title == "operationId" then
      st.updateOperation route (fun op => { op with operationId := comment.description })
    else if comment.title == "summary" then
      st.updateOperation route (fun op => { op with summary := comment.description })
    else if comment.title == "produces" then do
      let description ← requireString "description" comment.description
      st.updateOperation route (fun op => { op with produces := some (parseProduces description) })
    else if comment.title == "consumes" then do
      let description ← requireString "description" comment.description
      st.updateOperation route (fun op => { op with consumes := some (parseProduces description) })
    else if comment.title == "security" then
      st.updateOperation route
        (fun op => { op with security := some (parseSecurity host comment.description) })
    else if comment.title == "deprecated" then
      st.updateOperation route (fun op => { op with deprecated := some true })
    else pure st

/-- The callback of `forEach`, lines 369-442, for one tag of the block
`tags`. -/
def formatTag (host : Host) (desc : String) (tags : List Tag) (st : FormatState)
    (comment : Tag) : Except JsError FormatState := do
  let st ← if comment.title == "route" then formatRoute desc st comment else pure st
  let st ← if comment.title == "param" then formatParam host st comment else pure st
  let st ← formatOperationField host st comment
  match st.route with
  | none => pure st
  | some route => do
    let st ← st.updateOperation route (fun op => { op with parameters := some st.params })
    let responses ← parseReturn host tags
    st.updateOperation route (fun op => { op with responses := some responses })

/-- The body of the loop `for (const i in comments)`, lines 357-517. -/
def formatKey (host : Host) (comments : Comment) (st : FormatState) (i : String) :
    Except JsError FormatState := do
  let desc ← thisParseDescription host comments
  if i = "tags" then
    match comments.tags with
    | first :: _ =>
      if first.title != "" && first.title == "typedef" then do
        let typedefParsed ← parseTypedef host comments.tags
        pure { st with
          definitions := st.definitions.set typedefParsed.typeName typedefParsed.details }
      else comments.tags.foldlM (formatTag host desc comments.tags) st
    | [] => comments.tags.foldlM (formatTag host desc comments.tags) st
  else pure st

/-- Result of `fileFormat`. -/
structure Formatted where
  parameters : Obj (Obj Operation)
  tags : List TagEntry
  definitions : Obj Definition

/-- Line 437 stores the array `params` itself in the operation, not a copy, so
every element pushed later (line 403) is also an element of the operation's
`parameters`: in the returned record each operation holds the final
`params`. -/
def shareParams (params : List Parameter) (parameters : Obj (Obj Operation)) :
    Obj (Obj Operation) :=
  parameters.map (fun (uri, methods) =>
    (uri, methods.map (fun (method, operation) =>
      (method, { operation with parameters := some params }))))

/-- Function `fileFormat(comments)`, lines 350-520. -/
def fileFormat (host : Host) (comments : Comment) : Except JsError Formatted := do
  let st ← comments.keys.foldlM (formatKey host comments) {}
  pure { parameters := shareParams st.params st.parameters
         tags := st.tags
         definitions := st.definitions }

/-! ## Values at run time (`parse-swagger-util.js`) -/

namespace JsValue

/-- Truthiness (`ToBoolean`). -/
def truthy : JsValue → Bool
  | undefined => false
  | null => false
  | bool b => b
  | num n => n != 0
  | str s => s != ""
  | arr _ => true
  | obj _ => true

/-- The strict equality `a === b` on primitive values. Two objects or arrays
are strictly equal only when they are one and the same object; identity is not
part of this model, where they compare unequal. -/
def strictEquals : JsValue → JsValue → Bool
  | undefined, undefined => true
  | null, null => true
  | bool a, bool b => a == b
  | num a, num b => a == b
  | str a, str b => a == b
  | _, _ => false

/-- The array index that a property key denotes: a decimal numeral without a
leading zero. -/
def indexOfKey (key : String) : Option Nat :=
  match key.data with
  | [] => none
  | ['0'] => some 0
  | '0' :: _ => none
  | cs =>
    if cs.all isDigitChar then
      some (cs.foldl (fun n c => 10 * n + (c.toNat - '0'.toNat)) 0)
    else none

/-- The property key of an array index. -/
def keyOfIndex (i : Nat) : String := toString i

/-- The index keys `0`, .., `n - 1` paired with the elements. -/
def indexed {α : Type} (xs : List α) : Obj α :=
  (List.range xs.length).zipWith (fun i x => (keyOfIndex i, x)) xs

/-- The one-character strings of a string. -/
def charsOf (s : String) : List JsValue :=
  s.data.map (fun c => str (String.mk [c]))

/-- Property read `v[key]`; raises on `undefined` and `null`. -/
def getProp (v : JsValue) (key : String) : Except JsError JsValue :=
  match v with
  | undefined => throw (.typeError ("Cannot read properties of undefined (reading " ++ key ++ ")"))
  | null => throw (.typeError ("Cannot read properties of null (reading " ++ key ++ ")"))
  | obj members => pure ((Obj.get members key).getD undefined)
  | arr items =>
    if key = "length" then pure (num items.length)
    else pure (((indexOfKey key).bind (fun i => items[i]?)).getD undefined)
  | str s =>
    if key = "length" then pure (num s.length)
    else pure (((indexOfKey key).bind (fun i => (charsOf s)[i]?)).getD undefined)
  | _ => pure undefined

/-- Built-in `Object.getOwnPropertyNames(v)`; raises on `undefined` and `null`. -/
def getOwnPropertyNames (v : JsValue) : Except JsError (List String) :=
  match v with
  | undefined => throw (.typeError "Cannot convert undefined or null to object")
  | null => throw (.typeError "Cannot convert undefined or null to object")
  | obj members => pure (members.map Prod.fst)
  | arr items => pure ((List.range items.length).map keyOfIndex ++ ["length"])
  | str s => pure ((List.range s.length).map keyOfIndex ++ ["length"])
  | _ => pure []

/-- The own enumerable properties that a spread `...v` copies. -/
def spreadOf (v : JsValue) : Obj JsValue :=
  match v with
  | obj members => members
  | arr items => indexed items
  | str s => indexed (charsOf s)
  | _ => []

end JsValue

/-- The object literal `{...a, ...b}`. -/
def spread (a b : JsValue) : Obj JsValue :=
  (a.spreadOf ++ b.spreadOf).foldl (fun o kv => o.set kv.1 kv.2) []

/-! ## Swagger aggregator (`parse-swagger-util.js`, lines 12-193) -/

/-- The swagger object that the aggregator writes to: its tag list (an array,
or missing) and its other own properties, `paths` among them. -/
structure SwaggerObject where
  tags : Option (List JsValue)
  fields : Obj JsValue

/-- The property read `swaggerObject.paths`. -/
def SwaggerObject.paths (swaggerObject : SwaggerObject) : JsValue :=
  (swaggerObject.fields.get "paths").getD .undefined

/-- The loop of `isExistTag`, lines 15-22, from the entry `targetTag` on. -/
def isExistTagLoop (tag : JsValue) : List JsValue → Except JsError Bool
  | [] => pure false
  | targetTag :: rest => do
    let targetName ← targetTag.getProp "name"
    let tagName ← tag.getProp "name"
    if targetName.strictEquals tagName then pure true else isExistTagLoop tag rest

/-- Function `isExistTag(target, tag)`, lines 12-27. -/
def isExistTag (target : Option (List JsValue)) (tag : JsValue) : Except JsError Bool :=
  match target with
  | none => pure false
  | some target =>
    if target.length != 0 && tag.truthy then isExistTagLoop tag target else pure false

/-- The swagger object after a call that writes to it in place, and the
exception if the call raised. -/
structure Run where
  swaggerObject : SwaggerObject
  raised : Option JsError

/-- A loop whose body writes to the swagger object; an exception ends it. -/
def runEach {α : Type} (body : SwaggerObject → α → Run) : List α → SwaggerObject → Run
  | [], swaggerObject => { swaggerObject := swaggerObject, raised := none }
  | x :: xs, swaggerObject =>
    let run := body swaggerObject x
    match run.raised with
    | some _ => run
    | none => runEach body xs run.swaggerObject

/-- The statement `if (!isExistTag(swaggerObject[propertyName], tag))
swaggerObject[propertyName].push(tag)` of lines 46-48 and 51-53, where
`propertyName` is `tags`. -/
def pushTagUnlessExists (swaggerObject : SwaggerObject) (tag : JsValue) : Run :=
  match isExistTag swaggerObject.tags tag with
  | .error e => { swaggerObject := swaggerObject, raised := some e }
  | .ok true => { swaggerObject := swaggerObject, raised := none }
  | .ok false =>
    match swaggerObject.tags with
    | none =>
      { swaggerObject := swaggerObject
        raised := some (.typeError "Cannot read properties of undefined (reading push)") }
    | some tags => { swaggerObject := { swaggerObject with tags := some (tags ++ [tag]) }, raised := none }

/-- Function `attachTagsProperty(conf)`, lines 34-54, for `conf.propertyName` one of
`tag` and `tags` (its only call, line 148): both address the property `tags`
of the swagger object. -/
def attachTagsProperty (tag : JsValue) (swaggerObject : SwaggerObject) : Run :=
  match tag with
  | .arr items => runEach pushTagUnlessExists items swaggerObject
  | tag => pushTagUnlessExists swaggerObject tag

/-- The list `swaggerSchemaWrongProperties`, lines 79-90. -/
def swaggerSchemaWrongProperties : List String :=
  ["consume", "produce", "path", "tag", "definition", "securityDefinition", "scheme",
   "response", "parameter", "deprecated"]

/-- Function `resetSwaggerKey(propertyName)`, lines 98-104; the test is
`indexOf(propertyName) > 0`. -/
def resetSwaggerKey (propertyName : String) : String :=
  if 0 < swaggerSchemaWrongProperties.indexOf propertyName
      ∧ swaggerSchemaWrongProperties.indexOf propertyName < swaggerSchemaWrongProperties.length then
    propertyName ++ "s"
  else propertyName

/-- The list `simpleProperties`, lines 115-132. -/
def simpleProperties : List String :=
  ["consume", "consumes", "produce", "produces", "schema", "schemas", "securityDefinition",
   "securityDefinitions", "response", "responses", "parameter", "parameters", "definition",
   "definitions"]

/-- The assignment `swaggerInstance[keyName][definitionName] = value` of line
142 and `swaggerInstance.paths[route] = value` of line 163, on the local
object `swaggerInstance`: raises when `swaggerInstance[keyName]` is
`undefined`. -/
def assignIn (swaggerInstance : Obj (Obj JsValue)) (keyName name : String) (value : JsValue) :
    Except JsError (Obj (Obj JsValue)) :=
  match swaggerInstance.get keyName with
  | none => throw (.typeError ("Cannot set properties of undefined (setting " ++ name ++ ")"))
  | some target => pure (swaggerInstance.set keyName (target.set name value))

/-- Function `handleSwaggerProperties(swaggerObject, pathObject, propertyName)`, lines
113-169, for an own property `propertyName` of `pathObject`. The object
`swaggerInstance` of line 114 is local to the call and starts empty; lines 142
and 163 write to it, and nothing of it reaches `swaggerObject`. -/
def handleSwaggerProperties (swaggerObject : SwaggerObject) (pathObject : Obj JsValue)
    (propertyName : String) : Run :=
  let swaggerInstance : Obj (Obj JsValue) := []
  let value := (pathObject.get propertyName).getD .undefined
  if simpleProperties.contains propertyName then
    let keyName := resetSwaggerKey propertyName
    let outcome : Except JsError (Obj (Obj JsValue)) := do
      let definitionNames ← value.getOwnPropertyNames
      definitionNames.foldlM (fun swaggerInstance definitionName => do
        let definition ← value.getProp definitionName
        assignIn swaggerInstance keyName definitionName definition) swaggerInstance
    match outcome with
    | .ok _ => { swaggerObject := swaggerObject, raised := none }
    | .error e => { swaggerObject := swaggerObject, raised := some e }
  else if propertyName = "tag" ∨ propertyName = "tags" then
    attachTagsProperty value swaggerObject
  else
    let outcome : Except JsError (Obj (Obj JsValue)) := do
      let routes ← value.getOwnPropertyNames
      routes.foldlM (fun swaggerInstance route => do
        let swaggerInstance :=
          if !swaggerObject.paths.truthy then swaggerInstance.set "paths" [] else swaggerInstance
        let existing ← swaggerObject.paths.getProp route
        let added ← value.getProp route
        assignIn swaggerInstance "paths" route (.obj (spread existing added))) swaggerInstance
    match outcome with
    | .ok _ => { swaggerObject := swaggerObject, raised := none }
    | .error e => { swaggerObject := swaggerObject, raised := some e }

/-- Function `addDataToSwaggerObject(swaggerObject, data)`, lines 178-193. Either
argument may be missing (`none`). The swagger object is written to in place:
the result holds it as the call leaves it, also when the call raises. -/
def addDataToSwaggerObject (swaggerObject : Option SwaggerObject)
    (data : Option (List (Obj JsValue))) : Except JsError Run :=
  match swaggerObject, data with
  | some swaggerObject, some data =>
    pure (runEach (fun swaggerObject pathObject =>
      runEach (fun swaggerObject propertyName =>
        handleSwaggerProperties swaggerObject pathObject propertyName)
        (pathObject.map Prod.fst) swaggerObject) data swaggerObject)
  | _, _ => throw (.error "swaggerObject and data are required!")

/-- The expression `swaggerObject[key] || fallback` of lines 66-69 on the own
properties of the seed. -/
def seedOr (fields : Obj JsValue) (key : String) (fallback : JsValue) : JsValue :=
  if ((fields.get key).getD .undefined).truthy then (fields.get key).getD .undefined
  else fallback

/-- Function `initDefaultSwaggerInstance(swaggerObject)`, lines 63-72: a new
object with the properties `swagger`, `paths`, `responses`, `parameters`,
`securityDefinitions` and `tags`, in this order, and no other. A tag list of
the seed is an array, which is truthy. -/
def initDefaultSwaggerInstance (swaggerObject : SwaggerObject) : SwaggerObject :=
  { fields :=
      [("swagger", .str "2.0"),
       ("paths", seedOr swaggerObject.fields "paths" (.obj [])),
       ("responses", seedOr swaggerObject.fields "responses" (.obj [])),
       ("parameters", seedOr swaggerObject.fields "parameters" (.obj [])),
       ("securityDefinitions", seedOr swaggerObject.fields "securityDefinitions" (.obj []))]
    tags :=
      match swaggerObject.tags with
      | some tags => some tags
      | none => some [] }

/-! ## Deprecated-property scanner (`parse-swagger-util.js`, lines 202-226) -/

/-- What `seekWrong` reads of a value that the iterator yields: the key of a
property and its path, the keys from the root down to that key. -/
structure IteratorItem where
  key : String
  path : List String
  deriving DecidableEq, Repr

mutual
/-- Modelled from the spec: the iterator `new RecursiveIterator(list, 0,
false)` of the package `recursive-iterator`, which the repository imports and
does not contain. It is the full depth-first walk of a tree of maps and
sequences that carries the traversal path: for every property below the root
it yields the key and the path, then the properties below that property.
`path` is the path of the node being walked. -/
def walkValue (path : List String) : JsValue → List IteratorItem
  | .obj members => walkMembers path members
  | .arr items => walkItems path 0 items
  | _ => []
/-- The walk of the properties of a map, see `walkValue`. -/
def walkMembers (path : List String) : List (String × JsValue) → List IteratorItem
  | [] => []
  | (key, value) :: rest =>
    { key := key, path := path ++ [key] }
      :: (walkValue (path ++ [key]) value ++ walkMembers path rest)
/-- The walk of the elements of a sequence from the index `i` on, see
`walkValue`. -/
def walkItems (path : List String) (i : Nat) : List JsValue → List IteratorItem
  | [] => []
  | value :: rest =>
    { key := JsValue.keyOfIndex i, path := path ++ [JsValue.keyOfIndex i] }
      :: (walkValue (path ++ [JsValue.keyOfIndex i]) value ++ walkItems path (i + 1) rest)
end

/-- The read `item.value.path[item.value.path.length - 2]` of line 205:
`undefined` when the path has fewer than two keys. -/
def secondToLast (path : List String) : Option String :=
  if path.length < 2 then none else path[path.length - 2]?

/-- The body of the loop of `seekWrong`, lines 205-209, for one item: the
test on the key is `wrongSet.indexOf(item.value.key) > 0`. -/
def seekWrongItem (wrongSet : List String) (problems : List String) (item : IteratorItem) :
    List String :=
  let isDirectChildOfProperties := secondToLast item.path == some "properties"
  if (0 < wrongSet.indexOf item.key ∧ wrongSet.indexOf item.key < wrongSet.length)
      ∧ !isDirectChildOfProperties then
    problems ++ [item.key]
  else problems

/-- Function `seekWrong(list, wrongSet, problems)`, lines 202-211; the result
is `problems` after the call. -/
def seekWrong (list : JsValue) (wrongSet : List String) (problems : List String) :
    List String :=
  (walkValue [] list).foldl (seekWrongItem wrongSet) problems

/-- Function `findDeprecated(sources)`, lines 219-226. -/
def findDeprecated (sources : List JsValue) : List String :=
  sources.foldl (fun problems source => seekWrong source swaggerSchemaWrongProperties problems) []

/-! ## Inputs and predicates of the statements -/

/-- The comment block of the end-to-end example: a route tag `get /pets`, a
param tag named `id.path.required` of the named type `Integer`, and a returns
tag `200 - OK` of the named type `Pet.model`. -/
def petsBlock (description : Option String) : Comment :=
  { description := description
    tags :=
      [{ title := "route", description := some "get /pets" },
       { title := "param", name := some "id.path.required", type := some (.named "Integer") },
       { title := "returns", description := some "200 - OK", type := some (.named "Pet.model") }] }

/-- A comment block with a route tag `get /pets` and one param tag named
`status.query`, of the bare type `enum`, with the given description. -/
def statusBlock (description : String) : Comment :=
  { description := some ""
    tags :=
      [{ title := "route", description := some "get /pets" },
       { title := "param", name := some "status.query", description := some description,
         type := some (.named "enum") }] }

/-- The value `u` is a tag object whose `name` is a string that an entry of
the tag list `tags` already has as its `name`. -/
def RepeatsName (tags : List JsValue) (u : JsValue) : Prop :=
  ∃ members n, u = .obj members ∧ Obj.get members "name" = some (.str n)
    ∧ ∃ entry ∈ tags, entry.getProp "name" = .ok (.str n)

/-- The elements of a sequence paired with their index keys, from the index
`i` on. -/
def indexedFrom (i : Nat) : List JsValue → List (String × JsValue)
  | [] => []
  | value :: rest => (JsValue.keyOfIndex i, value) :: indexedFrom (i + 1) rest

/-- The properties of a node of a nested document: the members of a map and
the indexed elements of a sequence; a primitive value has none. -/
def children : JsValue → List (String × JsValue)
  | .obj members => members
  | .arr items => indexedFrom 0 items
  | _ => []

/-- The statement `OccursUnder p v parent key` says: in the nested document
`v`, itself stored under the key `p` (`none` for a root), `key` is the key of a
property of a node that is stored under the key `parent`. A direct child of a
`properties` map is an occurrence with `parent = some "properties"`. -/
inductive OccursUnder : Option String → JsValue → Option String → String → Prop where
  | direct {p : Option String} {v : JsValue} {key : String} {value : JsValue} :
      (key, value) ∈ children v → OccursUnder p v p key
  | deeper {p : Option String} {v : JsValue} {k : String} {child : JsValue}
      {parent : Option String} {key : String} :
      (k, child) ∈ children v → OccursUnder (some k) child parent key →
      OccursUnder p v parent key

mutual
/-- Modelled from the claim: the number of occurrences of `key` in the nested
document `v`, itself stored under the key `parent` (`none` for a root), that
are not direct children of a `properties` map: the properties with the key
`key` of the nodes of `v` that are not stored under the key `properties`. -/
def outsideOccurrences (key : String) (parent : Option String) : JsValue → Nat
  | .obj members => outsideMembers key parent members
  | .arr items => outsideItems key parent 0 items
  | _ => 0
/-- The occurrences counted by `outsideOccurrences` in the members of a map
stored under the key `parent`, and below them. -/
def outsideMembers (key : String) (parent : Option String) : List (String × JsValue) → Nat
  | [] => 0
  | (k, value) :: rest =>
    (if k = key ∧ parent ≠ some "properties" then 1 else 0)
      + (outsideOccurrences key (some k) value + outsideMembers key parent rest)
/-- The occurrences counted by `outsideOccurrences` in the elements of a
sequence stored under the key `parent`, from the index `i` on, and below
them. -/
def outsideItems (key : String) (parent : Option String) (i : Nat) : List JsValue → Nat
  | [] => 0
  | value :: rest =>
    (if JsValue.keyOfIndex i = key ∧ parent ≠ some "properties" then 1 else 0)
      + (outsideOccurrences key (some (JsValue.keyOfIndex i)) value
          + outsideItems key parent (i + 1) rest)
end

/-- The `name` of a tag object, when it is a string. -/
def tagName : JsValue → Option String
  | .obj members =>
    match Obj.get members "name" with
    | some (.str n) => some n
    | _ => none
  | _ => none

/-- The entries of a tag list are tag objects with pairwise distinct names. -/
def DistinctNames (tags : List JsValue) : Prop :=
  (∀ x ∈ tags, (tagName x).isSome) ∧ (tags.map tagName).Nodup

/-- The description of a header tag is malformed: its first part, up to the
first hyphen that stands between white space, has fewer than two dot-segments,
or the first dot-segment holds no run of digits. -/
def malformedHeader (description : String) : Bool :=
  let part := (regexSplit matchSpacedHyphen description).headD ""
  (split '.' part).length < 2 || (firstRun isDigitChar ((split '.' part).headD "")).isNone

/-- The callback of `forEach` in `parseReturn`, lines 212-227, by itself. -/
def returnStep (host : Host) (headers : Obj (Obj Header)) (rets : Obj Response) (tag : Tag) :
    Except JsError (Obj Response) :=
  if tag.title == "returns" || tag.title == "return" then do
    let text ← requireString "description" tag.description
    let description := split '-' text
    let key := trim (description.headD "")
    let entry : Response :=
      { description := if truthy description[1]? then trim (description[1]?.getD "") else ""
        headers := headers.get key }
    let type ← thisParseType host tag.type
    if truthy type then do
      let schema ← parseSchema tag.type
      pure (rets.set key { entry with schema := schema })
    else pure (rets.set key entry)
  else pure rets

/-- The status code of a returns tag: the trimmed text before the first
hyphen of its description. -/
def returnKey (description : String) : String :=
  trim ((split '-' description).headD "")

/-- A type that is absent, a name expression, or a type application with a
named container. -/
def PlainType (type : Option TypeExpr) : Prop :=
  type = none ∨ (∃ n, type = some (.named n)) ∨ ∃ C args, type = some (.applied C args)

/-- A typedef block `Order` with one property tag `status` of the bare type
`enum`, with the given description. -/
def enumTypedefBlock (description : String) : List Tag :=
  [{ title := "typedef", name := some "Order" },
   { title := "property", name := some "status", description := some description,
     type := some (.named "enum") }]

/-- A typedef block `Pet` with one property tag of the type `string`, with
the given name. -/
def petTypedefBlock (name : String) : List Tag :=
  [{ title := "typedef", name := some "Pet" },
   { title := "property", name := some name, type := some (.named "string") }]

/-- A comment block with a route tag `get /pets` and a group tag with the
given description. -/
def groupBlock (group : String) : Comment :=
  { description := some ""
    tags :=
      [{ title := "route", description := some "get /pets" },
       { title := "group", description := some group }] }

/-- What a tag contributes to the `required` list of a definition: a property
tag whose modifier segments, the dot-segments of its name after the first,
include `required` contributes the first dot-segment of its name; every other
tag contributes nothing. -/
def requiredName (tag : Tag) : Option String :=
  if tag.title = "property" then
    match tag.name with
    | some name =>
      if "required" ∈ (split '.' name).drop 1 then some ((split '.' name).headD "") else none
    | none => none
  else none

/-- The contributions of the tags of a block, in block order. -/
def requiredNames (tags : List Tag) : List String :=
  tags.filterMap requiredName

/-- A tag that `parseProperty` translates without raising: a property tag has a
name, and either its type resolves to a schema, or `this.parseType` resolves,
the type is present without a schema, and the bare type is not `enum`. -/
def Translatable (host : Host) (tag : Tag) : Prop :=
  tag.title = "property" →
    tag.name.isSome
      ∧ ((∃ schema, parseSchema tag.type = .ok (some schema))
          ∨ (host.thisValue = .globalObject ∧ parseSchema tag.type = .ok none
              ∧ parseType tag.type ≠ some "enum"))

/-- The translation of one param tag: the object `properties` that lines
385-402 build and line 403 pushes. -/
def translateParam (host : Host) (comment : Tag) : Except JsError Parameter := do
  let name ← requireString "name" comment.name
  let field := parseField name
  let properties : Parameter :=
    { name := field.name
      «in» := field.parameter_type
      description := comment.description
      required := field.required }
  let schema ← parseSchema comment.type
  match schema with
  | none => do
    let type ← thisParseType host comment.type
    if type == some "enum" then do
      let parsedEnum ← parseEnums (stringOfNullable comment.description)
      pure { properties with type := parsedEnum.type, enum := parsedEnum.enums }
    else pure { properties with type := type }
  | some schema => pure { properties with schema := some schema }

/-- The in-order translation of the param tags of a tag sequence. -/
def translateParams (host : Host) : List Tag → Except JsError (List Parameter)
  | [] => pure []
  | tag :: rest =>
    if tag.title = "param" then do
      let parameter ← translateParam host tag
      let parameters ← translateParams host rest
      pure (parameter :: parameters)
    else translateParams host rest

/-- A block with a param tag `id.path` of the type `Integer`, then the route
tag `get /pets`, then a param tag `limit.query` of the type `Integer`. -/
def paramFirstBlock : Comment :=
  { description := some ""
    tags :=
      [{ title := "param", name := some "id.path", type := some (.named "Integer") },
       { title := "route", description := some "get /pets" },
       { title := "param", name := some "limit.query", type := some (.named "Integer") }] }

/-- The operation object `parameters[route.uri][route.method]` exists in the
state. -/
def HasOperation (st : FormatState) (route : Route) : Prop :=
  ∃ methods operation, st.parameters.get route.uri = some methods
    ∧ methods.get route.method = some operation

/-! ## Facts about the string primitives -/

theorem splitChars_ne_nil (sep : Char) (cs : List Char) : splitChars sep cs ≠ [] := by
  induction cs with
  | nil => simp [splitChars]
  | cons c cs ih =>
    unfold splitChars
    split
    · simp
    · cases h : splitChars sep cs <;> simp

theorem splitChars_of_not_mem (sep : Char) (cs : List Char) (h : sep ∉ cs) :
    splitChars sep cs = [cs] := by
  induction cs with
  | nil => rfl
  | cons c cs ih =>
    have hc : c ≠ sep := fun e => h (by simp [e])
    have hcs : sep ∉ cs := fun m => h (List.mem_cons_of_mem _ m)
    simp [splitChars, hc, ih hcs]

theorem splitChars_append_sep (sep : Char) (a b : List Char) (h : sep ∉ a) :
    splitChars sep (a ++ sep :: b) = a :: splitChars sep b := by
  induction a with
  | nil => simp [splitChars]
  | cons c a ih =>
    have hc : c ≠ sep := fun e => h (by simp [e])
    have ha : sep ∉ a := fun m => h (List.mem_cons_of_mem _ m)
    simp [splitChars, hc, ih ha]

theorem splitChars_pieces_free (sep : Char) (cs : List Char) :
    ∀ piece ∈ splitChars sep cs, sep ∉ piece := by
  induction cs with
  | nil => simp [splitChars]
  | cons c cs ih =>
    unfold splitChars
    split
    · intro piece hp
      rcases List.mem_cons.1 hp with rfl | hp
      · simp
      · exact ih piece hp
    · rename_i hc
      cases hs : splitChars sep cs with
      | nil => exact absurd hs (splitChars_ne_nil sep cs)
      | cons first rest =>
        rw [hs] at ih
        intro piece hp
        rcases List.mem_cons.1 hp with rfl | hp
        · intro hm
          rcases List.mem_cons.1 hm with e | hm
          · exact hc e.symm
          · exact ih first (List.mem_cons_self _ _) hm
        · exact ih piece (List.mem_cons_of_mem _ hp)

theorem intercalate_splitChars (sep : Char) (cs : List Char) :
    List.intercalate [sep] (splitChars sep cs) = cs := by
  induction cs with
  | nil => simp [splitChars, List.intercalate]
  | cons c cs ih =>
    unfold splitChars
    split
    · rename_i hc
      cases hs : splitChars sep cs with
      | nil => exact absurd hs (splitChars_ne_nil sep cs)
      | cons first rest =>
        rw [hs] at ih
        simp only [List.intercalate, List.intersperse] at ih ⊢
        simp [ih, hc]
    · cases hs : splitChars sep cs with
      | nil => exact absurd hs (splitChars_ne_nil sep cs)
      | cons first rest =>
        rw [hs] at ih
        cases rest with
        | nil =>
          simp only [List.intercalate, List.intersperse] at ih ⊢
          simp at ih
          simp [ih]
        | cons second rest =>
          simp only [List.intercalate, List.intersperse] at ih ⊢
          simp at ih
          simp [ih]

theorem split_model (base : String) (h : '.' ∉ base.data) :
    split '.' (base ++ ".model") = [base, "model"] := by
  have hd : (base ++ ".model").data = base.data ++ '.' :: "model".data := by
    simp [String.data_append]
  have hm : '.' ∉ "model".data := by decide
  simp [split, hd, splitChars_append_sep _ _ _ h, splitChars_of_not_mem _ _ hm]

/-! ## Type resolver -/

/-- C2, as stated, fails: the name `A.B.model` ends with `.model`, yet
`parseSchema` returns `undefined` for it and not a reference to `B`, because
line 51 looks at the second dot-segment, which is `B`. -/
theorem parseSchema_three_segments_unresolved :
    parseSchema (some (.named "A.B.model")) = .ok none
      ∧ parseSchema (some (.named "A.B.model")) ≠ .ok (some (.ref "#/definitions/B")) := by
  decide

/-- C2, amended: for every named type expression, with the dot-segments of
its name (the pieces, free of dots, that joined by dots give back the name),
`parseSchema` returns exactly `{$ref: "#/definitions/<first>"}`, with
`<first>` the first segment, when the second segment is `model`, and
`undefined` otherwise, whatever the other fields of the node. So a name
`<base>.model` with a base free of dots gives `{$ref:
"#/definitions/<base>"}`, and a name with more than two dot-segments is
resolved exactly when its second segment is `model`: `Pet.model.x` gives
`{$ref: "#/definitions/Pet"}` and `A.B.model` gives `undefined`. -/
theorem parseSchema_model_suffix (name : String) (e : Option TypeExpr)
    (a : Option (List TypeExpr)) :
    (∀ seg ∈ split '.' name, '.' ∉ seg.data)
      ∧ List.intercalate ['.'] ((split '.' name).map String.data) = name.data
      ∧ parseSchema (some (.mk (some name) e a))
          = .ok (if (split '.' name)[1]? = some "model"
                 then some (.ref ("#/definitions/" ++ (split '.' name).headD ""))
                 else none)
      ∧ (∀ base : String, '.' ∉ base.data →
          (split '.' (base ++ ".model"))[1]? = some "model"
            ∧ parseSchema (some (.named (base ++ ".model")))
                = .ok (some (.ref ("#/definitions/" ++ base))))
      ∧ parseSchema (some (.named "Pet.model.x")) = .ok (some (.ref "#/definitions/Pet"))
      ∧ parseSchema (some (.named "A.B.model")) = .ok none := by
  refine ⟨?_, ?_, ?_, ?_, by decide, by decide⟩
  · intro seg hseg
    simp only [split, List.mem_map] at hseg
    obtain ⟨piece, hp, rfl⟩ := hseg
    exact splitChars_pieces_free '.' name.data piece hp
  · have : (split '.' name).map String.data = splitChars '.' name.data := by
      simp [split, Function.comp_def]
    rw [this]
    exact intercalate_splitChars '.' name.data
  · have key : (if ((split '.' name).length > 1 && (split '.' name)[1]? == some "model") = true
          then (pure (some (.ref ("#/definitions/" ++ (split '.' name).headD "")))
            : Except JsError (Option Schema))
          else pure none)
        = .ok (if (split '.' name)[1]? = some "model"
               then some (.ref ("#/definitions/" ++ (split '.' name).headD ""))
               else none) := by
      by_cases h : (split '.' name)[1]? = some "model"
      · have hl : (split '.' name).length > 1 := by
          rcases hs : split '.' name with _ | ⟨first, _ | ⟨second, rest⟩⟩ <;> simp [hs] at h ⊢
        simp [h, hl]
        rfl
      · simp [h]
        rfl
    unfold parseSchema
    simp only [TypeExpr.name, TypeExpr.applications]
    split
    · rename_i hc
      have hname : name = "" := by
        by_contra hne
        simp [truthy, hne] at hc
      subst hname
      rfl
    · exact key
  · intro base hbase
    have hne : (base ++ ".model" != "") = true := by
      simp [bne_iff_ne, String.ext_iff]
    refine ⟨by simp [split_model base hbase], ?_⟩
    simp [parseSchema, TypeExpr.named, TypeExpr.name, TypeExpr.applications, truthy, hne,
      split_model base hbase]
    rfl

/-- Witness of `parseSchema_model_suffix` at the base `Pet`: the name
`Pet.model` has the second segment `model` and gives the reference to `Pet`. -/
theorem parseSchema_model_suffix_witness :
    '.' ∉ "Pet".data
      ∧ (split '.' ("Pet" ++ ".model"))[1]? = some "model"
      ∧ parseSchema (some (.named ("Pet" ++ ".model")))
          = .ok (some (.ref ("#/definitions/" ++ "Pet"))) :=
  ⟨by decide,
    (parseSchema_model_suffix "Pet.model" none none).2.2.2.1 "Pet" (by decide)⟩

/-- C3: for every applied type expression with container keyword `C` and
exactly one type argument, named `T`, `parseSchema` returns
`{type: lowercase(C), items: {type: T}}` when `T` is one of `object`, `string`,
`integer`, `boolean`, and `{type: lowercase(C), items: {$ref:
"#/definitions/" + T}}` for every other `T`. The other fields of the container
node and of the argument node are arbitrary, and `lowercase` is the method
`toLowerCase` of the language on every string: `ÀRRAY.<Pet>` gives the type
`àrray`. -/
theorem parseSchema_single_argument (C T : String) (e₁ e₂ : Option TypeExpr)
    (a₁ a₂ : Option (List TypeExpr)) :
    parseSchema (some (.mk none (some (.mk (some C) e₁ a₁)) (some [.mk (some T) e₂ a₂])))
        = .ok (some (.container (toLowerCase C)
            (if T = "object" ∨ T = "string" ∨ T = "integer" ∨ T = "boolean" then .type T
             else .ref ("#/definitions/" ++ T))))
      ∧ parseSchema (some (.applied "ÀRRAY" [.named "Pet"]))
          = .ok (some (.container "àrray" (.ref "#/definitions/Pet")))
      ∧ parseSchema (some (.applied "Array" [.named "string"]))
          = .ok (some (.container "array" (.type "string"))) := by
  refine ⟨?_, by decide, by decide⟩
  by_cases h : T = "object" ∨ T = "string" ∨ T = "integer" ∨ T = "boolean"
  · have hp : isPrimitive (some T) = true := by
      rcases h with h | h | h | h <;> subst h <;> decide
    simp [parseSchema, TypeExpr.name, TypeExpr.applications, TypeExpr.expression, truthy,
      containerType, hp, h, interpolate]
    rfl
  · have hp : isPrimitive (some T) = false := by
      simp only [not_or] at h
      simp [isPrimitive, h]
    simp [parseSchema, TypeExpr.name, TypeExpr.applications, TypeExpr.expression, truthy,
      containerType, hp, h, interpolate]
    rfl

/-- C4 fails on the code: with two or more type arguments the loop of lines
80-103 returns in its first iteration, so `oneOf` holds one entry, that of
the first argument, whatever the number of arguments. For
`Array.<string, Pet>` the result is `{type: "array", items: {oneOf: [{type:
"string"}]}}`, without the entry of `Pet`. -/
theorem parseSchema_oneOf_first_argument_only :
    (∀ (C : String) (a b : TypeExpr) (rest : List TypeExpr),
        parseSchema (some (.applied C (a :: b :: rest)))
          = .ok (some (.oneOf (toLowerCase C) [itemOf a.name])))
      ∧ parseSchema (some (.applied "Array" [.named "string", .named "Pet"]))
          = .ok (some (.oneOf "array" [.type "string"])) := by
  refine ⟨?_, by decide⟩
  intro C a b rest
  simp [parseSchema, TypeExpr.applied, TypeExpr.named, TypeExpr.name, TypeExpr.applications,
    TypeExpr.expression, truthy, containerType, oneOfLoop]
  rfl

/-- C5, as stated, fails: `parseType` applied to an absent type expression
returns `undefined` (line 32), not `string`; and for a block with a route tag
and a param tag that carries no type, `fileFormat` raises whatever `this` is
bound to (with `this` resolved, line 392 calls `parseSchema` on the missing
type, which reads `obj.name`). -/
theorem parseType_absent_not_string :
    parseType none ≠ some "string"
      ∧ ∀ host : Host, ∃ e,
          fileFormat host
            { description := some ""
              tags := [{ title := "route", description := some "get /pets" },
                       { title := "param", name := some "id.path", description := some "the id" }] }
            = .error e := by
  refine ⟨by decide, ?_⟩
  rintro ⟨this, jsonParse⟩
  cases this
  · exact ⟨_, rfl⟩
  · exact ⟨_, rfl⟩

/-- C5, amended: `parseType` applied to an absent type expression returns
`undefined`; it returns the token `string` for a present type expression that
has no non-empty name and no expression with a non-empty name. -/
theorem parseType_absent_undefined :
    parseType none = none
      ∧ ∀ obj : TypeExpr, truthy obj.name = false →
          truthy (obj.expression.bind TypeExpr.name) = false →
          parseType (some obj) = some "string" := by
  refine ⟨rfl, ?_⟩
  intro obj hn he
  cases hexp : obj.expression with
  | none => simp [parseType, hn, hexp]
  | some expression =>
    rw [hexp] at he
    simp [parseType, hn, hexp]
    intro ht
    simp [ht] at he

/-- Witness of `parseType_absent_undefined` at the all-literal type `*`, a
node without name and expression. -/
theorem parseType_absent_undefined_witness :
    parseType (some (.mk none none none)) = some "string" :=
  parseType_absent_undefined.2 (.mk none none none) rfl rfl

/-! ## Field names -/

/-- C6: for every string `s`, with `segs` the dot-delimited segments of `s`
(the pieces, free of dots, that joined by dots give back `s`), `parseField(s)`
returns `name` = the first segment, `parameter_type` = the second segment, or
`get` when that is missing or empty, and `required` = true exactly when the
third segment exists and equals `required`; `id.path.required` gives
`{name: "id", parameter_type: "path", required: true}` and `id.path` gives
`required = false`. -/
theorem parseField_segments (s : String) :
    (∀ seg ∈ split '.' s, '.' ∉ seg.data)
      ∧ List.intercalate ['.'] ((split '.' s).map String.data) = s.data
      ∧ (split '.' s)[0]? = some (parseField s).name
      ∧ (parseField s).parameter_type
          = (match (split '.' s)[1]? with
             | some second => if second = "" then "get" else second
             | none => "get")
      ∧ ((parseField s).required = true ↔ (split '.' s)[2]? = some "required")
      ∧ parseField "id.path.required" = ⟨"id", "path", true⟩
      ∧ (parseField "id.path").required = false := by
  refine ⟨?_, ?_, ?_, ?_, ?_, by decide, by decide⟩
  · intro seg hseg
    simp only [split, List.mem_map] at hseg
    obtain ⟨piece, hp, rfl⟩ := hseg
    exact splitChars_pieces_free '.' s.data piece hp
  · have : (split '.' s).map String.data = splitChars '.' s.data := by
      simp [split, Function.comp_def]
    rw [this]
    exact intercalate_splitChars '.' s.data
  · have hne : split '.' s ≠ [] := by
      simp [split, splitChars_ne_nil]
    cases hs : split '.' s with
    | nil => exact absurd hs hne
    | cons first rest => simp [parseField, hs]
  · simp only [parseField]
    cases (split '.' s)[1]? with
    | none => rfl
    | some second => by_cases h : second = "" <;> simp [h]
  · simp only [parseField]
    cases (split '.' s)[2]? with
    | none => simp
    | some third =>
      by_cases h : third = "required"
      · subst h; simp
      · simp [h]

/-! ## File formatter -/

/-- In the file as it is, an ES module, `fileFormat` raises for every comment
block: the first statement of the loop body, line 357, reads
`this.parseDescription` with `this` undefined. -/
theorem fileFormat_moduleHost_raises (jsonParse : String → Option JsValue) (comments : Comment) :
    fileFormat (moduleHost jsonParse) comments
      = .error (.typeError "this is undefined (reading parseDescription)") :=
  rfl

/-- C1 fails on the code: `fileFormat` is called plainly (line 580) in a
module, where `this` is undefined, so for the example block, whatever its
description, the call raises at `this.parseDescription` (line 357) and returns
no record. Whatever `this` is bound to, `fileFormat` does not return a record
whose operation `get` of `/pets` has the parameters and the responses of the
claim; with `this` resolved it returns that operation with the parameter type
`Integer`, the name as written (line 38), and the responses of the claim. -/
theorem fileFormat_pets_raises :
    (∀ (jsonParse : String → Option JsValue) (description : Option String),
        fileFormat (moduleHost jsonParse) (petsBlock description)
          = .error (.typeError "this is undefined (reading parseDescription)"))
      ∧ (¬ ∃ (host : Host) (r : Formatted) (methods : Obj Operation) (operation : Operation),
          fileFormat host (petsBlock (some "List the pets")) = .ok r
            ∧ r.parameters.get "/pets" = some methods
            ∧ methods.get "get" = some operation
            ∧ operation.parameters
                = some [{ name := "id", «in» := "path", description := none, required := true,
                          type := some "integer" }]
            ∧ operation.responses
                = some [("200", { description := "OK",
                                  schema := some (.ref "#/definitions/Pet") })])
      ∧ ∀ (jsonParse : String → Option JsValue) (description : Option String), ∃ r,
          fileFormat { thisValue := .globalObject, jsonParse := jsonParse } (petsBlock description)
            = .ok r
          ∧ r.parameters
              = [("/pets", [("get",
                  { parameters := some [{ name := "id", «in» := "path", description := none,
                                          required := true, type := some "Integer" }]
                    description := some (parseDescription (petsBlock description))
                    tags := some ["default"]
                    responses := some [("200", { description := "OK",
                                                 schema := some (.ref "#/definitions/Pet") })] })])] := by
  refine ⟨fun _ _ => rfl, ?_, fun _ _ => ⟨_, rfl, rfl⟩⟩
  rintro ⟨⟨this, jsonParse⟩, r, methods, operation, h, hm, ho, hp, -⟩
  cases this
  · have e : fileFormat ⟨.undefined, jsonParse⟩ (petsBlock (some "List the pets"))
        = .error (.typeError "this is undefined (reading parseDescription)") := rfl
    rw [e] at h
    cases h
  · have e : fileFormat ⟨.globalObject, jsonParse⟩ (petsBlock (some "List the pets"))
        = .ok
          { parameters :=
              [("/pets", [("get",
                { parameters := some [{ name := "id", «in» := "path", description := none,
                                        required := true, type := some "Integer" }]
                  description := some "List the pets"
                  tags := some ["default"]
                  responses := some [("200", { description := "OK",
                                               schema := some (.ref "#/definitions/Pet") })] })])]
            tags := [{ name := "default", description := "" }]
            definitions := [] } := rfl
    rw [e] at h
    injection h with h
    subst h
    simp [Obj.get] at hm
    subst hm
    simp [Obj.get] at ho
    subst ho
    simp at hp

/-- C7 fails on the code for the bare type `enum`. When the description
carries an example marker, `fileFormat` raises whatever `this` is bound to
(with `this` resolved, `parseEnums` calls `split` on `parseType[0]`, which is
`undefined`). When it carries none, `parseEnums` returns the empty array and,
with `this` resolved, the parameter object has neither `type` nor `schema`. -/
theorem fileFormat_enum_param_untyped :
    (∀ host : Host, ∃ e,
        fileFormat host (statusBlock "state - eg: string:open,closed") = .error e)
      ∧ ∀ jsonParse : String → Option JsValue, ∃ r,
          fileFormat { thisValue := .globalObject, jsonParse := jsonParse } (statusBlock "state")
            = .ok r
          ∧ (r.parameters.get "/pets").bind (fun methods => methods.get "get")
              = some
                { parameters := some [{ name := "status", «in» := "query",
                                        description := some "state", required := false,
                                        type := none, enum := none, schema := none }]
                  description := some ""
                  tags := some ["default"]
                  responses := some [] } := by
  constructor
  · rintro ⟨this, jsonParse⟩
    cases this
    · exact ⟨_, rfl⟩
    · exact ⟨_, rfl⟩
  · intro jsonParse
    exact ⟨_, rfl, rfl⟩

/-! ## Swagger aggregator -/

/-- C8 fails on the code. A swagger object with a `paths` map and two
fragments that document `get` and `post` of `/pets`: line 163 assigns into
`swaggerInstance.paths`, which is `undefined` on the local object of line 114,
so the call raises at the first fragment and the `paths` of the swagger object
stay empty. The same holds for every swagger object whose `paths` is an object
and every fragment whose first property is a non-empty `paths`. -/
theorem addData_paths_raises :
    addDataToSwaggerObject
        (some { tags := some [], fields := [("swagger", .str "2.0"), ("paths", .obj [])] })
        (some [[("paths", .obj [("/pets", .obj [("get", .obj [("summary", .str "list")])])])],
               [("paths", .obj [("/pets", .obj [("post", .obj [("summary", .str "add")])])])]])
      = .ok
          { swaggerObject :=
              { tags := some [], fields := [("swagger", .str "2.0"), ("paths", .obj [])] }
            raised := some (.typeError "Cannot set properties of undefined (setting /pets)") }
      ∧ ∀ (tags : Option (List JsValue)) (paths fields : Obj JsValue) (uri : String)
          (methods : JsValue) (routes properties : Obj JsValue) (data : List (Obj JsValue)),
          addDataToSwaggerObject
              (some { tags := tags, fields := ("paths", .obj paths) :: fields })
              (some ((("paths", .obj ((uri, methods) :: routes)) :: properties) :: data))
            = .ok
                { swaggerObject := { tags := tags, fields := ("paths", .obj paths) :: fields }
                  raised :=
                    some (.typeError ("Cannot set properties of undefined (setting " ++ uri ++ ")")) } :=
  ⟨rfl, fun _ _ _ _ _ _ _ _ => rfl⟩

/-- C9 fails on the code. A swagger object with an empty `definitions` map and
a fragment whose `definitions` holds the key `Pet`: line 142 assigns into
`swaggerInstance[keyName]`, which is `undefined` on the local object of line
114, so the call raises and `definitions` stays empty. The same holds for
every property name of `simpleProperties`, every swagger object and every
fragment whose first property is such a map with at least one key. -/
theorem addData_definitions_raises :
    addDataToSwaggerObject
        (some { tags := some [], fields := [("definitions", .obj [])] })
        (some [[("definitions", .obj [("Pet", .obj [("type", .str "object")])])]])
      = .ok
          { swaggerObject := { tags := some [], fields := [("definitions", .obj [])] }
            raised := some (.typeError "Cannot set properties of undefined (setting Pet)") }
      ∧ ∀ (i : Fin simpleProperties.length) (swaggerObject : SwaggerObject) (K : String)
          (v : JsValue) (members properties : Obj JsValue) (data : List (Obj JsValue)),
          addDataToSwaggerObject (some swaggerObject)
              (some (((simpleProperties.get i, .obj ((K, v) :: members)) :: properties) :: data))
            = .ok
                { swaggerObject := swaggerObject
                  raised :=
                    some (.typeError ("Cannot set properties of undefined (setting " ++ K ++ ")")) } := by
  refine ⟨rfl, ?_⟩
  intro i swaggerObject K v members properties data
  fin_cases i <;> rfl

theorem getProp_of_defined (v : JsValue) (key : String) (hu : v ≠ .undefined)
    (hn : v ≠ .null) : ∃ w, v.getProp key = .ok w := by
  cases v with
  | undefined => exact absurd rfl hu
  | null => exact absurd rfl hn
  | bool b => exact ⟨_, rfl⟩
  | num n => exact ⟨_, rfl⟩
  | str s =>
    by_cases h : key = "length"
    · exact ⟨_, by simp [JsValue.getProp, h]; rfl⟩
    · exact ⟨_, by simp [JsValue.getProp, h]; rfl⟩
  | arr items =>
    by_cases h : key = "length"
    · exact ⟨_, by simp [JsValue.getProp, h]; rfl⟩
    · exact ⟨_, by simp [JsValue.getProp, h]; rfl⟩
  | obj members => exact ⟨_, rfl⟩

theorem isExistTagLoop_of_name (tag : JsValue) (n : String)
    (ht : tag.getProp "name" = .ok (.str n)) (tags : List JsValue)
    (hdef : ∀ x ∈ tags, x ≠ .undefined ∧ x ≠ .null)
    (hex : ∃ entry ∈ tags, entry.getProp "name" = .ok (.str n)) :
    isExistTagLoop tag tags = .ok true := by
  induction tags with
  | nil => simp at hex
  | cons x xs ih =>
    obtain ⟨w, hw⟩ := getProp_of_defined x "name" (hdef x (List.mem_cons_self _ _)).1
      (hdef x (List.mem_cons_self _ _)).2
    by_cases heq : w.strictEquals (.str n) = true
    · simp [isExistTagLoop, hw, ht, heq, bind, Except.bind]
      rfl
    · have hxs : ∃ entry ∈ xs, entry.getProp "name" = .ok (.str n) := by
        obtain ⟨entry, hmem, hentry⟩ := hex
        rcases List.mem_cons.1 hmem with rfl | hmem
        · rw [hw] at hentry
          injection hentry with hentry
          subst hentry
          simp [JsValue.strictEquals] at heq
        · exact ⟨entry, hmem, hentry⟩
      have := ih (fun y hy => hdef y (List.mem_cons_of_mem _ hy)) hxs
      simp [isExistTagLoop, hw, ht, heq, bind, Except.bind, this]

theorem pushTagUnlessExists_of_repeats (swaggerObject : SwaggerObject) (tags : List JsValue)
    (u : JsValue) (htags : swaggerObject.tags = some tags)
    (hdef : ∀ x ∈ tags, x ≠ .undefined ∧ x ≠ .null) (hu : RepeatsName tags u) :
    pushTagUnlessExists swaggerObject u = { swaggerObject := swaggerObject, raised := none } := by
  obtain ⟨members, n, rfl, hname, hex⟩ := hu
  have hget : (JsValue.obj members).getProp "name" = .ok (.str n) := by
    show (pure ((Obj.get members "name").getD .undefined) : Except JsError JsValue) = _
    rw [hname]
    rfl
  have hloop := isExistTagLoop_of_name _ n hget tags hdef hex
  have hlen : tags.length ≠ 0 := by
    obtain ⟨entry, hmem, -⟩ := hex
    exact fun h => by simp [List.length_eq_zero.1 h] at hmem
  simp [pushTagUnlessExists, isExistTag, htags, hlen, JsValue.truthy, hloop]

theorem runEach_pushTag_of_repeats (swaggerObject : SwaggerObject) (tags : List JsValue)
    (htags : swaggerObject.tags = some tags)
    (hdef : ∀ x ∈ tags, x ≠ .undefined ∧ x ≠ .null) (us : List JsValue)
    (hus : ∀ u ∈ us, RepeatsName tags u) :
    runEach pushTagUnlessExists us swaggerObject
      = { swaggerObject := swaggerObject, raised := none } := by
  induction us with
  | nil => rfl
  | cons u us ih =>
    have h := pushTagUnlessExists_of_repeats swaggerObject tags u htags hdef
      (hus u (List.mem_cons_self _ _))
    simp [runEach, h, ih (fun y hy => hus y (List.mem_cons_of_mem _ hy))]

/-- C10: for every swagger object whose tag list `tags` holds defined entries,
and every fragment whose single property, `tags` or the deprecated `tag`, is
a tag object whose `name` an entry of the tag list already has, or a sequence
of such tag objects, `addDataToSwaggerObject` completes and leaves the swagger
object as it was: the tag list keeps its length and its entries, each with its
own description. -/
theorem addData_existing_tag_unchanged (swaggerObject : SwaggerObject) (tags : List JsValue)
    (propertyName : String) (value : JsValue)
    (htags : swaggerObject.tags = some tags)
    (hdef : ∀ x ∈ tags, x ≠ .undefined ∧ x ≠ .null)
    (hp : propertyName = "tags" ∨ propertyName = "tag")
    (hv : RepeatsName tags value ∨ ∃ us, value = .arr us ∧ ∀ u ∈ us, RepeatsName tags u) :
    addDataToSwaggerObject (some swaggerObject) (some [[(propertyName, value)]])
      = .ok { swaggerObject := swaggerObject, raised := none } := by
  have hattach : attachTagsProperty value swaggerObject
      = { swaggerObject := swaggerObject, raised := none } := by
    rcases hv with hv | ⟨us, rfl, hus⟩
    · have h := pushTagUnlessExists_of_repeats swaggerObject tags value htags hdef hv
      obtain ⟨members, n, rfl, -, -⟩ := hv
      simpa [attachTagsProperty] using h
    · simpa [attachTagsProperty] using
        runEach_pushTag_of_repeats swaggerObject tags htags hdef us hus
  have hhandle : handleSwaggerProperties swaggerObject [(propertyName, value)] propertyName
      = { swaggerObject := swaggerObject, raised := none } := by
    rcases hp with rfl | rfl
    · simpa [handleSwaggerProperties, simpleProperties, Obj.get] using hattach
    · simpa [handleSwaggerProperties, simpleProperties, Obj.get] using hattach
  simp [addDataToSwaggerObject, runEach, hhandle]
  rfl

/-- Witness of `addData_existing_tag_unchanged`: the tag list holds `pets`
with the description `old`, and the fragment carries under `tags` a sequence
with a tag `pets` of another description. -/
theorem addData_existing_tag_unchanged_witness :
    addDataToSwaggerObject
        (some { tags := some [.obj [("name", .str "pets"), ("description", .str "old")]],
                fields := [("paths", .obj [])] })
        (some [[("tags", .arr [.obj [("name", .str "pets"), ("description", .str "new")]])]])
      = .ok
          { swaggerObject :=
              { tags := some [.obj [("name", .str "pets"), ("description", .str "old")]],
                fields := [("paths", .obj [])] }
            raised := none } :=
  addData_existing_tag_unchanged _ [.obj [("name", .str "pets"), ("description", .str "old")]]
    "tags" _ rfl (by simp) (Or.inl rfl)
    (Or.inr ⟨_, rfl, by
      intro u hu
      simp at hu
      subst hu
      exact ⟨_, "pets", rfl, rfl, _, List.mem_cons_self _ _, rfl⟩⟩)

/-! ## Deprecated-property scanner -/

theorem seekWrongItem_mem (wrongSet problems : List String) (item : IteratorItem) (key : String)
    (h : key ∈ seekWrongItem wrongSet problems item) :
    key ∈ problems
      ∨ (key = item.key ∧ secondToLast item.path ≠ some "properties"
          ∧ 0 < wrongSet.indexOf key ∧ wrongSet.indexOf key < wrongSet.length) := by
  simp only [seekWrongItem] at h
  split at h
  · rename_i hc
    rcases List.mem_append.1 h with h | h
    · exact Or.inl h
    · have hk : key = item.key := by simpa using h
      subst hk
      refine Or.inr ⟨rfl, ?_, hc.1.1, hc.1.2⟩
      intro hp
      simp [hp] at hc
  · exact Or.inl h

theorem foldl_seekWrongItem_mem (wrongSet : List String) (items : List IteratorItem)
    (problems : List String) (key : String)
    (h : key ∈ items.foldl (seekWrongItem wrongSet) problems) :
    key ∈ problems
      ∨ ∃ item ∈ items, key = item.key ∧ secondToLast item.path ≠ some "properties"
          ∧ 0 < wrongSet.indexOf key ∧ wrongSet.indexOf key < wrongSet.length := by
  induction items generalizing problems with
  | nil => exact Or.inl h
  | cons item items ih =>
    rcases ih _ h with h | ⟨it, hit, hrest⟩
    · rcases seekWrongItem_mem _ _ _ _ h with h | h
      · exact Or.inl h
      · exact Or.inr ⟨item, List.mem_cons_self _ _, h⟩
    · exact Or.inr ⟨it, List.mem_cons_of_mem _ hit, hrest⟩

theorem secondToLast_append_singleton (path : List String) (key : String) :
    secondToLast (path ++ [key]) = path.getLast? := by
  unfold secondToLast
  rcases List.eq_nil_or_concat path with rfl | ⟨front, last, rfl⟩
  · simp
  · simp
    rw [List.getElem_append_right (by simp)]
    simp

theorem walk_occurs :
    ∀ (path : List String) (v : JsValue), ∀ item ∈ walkValue path v,
      OccursUnder path.getLast? v (secondToLast item.path) item.key := by
  intro path v
  refine walkValue.induct
    (fun path v => ∀ item ∈ walkValue path v,
      OccursUnder path.getLast? v (secondToLast item.path) item.key)
    (fun path i items => ∀ v : JsValue, (∀ kv ∈ indexedFrom i items, kv ∈ children v) →
      ∀ item ∈ walkItems path i items,
        OccursUnder path.getLast? v (secondToLast item.path) item.key)
    (fun path members => ∀ v : JsValue, (∀ kv ∈ members, kv ∈ children v) →
      ∀ item ∈ walkMembers path members,
        OccursUnder path.getLast? v (secondToLast item.path) item.key)
    ?_ ?_ ?_ ?_ ?_ ?_ ?_ path v
  · intro path members ih item hitem
    rw [walkValue] at hitem
    exact ih (.obj members) (fun kv h => h) item hitem
  · intro path items ih item hitem
    rw [walkValue] at hitem
    exact ih (.arr items) (fun kv h => h) item hitem
  · intro t path hobj harr item hitem
    cases t with
    | obj members => exact absurd rfl (hobj members)
    | arr items => exact absurd rfl (harr items)
    | _ => simp [walkValue] at hitem
  · intro path i v _ item hitem
    simp [walkItems] at hitem
  · intro path i value rest ihv ihrest v hsub item hitem
    rw [walkItems] at hitem
    have hhead : (JsValue.keyOfIndex i, value) ∈ children v :=
      hsub _ (by simp [indexedFrom])
    rcases List.mem_cons.1 hitem with rfl | hitem
    · simp only [secondToLast_append_singleton]
      exact .direct hhead
    · rcases List.mem_append.1 hitem with hitem | hitem
      · have := ihv item hitem
        have hlast : ∀ k : String, (path ++ [k]).getLast? = some k := by simp
        rw [hlast] at this
        exact .deeper hhead this
      · exact ihrest v (fun kv h => hsub kv (by simp [indexedFrom, h])) item hitem
  · intro path v _ item hitem
    simp [walkMembers] at hitem
  · intro path key value rest ihv ihrest v hsub item hitem
    rw [walkMembers] at hitem
    have hhead : (key, value) ∈ children v := hsub _ (List.mem_cons_self _ _)
    rcases List.mem_cons.1 hitem with rfl | hitem
    · simp only [secondToLast_append_singleton]
      exact .direct hhead
    · rcases List.mem_append.1 hitem with hitem | hitem
      · have := ihv item hitem
        have hlast : ∀ k : String, (path ++ [k]).getLast? = some k := by simp
        rw [hlast] at this
        exact .deeper hhead this
      · exact ihrest v (fun kv h => hsub kv (List.mem_cons_of_mem _ h)) item hitem

theorem findDeprecated_mem (sources : List JsValue) (problems : List String) (key : String)
    (h : key ∈ sources.foldl
      (fun problems source => seekWrong source swaggerSchemaWrongProperties problems) problems) :
    key ∈ problems
      ∨ ((0 < swaggerSchemaWrongProperties.indexOf key
            ∧ swaggerSchemaWrongProperties.indexOf key < swaggerSchemaWrongProperties.length)
          ∧ ∃ source ∈ sources, ∃ parent, parent ≠ some "properties"
              ∧ OccursUnder none source parent key) := by
  induction sources generalizing problems with
  | nil => exact Or.inl h
  | cons source sources ih =>
    rcases ih _ h with h | ⟨hw, src, hsrc, hrest⟩
    · rcases foldl_seekWrongItem_mem _ _ _ _ h with h | ⟨item, hitem, hk, hp, hw⟩
      · exact Or.inl h
      · refine Or.inr ⟨hw, source, List.mem_cons_self _ _, secondToLast item.path, hp, ?_⟩
        have := walk_occurs [] source item hitem
        rw [hk]
        simpa using this
    · exact Or.inr ⟨hw, src, List.mem_cons_of_mem _ hsrc, hrest⟩

/-- C12 fails on the code: the test of line 207 is `indexOf(key) > 0`, and
`consume` stands at index 0 of the wrong list, so no occurrence of `consume`
is ever reported; for the single source `{consume: {type: "string"}}`
`findDeprecated` returns the empty list, not `["consume"]`. -/
theorem findDeprecated_consume_unreported :
    findDeprecated [.obj [("consume", .obj [("type", .str "string")])]] = []
      ∧ ∀ sources : List JsValue, "consume" ∉ findDeprecated sources := by
  refine ⟨by decide, ?_⟩
  intro sources h
  rcases findDeprecated_mem sources [] "consume" h with h | ⟨hw, -⟩
  · simp at h
  · revert hw
    decide

theorem seekWrongItem_count (wrongSet problems : List String) (item : IteratorItem)
    (key : String) :
    (seekWrongItem wrongSet problems item).count key
      ≤ problems.count key
        + (if (decide (item.key = key) && !(secondToLast item.path == some "properties")) = true
           then 1 else 0) := by
  unfold seekWrongItem
  simp only []
  split
  · rename_i hc
    have hp : secondToLast item.path ≠ some "properties" := by
      intro hp
      simp [hp] at hc
    rw [List.count_append]
    by_cases hk : item.key = key
    · subst hk
      simp [hp]
    · have h0 : List.count key [item.key] = 0 :=
        List.count_eq_zero.2 (by simpa using fun h : key = item.key => hk h.symm)
      rw [h0]
      exact Nat.le_add_right _ _
  · exact Nat.le_add_right _ _

theorem foldl_seekWrongItem_count (wrongSet : List String) (items : List IteratorItem)
    (problems : List String) (key : String) :
    (items.foldl (seekWrongItem wrongSet) problems).count key
      ≤ problems.count key
        + items.countP (fun item =>
            decide (item.key = key) && !(secondToLast item.path == some "properties")) := by
  induction items generalizing problems with
  | nil => simp
  | cons item items ih =>
    rw [List.foldl_cons, List.countP_cons]
    have h := seekWrongItem_count wrongSet problems item key
    have h' := ih (seekWrongItem wrongSet problems item)
    omega

theorem walk_count (key : String) :
    ∀ (path : List String) (v : JsValue),
      (walkValue path v).countP (fun item =>
          decide (item.key = key) && !(secondToLast item.path == some "properties"))
        = outsideOccurrences key path.getLast? v := by
  intro path v
  refine walkValue.induct
    (fun path v =>
      (walkValue path v).countP (fun item =>
          decide (item.key = key) && !(secondToLast item.path == some "properties"))
        = outsideOccurrences key path.getLast? v)
    (fun path i items =>
      (walkItems path i items).countP (fun item =>
          decide (item.key = key) && !(secondToLast item.path == some "properties"))
        = outsideItems key path.getLast? i items)
    (fun path members =>
      (walkMembers path members).countP (fun item =>
          decide (item.key = key) && !(secondToLast item.path == some "properties"))
        = outsideMembers key path.getLast? members)
    ?_ ?_ ?_ ?_ ?_ ?_ ?_ path v
  · intro path members ih
    rw [walkValue, outsideOccurrences]
    exact ih
  · intro path items ih
    rw [walkValue, outsideOccurrences]
    exact ih
  · intro t path hobj harr
    cases t with
    | obj members => exact absurd rfl (hobj members)
    | arr items => exact absurd rfl (harr items)
    | _ => simp [walkValue, outsideOccurrences]
  · intro path i
    simp [walkItems, outsideItems]
  · intro path i value rest ihv ihrest
    have hlast : ∀ k : String, (path ++ [k]).getLast? = some k := by simp
    rw [walkItems, outsideItems, List.countP_cons, List.countP_append, ihv, ihrest, hlast,
      secondToLast_append_singleton]
    by_cases hk : JsValue.keyOfIndex i = key <;>
      by_cases hp : path.getLast? = some "properties" <;> simp [hk, hp]
    all_goals omega
  · intro path
    simp [walkMembers, outsideMembers]
  · intro path k value rest ihv ihrest
    have hlast : ∀ k : String, (path ++ [k]).getLast? = some k := by simp
    rw [walkMembers, outsideMembers, List.countP_cons, List.countP_append, ihv, ihrest, hlast,
      secondToLast_append_singleton]
    by_cases hk : k = key <;>
      by_cases hp : path.getLast? = some "properties" <;> simp [hk, hp]
    all_goals omega

theorem findDeprecated_count (sources : List JsValue) (problems : List String) (key : String) :
    (sources.foldl
        (fun problems source => seekWrong source swaggerSchemaWrongProperties problems)
        problems).count key
      ≤ problems.count key + (sources.map (outsideOccurrences key none)).sum := by
  induction sources generalizing problems with
  | nil => simp
  | cons source sources ih =>
    rw [List.foldl_cons, List.map_cons, List.sum_cons]
    refine (ih _).trans ?_
    have h := foldl_seekWrongItem_count swaggerSchemaWrongProperties (walkValue [] source)
      problems key
    rw [walk_count key [] source] at h
    have h' : (seekWrong source swaggerSchemaWrongProperties problems).count key
        ≤ problems.count key + outsideOccurrences key none source := h
    omega

/-- C13: for every list of nested documents, `findDeprecated` never reports a
direct child of a `properties` map, whatever its key and however deep the map
sits. For every key, (1) the key is reported at most as many times as it
occurs in the documents outside `properties` maps, that is, as a property of
a node that is not stored under the key `properties`: an occurrence as a
direct child of a `properties` map adds no report, also when the same key
occurs elsewhere; (2) a key that is reported has such an occurrence outside;
(3) for an item whose parent is stored under `properties` the body of the
loop of `seekWrong` leaves the problems as they are. The document
`{definitions: {Foo: {properties: {consume: {type: "string"}, tag: {type:
"string"}}}}}` yields no problem, and `{tag: 1, properties: {tag: 2}}`
yields `tag` once. -/
theorem findDeprecated_reports_outside_properties (sources : List JsValue) (key : String) :
    (findDeprecated sources).count key ≤ (sources.map (outsideOccurrences key none)).sum
      ∧ (key ∈ findDeprecated sources →
          ∃ source ∈ sources, ∃ parent, parent ≠ some "properties"
            ∧ OccursUnder none source parent key)
      ∧ (∀ (wrongSet problems : List String) (item : IteratorItem),
          secondToLast item.path = some "properties" →
          seekWrongItem wrongSet problems item = problems)
      ∧ findDeprecated
          [.obj [("definitions", .obj [("Foo", .obj [("properties",
            .obj [("consume", .obj [("type", .str "string")]),
                  ("tag", .obj [("type", .str "string")])])])])]]
          = []
      ∧ findDeprecated [.obj [("tag", .num 1), ("properties", .obj [("tag", .num 2)])]]
          = ["tag"]
      ∧ outsideOccurrences "tag" none
            (.obj [("tag", .num 1), ("properties", .obj [("tag", .num 2)])]) = 1 := by
  refine ⟨?_, ?_, ?_, by decide, by decide, by decide⟩
  · have h := findDeprecated_count sources [] key
    simpa [findDeprecated] using h
  · intro h
    rcases findDeprecated_mem sources [] key h with h | ⟨-, hrest⟩
    · simp at h
    · exact hrest
  · intro wrongSet problems item hp
    simp [seekWrongItem, hp]

/-- Witness of `findDeprecated_reports_outside_properties`: `produce` at the
top level of a document is reported and occurs there under no key, and an
item with the path `properties`, `tag` adds no report. -/
theorem findDeprecated_reports_outside_properties_witness :
    "produce" ∈ findDeprecated [.obj [("produce", .arr [.str "text/xml"])]]
      ∧ (∃ source ∈ [JsValue.obj [("produce", .arr [.str "text/xml"])]], ∃ parent,
          parent ≠ some "properties" ∧ OccursUnder none source parent "produce")
      ∧ secondToLast ["properties", "tag"] = some "properties"
      ∧ seekWrongItem swaggerSchemaWrongProperties []
          { key := "tag", path := ["properties", "tag"] } = [] :=
  ⟨by decide,
    (findDeprecated_reports_outside_properties
      [.obj [("produce", .arr [.str "text/xml"])]] "produce").2.1 (by decide),
    by decide,
    (findDeprecated_reports_outside_properties
      [.obj [("produce", .arr [.str "text/xml"])]] "produce").2.2.1
      swaggerSchemaWrongProperties [] { key := "tag", path := ["properties", "tag"] }
      (by decide)⟩

/-! ## Tag-name uniqueness -/

theorem getProp_name_of_tagName (x : JsValue) (n : String) (h : tagName x = some n) :
    x.getProp "name" = .ok (.str n) ∧ x.truthy = true := by
  cases x with
  | obj members =>
    simp only [tagName] at h
    split at h
    · rename_i m hm
      simp only [Option.some.injEq] at h
      subst h
      exact ⟨by simp [JsValue.getProp, hm]; rfl, rfl⟩
    · simp at h
  | _ => simp [tagName] at h

theorem isExistTagLoop_of_named (u : JsValue) (n : String) (hu : tagName u = some n)
    (tags : List JsValue) (hnamed : ∀ x ∈ tags, (tagName x).isSome) :
    isExistTagLoop u tags = .ok (decide (some n ∈ tags.map tagName)) := by
  induction tags with
  | nil => simp [isExistTagLoop]; rfl
  | cons x xs ih =>
    obtain ⟨m, hm⟩ := Option.isSome_iff_exists.1 (hnamed x (List.mem_cons_self _ _))
    have hx := (getProp_name_of_tagName x m hm).1
    have hu' := (getProp_name_of_tagName u n hu).1
    have ih := ih (fun y hy => hnamed y (List.mem_cons_of_mem _ hy))
    by_cases hmn : m = n
    · subst hmn
      simp [isExistTagLoop, hx, hu', bind, Except.bind, JsValue.strictEquals, hm]
      rfl
    · have hne : ¬ (n = m) := fun e => hmn e.symm
      simp [isExistTagLoop, hx, hu', bind, Except.bind, JsValue.strictEquals, hm, hmn, ih, hne]

theorem pushTagUnlessExists_distinct (swaggerObject : SwaggerObject) (tags : List JsValue)
    (u : JsValue) (htags : swaggerObject.tags = some tags) (hd : DistinctNames tags)
    (hu : (tagName u).isSome) :
    ∃ tags', pushTagUnlessExists swaggerObject u
        = { swaggerObject := { tags := some tags', fields := swaggerObject.fields }, raised := none }
      ∧ DistinctNames tags' := by
  obtain ⟨n, hn⟩ := Option.isSome_iff_exists.1 hu
  have hloop := isExistTagLoop_of_named u n hn tags hd.1
  have htruthy := (getProp_name_of_tagName u n hn).2
  obtain ⟨tg, fields⟩ := swaggerObject
  simp only at htags
  subst htags
  by_cases hmem : some n ∈ tags.map tagName
  · refine ⟨tags, ?_, hd⟩
    have hlen : tags.length ≠ 0 := by
      intro h
      simp [List.length_eq_zero.1 h] at hmem
    simp [pushTagUnlessExists, isExistTag, hlen, htruthy, hloop, hmem]
  · refine ⟨tags ++ [u], ?_, ?_⟩
    · by_cases hlen : tags.length = 0
      · simp [pushTagUnlessExists, isExistTag, hlen]
        rfl
      · simp [pushTagUnlessExists, isExistTag, hlen, htruthy, hloop, hmem]
    · refine ⟨?_, ?_⟩
      · intro x hx
        rcases List.mem_append.1 hx with hx | hx
        · exact hd.1 x hx
        · have : x = u := by simpa using hx
          subst this
          exact hu
      · rw [List.map_append, List.nodup_append]
        refine ⟨hd.2, by simp, ?_⟩
        intro a ha hb
        have : a = tagName u := by simpa using hb
        subst this
        rw [hn] at ha
        exact hmem ha

theorem runEach_pushTag_distinct (us : List JsValue) (hus : ∀ u ∈ us, (tagName u).isSome)
    (swaggerObject : SwaggerObject) (tags : List JsValue)
    (htags : swaggerObject.tags = some tags) (hd : DistinctNames tags) :
    ∃ tags', runEach pushTagUnlessExists us swaggerObject
        = { swaggerObject := { tags := some tags', fields := swaggerObject.fields }, raised := none }
      ∧ DistinctNames tags' := by
  induction us generalizing swaggerObject tags with
  | nil =>
    refine ⟨tags, ?_, hd⟩
    obtain ⟨tg, fields⟩ := swaggerObject
    simp only at htags
    subst htags
    rfl
  | cons u us ih =>
    obtain ⟨tags₁, h₁, hd₁⟩ := pushTagUnlessExists_distinct swaggerObject tags u htags hd
      (hus u (List.mem_cons_self _ _))
    obtain ⟨tags₂, h₂, hd₂⟩ := ih (fun y hy => hus y (List.mem_cons_of_mem _ hy))
      { tags := some tags₁, fields := swaggerObject.fields } tags₁ rfl hd₁
    exact ⟨tags₂, by simp [runEach, h₁, h₂], hd₂⟩

theorem runEach_tags_fragments_distinct (data : List (List JsValue))
    (hdata : ∀ us ∈ data, ∀ u ∈ us, (tagName u).isSome)
    (swaggerObject : SwaggerObject) (tags : List JsValue)
    (htags : swaggerObject.tags = some tags) (hd : DistinctNames tags) :
    ∃ tags', runEach (fun swaggerObject (pathObject : Obj JsValue) =>
          runEach (fun swaggerObject propertyName =>
            handleSwaggerProperties swaggerObject pathObject propertyName)
            (pathObject.map Prod.fst) swaggerObject)
          (data.map (fun us => [("tags", JsValue.arr us)])) swaggerObject
        = { swaggerObject := { tags := some tags', fields := swaggerObject.fields }, raised := none }
      ∧ DistinctNames tags' := by
  induction data generalizing swaggerObject tags with
  | nil =>
    refine ⟨tags, ?_, hd⟩
    obtain ⟨tg, fields⟩ := swaggerObject
    simp only at htags
    subst htags
    rfl
  | cons us data ih =>
    obtain ⟨tags₁, h₁, hd₁⟩ := runEach_pushTag_distinct us
      (hdata us (List.mem_cons_self _ _)) swaggerObject tags htags hd
    obtain ⟨tags₂, h₂, hd₂⟩ := ih (fun y hy => hdata y (List.mem_cons_of_mem _ hy))
      { tags := some tags₁, fields := swaggerObject.fields } tags₁ rfl hd₁
    refine ⟨tags₂, ?_, hd₂⟩
    have hhandle : handleSwaggerProperties swaggerObject [("tags", JsValue.arr us)] "tags"
        = { swaggerObject := { tags := some tags₁, fields := swaggerObject.fields },
            raised := none } := by
      simpa [handleSwaggerProperties, simpleProperties, Obj.get, attachTagsProperty] using h₁
    simp only [List.map_cons, runEach, List.map_nil, hhandle]
    exact h₂

/-- C11: for every swagger object whose tag list holds tag objects with
pairwise distinct names, and every list of fragments whose only property is
`tags`, a sequence of tag objects that may repeat names among themselves and
across fragments, `addDataToSwaggerObject` completes, leaves the other
properties as they were, and the tag list still holds tag objects with
pairwise distinct names. -/
theorem addData_tags_distinct (swaggerObject : SwaggerObject) (tags : List JsValue)
    (data : List (List JsValue))
    (htags : swaggerObject.tags = some tags) (hd : DistinctNames tags)
    (hdata : ∀ us ∈ data, ∀ u ∈ us, (tagName u).isSome) :
    ∃ tags', addDataToSwaggerObject (some swaggerObject)
          (some (data.map (fun us => [("tags", JsValue.arr us)])))
        = .ok { swaggerObject := { tags := some tags', fields := swaggerObject.fields },
                raised := none }
      ∧ DistinctNames tags' := by
  obtain ⟨tags', h, hd'⟩ := runEach_tags_fragments_distinct data hdata swaggerObject tags htags hd
  exact ⟨tags', by simp only [addDataToSwaggerObject, h]; rfl, hd'⟩

/-- Witness of `addData_tags_distinct`: the tag list holds `pets`; two
fragments carry `pets`, `store`, `store` and `store`, `users`. -/
theorem addData_tags_distinct_witness :
    ∃ tags', addDataToSwaggerObject
          (some { tags := some [.obj [("name", .str "pets")]], fields := [("paths", .obj [])] })
          (some ([[.obj [("name", .str "pets"), ("description", .str "again")],
                   .obj [("name", .str "store")], .obj [("name", .str "store")]],
                  [.obj [("name", .str "store")], .obj [("name", .str "users")]]].map
                    (fun us => [("tags", JsValue.arr us)])))
        = .ok { swaggerObject := { tags := some tags', fields := [("paths", .obj [])] },
                raised := none }
      ∧ DistinctNames tags' :=
  addData_tags_distinct
    { tags := some [.obj [("name", .str "pets")]], fields := [("paths", .obj [])] }
    [.obj [("name", .str "pets")]] _ rfl
    ⟨by simp [tagName, Obj.get], by simp [tagName, Obj.get]⟩
    (by simp [tagName, Obj.get])

/-! ## Routes -/

theorem toLower_not_upper (c : Char) : (Char.toLower c).isUpper = false := by
  simp only [Char.toLower]
  split
  · rename_i h
    obtain ⟨lo, hi⟩ := h
    generalize c.toNat = n at *
    have h2 : n ≤ 90 := hi
    have h3 : 65 ≤ n := lo
    clear lo hi
    interval_cases n <;> decide
  · rename_i h
    simp only [Char.isUpper, Bool.and_eq_false_imp, decide_eq_true_eq, decide_eq_false_iff_not]
    intro h1 h2
    apply h
    constructor
    · show 65 ≤ c.val.toNat
      exact h1
    · show c.val.toNat ≤ 90
      exact h2

set_option maxRecDepth 100000 in
theorem lowerCaseRuns_image : ∀ r ∈ lowerCaseRuns, 0x5B ≤ r.2.2.2 := by
  decide

theorem lowerCode_ge (n : Nat) (h : 0x80 ≤ n) : 0x5B ≤ lowerCode n := by
  unfold lowerCode
  split
  · rename_i r hr
    have := lowerCaseRuns_image r (List.mem_of_find?_eq_some hr)
    omega
  · omega

theorem ofNat_not_upper (m : Nat) (h : 0x5B ≤ m) : (Char.ofNat m).isUpper = false := by
  unfold Char.ofNat
  split
  · rename_i hv
    simp only [Char.isUpper, Bool.and_eq_false_imp, decide_eq_true_eq, decide_eq_false_iff_not]
    intro _ h2
    have h3 : m ≤ 90 := by
      have : (Char.ofNatAux m hv).val.toNat = m := by
        simp [Char.ofNatAux, UInt32.toNat]
      have h4 : (Char.ofNatAux m hv).val.toNat ≤ 90 := h2
      omega
    omega
  · decide

theorem lowerChars_not_upper (cs before : List Char) :
    ∀ c ∈ lowerChars before cs, c.isUpper = false := by
  induction cs generalizing before with
  | nil => intro c hc; simp [lowerChars] at hc
  | cons d rest ih =>
    intro c hc
    simp only [lowerChars, List.mem_append] at hc
    rcases hc with hc | hc
    · split at hc
      · simp only [List.mem_singleton] at hc
        subst hc
        exact toLower_not_upper d
      · split at hc
        · simp only [List.mem_singleton] at hc
          subst hc
          split <;> decide
        · split at hc
          · simp only [List.mem_cons, List.mem_singleton, List.not_mem_nil, or_false] at hc
            rcases hc with rfl | rfl <;> decide
          · simp only [List.mem_singleton] at hc
            subst hc
            exact ofNat_not_upper _ (lowerCode_ge _ (by omega))
    · exact ih _ c hc

theorem toLowerCase_eq_empty (str : String) : toLowerCase str = "" ↔ str = "" := by
  obtain ⟨cs⟩ := str
  cases cs with
  | nil => simp [toLowerCase, lowerChars]
  | cons c rest =>
    have h : lowerChars [] (c :: rest) ≠ [] := by
      simp only [lowerChars]
      intro e
      have := (List.append_eq_nil.1 e).1
      split at this
      · cases this
      · split at this
        · cases this
        · split at this <;> cases this
    simp [toLowerCase, String.ext_iff, h]

/-- C20: for every description string `s`, with the tokens of `s` the pieces,
free of spaces, that joined by single spaces give back `s`, `parseRoute(s)`
returns `method` = the first token in lower case (the method `toLowerCase` of
the language, on every string: `GÉT` gives `gét`), or `get` when that token is
empty, and `uri` = the second token, or the empty string when it is missing
or empty; the returned method contains no upper-case ASCII letter. -/
theorem parseRoute_tokens (s : String) :
    (∀ token ∈ split ' ' s, ' ' ∉ token.data)
      ∧ List.intercalate [' '] ((split ' ' s).map String.data) = s.data
      ∧ (∃ first, (split ' ' s)[0]? = some first
          ∧ (parseRoute s).method = if first = "" then "get" else toLowerCase first)
      ∧ (parseRoute s).uri
          = (match (split ' ' s)[1]? with
             | some second => second
             | none => "")
      ∧ (∀ c ∈ (parseRoute s).method.data, c.isUpper = false)
      ∧ parseRoute "GET /pets" = ⟨"get", "/pets"⟩
      ∧ parseRoute "" = ⟨"get", ""⟩
      ∧ parseRoute "GÉT /pets" = ⟨"gét", "/pets"⟩ := by
  have hne : split ' ' s ≠ [] := by
    simp [split, splitChars_ne_nil]
  refine ⟨?_, ?_, ?_, ?_, ?_, by decide, by decide, by decide⟩
  · intro token htoken
    simp only [split, List.mem_map] at htoken
    obtain ⟨piece, hp, rfl⟩ := htoken
    exact splitChars_pieces_free ' ' s.data piece hp
  · have : (split ' ' s).map String.data = splitChars ' ' s.data := by
      simp [split, Function.comp_def]
    rw [this]
    exact intercalate_splitChars ' ' s.data
  · cases hs : split ' ' s with
    | nil => exact absurd hs hne
    | cons first rest =>
      refine ⟨first, by simp, ?_⟩
      by_cases hf : first = ""
      · subst hf
        simp [parseRoute, hs]
        decide
      · have hl : toLowerCase first ≠ "" := fun e => hf ((toLowerCase_eq_empty first).1 e)
        simp [parseRoute, hs, hf, hl]
  · simp only [parseRoute]
    cases (split ' ' s)[1]? with
    | none => rfl
    | some second => by_cases h : second = "" <;> simp [h]
  · intro c hc
    cases hs : split ' ' s with
    | nil => exact absurd hs hne
    | cons first rest =>
      by_cases hl : toLowerCase first = ""
      · have : (parseRoute s).method = "get" := by simp [parseRoute, hs, hl]
        rw [this] at hc
        revert c
        decide
      · have : (parseRoute s).method = toLowerCase first := by simp [parseRoute, hs, hl]
        rw [this] at hc
        exact lowerChars_not_upper _ _ c hc

/-! ## Headers -/

theorem parseHeadersLoop_ok (tags : List Tag)
    (hdesc : ∀ t ∈ tags, t.title = "headers" ∨ t.title = "header" → t.description.isSome)
    (headers : Obj (Obj Header)) : ∃ result, parseHeadersLoop tags headers = .ok result := by
  induction tags generalizing headers with
  | nil => exact ⟨headers, rfl⟩
  | cons t tags ih =>
    have ih := ih (fun y hy => hdesc y (List.mem_cons_of_mem _ hy))
    rw [parseHeadersLoop]
    split
    · rename_i htitle
      have htitle' : t.title = "headers" ∨ t.title = "header" := by simpa using htitle
      obtain ⟨d, hd⟩ := Option.isSome_iff_exists.1 (hdesc t (List.mem_cons_self _ _) htitle')
      simp only [hd, requireString, bind, Except.bind, pure, Except.pure]
      split
      · exact ⟨_, rfl⟩
      · split
        · exact ⟨_, rfl⟩
        · split
          · exact ih _
          · exact ⟨_, rfl⟩
    · exact ih _

theorem parseHeadersLoop_malformed (tag : Tag) (d : String) (post : List Tag)
    (htitle : tag.title = "headers" ∨ tag.title = "header")
    (hd : tag.description = some d) (hmal : malformedHeader d = true)
    (pre : List Tag) (headers : Obj (Obj Header)) :
    parseHeadersLoop (pre ++ tag :: post) headers = parseHeadersLoop pre headers := by
  induction pre generalizing headers with
  | nil =>
    have htitle' : (tag.title == "headers" || tag.title == "header") = true := by
      simpa using htitle
    simp only [List.nil_append]
    rw [parseHeadersLoop, parseHeadersLoop]
    simp only [htitle', hd, requireString, bind, Except.bind, pure, Except.pure, if_true]
    simp only [malformedHeader, Bool.or_eq_true, decide_eq_true_eq, Option.isNone_iff_eq_none]
      at hmal
    split
    · rfl
    · split
      · rfl
      · rename_i hlen
        rcases hmal with hmal | hmal
        · exact absurd hmal hlen
        · split
          · rename_i hcode
            rw [hmal] at hcode
            cases hcode
          · rfl
  | cons t pre ih =>
    simp only [List.cons_append]
    rw [parseHeadersLoop, parseHeadersLoop]
    simp only [ih]

/-- C15: for every tag sequence in which each headers/header tag has a
description string, `parseHeaders` does not raise; and when a headers/header
tag of the sequence is malformed, the result equals `parseHeaders` applied to
the tags before that tag, so neither that tag nor any tag after it
contributes. -/
theorem parseHeaders_short_circuit (tags pre post : List Tag) (tag : Tag) (d : String)
    (hdesc : ∀ t ∈ tags, t.title = "headers" ∨ t.title = "header" → t.description.isSome) :
    (∃ headers, parseHeaders tags = .ok headers)
      ∧ (tags = pre ++ tag :: post → (tag.title = "headers" ∨ tag.title = "header") →
          tag.description = some d → malformedHeader d = true →
          parseHeaders tags = parseHeaders pre) := by
  refine ⟨parseHeadersLoop_ok tags hdesc [], ?_⟩
  rintro rfl htitle hd hmal
  exact parseHeadersLoop_malformed tag d post htitle hd hmal pre []

/-- Witness of `parseHeaders_short_circuit`: a well-formed header tag, a
malformed one without a dot, and a well-formed one after it, which does not
contribute. -/
theorem parseHeaders_short_circuit_witness :
    parseHeaders
        [{ title := "headers", description := some "200.X-Rate - integer - calls left" },
         { title := "headers", description := some "no dot here - integer" },
         { title := "headers", description := some "404.X-Trace - string - trace id" }]
      = parseHeaders
          [{ title := "headers", description := some "200.X-Rate - integer - calls left" }]
      ∧ parseHeaders
          [{ title := "headers", description := some "200.X-Rate - integer - calls left" }]
        = .ok [("200", [("X-Rate", { type := "200", description := some "integer" })])] :=
  ⟨(parseHeaders_short_circuit
      [{ title := "headers", description := some "200.X-Rate - integer - calls left" },
       { title := "headers", description := some "no dot here - integer" },
       { title := "headers", description := some "404.X-Trace - string - trace id" }]
      [{ title := "headers", description := some "200.X-Rate - integer - calls left" }]
      [{ title := "headers", description := some "404.X-Trace - string - trace id" }]
      { title := "headers", description := some "no dot here - integer" }
      "no dot here - integer"
      (by intro t ht _; simp at ht; rcases ht with rfl | rfl | rfl <;> rfl)).2
      rfl (Or.inl rfl) rfl (by decide),
    by decide⟩

/-! ## Responses -/

theorem Obj.get_set_self {α : Type} (o : Obj α) (key : String) (value : α) :
    (o.set key value).get key = some value := by
  induction o with
  | nil => simp [Obj.set, Obj.get]
  | cons kv rest ih =>
    obtain ⟨k, v⟩ := kv
    by_cases h : k = key
    · simp [Obj.set, Obj.get, h]
    · simp [Obj.set, Obj.get, h, ih]

theorem Obj.get_set_of_ne {α : Type} (o : Obj α) (key other : String) (value : α)
    (h : other ≠ key) : (o.set key value).get other = o.get other := by
  induction o with
  | nil =>
    have : ¬ key = other := fun e => h e.symm
    simp [Obj.set, Obj.get, this]
  | cons kv rest ih =>
    obtain ⟨k, v⟩ := kv
    by_cases hk : k = key
    · subst hk
      have : ¬ k = other := fun e => h e.symm
      simp [Obj.set, Obj.get, this]
    · by_cases ho : k = other
      · subst ho
        simp [Obj.set, Obj.get, hk]
      · simp [Obj.set, Obj.get, hk, ho, ih]

theorem parseSchema_ok_of_plain (type : Option TypeExpr) (h : PlainType type)
    (hsome : type ≠ none) : ∃ schema, parseSchema type = .ok schema := by
  rcases h with h | ⟨n, rfl⟩ | ⟨C, args, rfl⟩
  · exact absurd h hsome
  · simp only [parseSchema, TypeExpr.named, TypeExpr.name, TypeExpr.applications]
    split
    · exact ⟨_, rfl⟩
    · split <;> exact ⟨_, rfl⟩
  · match args with
    | [] => exact ⟨_, rfl⟩
    | [a] =>
      obtain ⟨n, e, ap⟩ := a
      by_cases hp : isPrimitive n = true
      · exact ⟨_, by
          simp [parseSchema, TypeExpr.applied, TypeExpr.named, TypeExpr.name,
            TypeExpr.applications, TypeExpr.expression, truthy, containerType, hp]
          rfl⟩
      · exact ⟨_, by
          simp [parseSchema, TypeExpr.applied, TypeExpr.named, TypeExpr.name,
            TypeExpr.applications, TypeExpr.expression, truthy, containerType, hp]
          rfl⟩
    | a :: b :: rest =>
      exact ⟨_, by
        simp [parseSchema, TypeExpr.applied, TypeExpr.named, TypeExpr.name,
          TypeExpr.applications, TypeExpr.expression, truthy, containerType, oneOfLoop]
        rfl⟩

theorem parseReturn_eq (host : Host) (tags : List Tag) :
    parseReturn host tags
      = (parseHeaders tags).bind (fun headers => tags.foldlM (returnStep host headers) []) :=
  rfl

theorem returnStep_other (host : Host) (headers : Obj (Obj Header)) (rets : Obj Response)
    (tag : Tag) (h : ¬ (tag.title = "returns" ∨ tag.title = "return")) :
    returnStep host headers rets tag = .ok rets := by
  have : (tag.title == "returns" || tag.title == "return") = false := by simpa using h
  simp [returnStep, this]
  rfl

theorem returnStep_return (jsonParse : String → Option JsValue) (headers : Obj (Obj Header))
    (rets : Obj Response) (tag : Tag) (d : String)
    (htitle : tag.title = "returns" ∨ tag.title = "return") (hd : tag.description = some d)
    (htype : PlainType tag.type) :
    ∃ r, returnStep { thisValue := .globalObject, jsonParse := jsonParse } headers rets tag
          = .ok (rets.set (returnKey d) r)
      ∧ r.description
          = (match (split '-' d)[1]? with
             | some piece => trim piece
             | none => "") := by
  have ht : (tag.title == "returns" || tag.title == "return") = true := by simpa using htitle
  have hdescr : (if truthy (split '-' d)[1]? then trim ((split '-' d)[1]?.getD "") else "")
      = (match (split '-' d)[1]? with
         | some piece => trim piece
         | none => "") := by
    cases (split '-' d)[1]? with
    | none => rfl
    | some piece =>
      by_cases hp : piece = ""
      · subst hp
        decide
      · simp [truthy, hp]
  by_cases htr : truthy (parseType tag.type) = true
  · have hsome : tag.type ≠ none := by
      intro e
      rw [e] at htr
      simp [parseType, truthy] at htr
    obtain ⟨schema, hschema⟩ := parseSchema_ok_of_plain tag.type htype hsome
    refine ⟨{ description := if truthy (split '-' d)[1]? then trim ((split '-' d)[1]?.getD "")
                             else ""
              headers := headers.get (returnKey d)
              schema := schema }, ?_, hdescr⟩
    simp [returnStep, ht, hd, requireString, thisParseType, htr, hschema, bind, Except.bind,
      pure, Except.pure, returnKey]
  · refine ⟨{ description := if truthy (split '-' d)[1]? then trim ((split '-' d)[1]?.getD "")
                             else ""
              headers := headers.get (returnKey d) }, ?_, hdescr⟩
    simp [returnStep, ht, hd, requireString, thisParseType, htr, bind, Except.bind,
      pure, Except.pure, returnKey]

theorem foldlM_returnStep (jsonParse : String → Option JsValue) (headers : Obj (Obj Header))
    (tags : List Tag)
    (hdesc : ∀ t ∈ tags, t.title = "returns" ∨ t.title = "return" → t.description.isSome)
    (htype : ∀ t ∈ tags, PlainType t.type) (rets : Obj Response) :
    ∃ result,
      tags.foldlM (returnStep { thisValue := .globalObject, jsonParse := jsonParse } headers) rets
          = .ok result
      ∧ ∀ key : String,
          (∀ t ∈ tags, t.title = "returns" ∨ t.title = "return" →
            ∀ e, t.description = some e → returnKey e ≠ key) →
          result.get key = rets.get key := by
  induction tags generalizing rets with
  | nil => exact ⟨rets, rfl, fun _ _ => rfl⟩
  | cons t tags ih =>
    have ih := ih (fun y hy => hdesc y (List.mem_cons_of_mem _ hy))
      (fun y hy => htype y (List.mem_cons_of_mem _ hy))
    by_cases htitle : t.title = "returns" ∨ t.title = "return"
    · obtain ⟨d, hd⟩ := Option.isSome_iff_exists.1 (hdesc t (List.mem_cons_self _ _) htitle)
      obtain ⟨r, hstep, -⟩ := returnStep_return jsonParse headers rets t d htitle hd
        (htype t (List.mem_cons_self _ _))
      obtain ⟨result, hres, hkeep⟩ := ih (rets.set (returnKey d) r)
      refine ⟨result, by simp [List.foldlM, hstep, hres, bind, Except.bind], ?_⟩
      intro key hkey
      rw [hkeep key (fun y hy => hkey y (List.mem_cons_of_mem _ hy))]
      exact Obj.get_set_of_ne rets (returnKey d) key r
        (fun e => hkey t (List.mem_cons_self _ _) htitle d hd e.symm)
    · obtain ⟨result, hres, hkeep⟩ := ih rets
      refine ⟨result, by
        simp [List.foldlM, returnStep_other _ headers rets t htitle, hres, bind, Except.bind], ?_⟩
      intro key hkey
      exact hkeep key (fun y hy => hkey y (List.mem_cons_of_mem _ hy))

/-- C14 fails on the code: `parseReturn` is called plainly (line 438) in a
module, where `this` is undefined, so for a returns tag with a description,
whatever the description and the type, the call raises at `this.parseType`
(line 221) and returns no map. Whatever `this` is bound to, for the single
returns tag `404 - Not-found` `parseReturn` does not return a map with the
description `Not-found` for `404`; with `this` resolved the description is
`Not`, the piece between the first and the second hyphen (line 214 splits at
every hyphen and line 218 takes the piece of index 1). -/
theorem parseReturn_raises_in_module :
    (∀ (jsonParse : String → Option JsValue) (title d : String) (type : Option TypeExpr),
        title = "returns" ∨ title = "return" →
        parseReturn (moduleHost jsonParse)
            [{ title := title, description := some d, type := type }]
          = .error (.typeError "this is undefined (reading parseType)"))
      ∧ (¬ ∃ (host : Host) (rets : Obj Response) (r : Response),
          parseReturn host [{ title := "returns", description := some "404 - Not-found" }]
              = .ok rets
            ∧ rets.get "404" = some r ∧ r.description = "Not-found")
      ∧ ∀ jsonParse : String → Option JsValue,
          parseReturn { thisValue := .globalObject, jsonParse := jsonParse }
              [{ title := "returns", description := some "404 - Not-found" }]
            = .ok [("404", { description := "Not" })] := by
  refine ⟨?_, ?_, fun _ => rfl⟩
  · rintro jsonParse title d type (rfl | rfl) <;> rfl
  rintro ⟨⟨this, jsonParse⟩, rets, r, h, hget, hdescr⟩
  cases this
  · have e : parseReturn ⟨.undefined, jsonParse⟩
        [{ title := "returns", description := some "404 - Not-found" }]
        = .error (.typeError "this is undefined (reading parseType)") := rfl
    rw [e] at h
    cases h
  · have e : parseReturn ⟨.globalObject, jsonParse⟩
        [{ title := "returns", description := some "404 - Not-found" }]
        = .ok [("404", { description := "Not" })] := rfl
    rw [e] at h
    injection h with h
    subst h
    simp [Obj.get] at hget
    subst hget
    simp at hdescr

/-- Witness of `parseReturn_raises_in_module` at the returns tag
`404 - Not-found`. -/
theorem parseReturn_raises_in_module_witness :
    parseReturn (moduleHost (fun _ => none))
        [{ title := "returns", description := some "404 - Not-found", type := none }]
      = .error (.typeError "this is undefined (reading parseType)") :=
  parseReturn_raises_in_module.1 (fun _ => none) "returns" "404 - Not-found" none (Or.inl rfl)

/-- Where `this.parseType` resolves to the function of the file, as in a
script that is not a module: for every tag sequence whose headers/header and returns/return tags
have description strings and whose types are absent, names or applications of
a named container, and every returns/return tag in it that no later
returns/return tag follows with the same status code, `parseReturn` returns a
map that takes the trimmed status code (the text before the first hyphen) to
a response whose description is the trimmed text between the first and the
second hyphen: the whole text after the first hyphen when it holds no hyphen,
and the empty string when the description holds no hyphen. -/
theorem parseReturn_second_piece (jsonParse : String → Option JsValue) (pre post : List Tag)
    (tag : Tag) (d : String)
    (hdesc : ∀ t ∈ pre ++ tag :: post,
      t.title = "headers" ∨ t.title = "header" ∨ t.title = "returns" ∨ t.title = "return" →
      t.description.isSome)
    (htype : ∀ t ∈ pre ++ tag :: post, PlainType t.type)
    (htitle : tag.title = "returns" ∨ tag.title = "return")
    (hd : tag.description = some d)
    (hlast : ∀ t ∈ post, t.title = "returns" ∨ t.title = "return" →
      ∀ e, t.description = some e → returnKey e ≠ returnKey d) :
    ∃ rets r,
      parseReturn { thisValue := .globalObject, jsonParse := jsonParse } (pre ++ tag :: post)
          = .ok rets
      ∧ rets.get (returnKey d) = some r
      ∧ r.description
          = (match (split '-' d)[1]? with
             | some piece => trim piece
             | none => "") := by
  obtain ⟨headers, hheaders⟩ := parseHeadersLoop_ok (pre ++ tag :: post)
    (fun t ht h => hdesc t ht (by rcases h with h | h <;> simp [h])) []
  have hret : ∀ t ∈ pre ++ tag :: post, t.title = "returns" ∨ t.title = "return" →
      t.description.isSome :=
    fun t ht h => hdesc t ht (by rcases h with h | h <;> simp [h])
  obtain ⟨rets₁, h₁, -⟩ := foldlM_returnStep jsonParse headers pre
    (fun t ht => hret t (List.mem_append_left _ ht))
    (fun t ht => htype t (List.mem_append_left _ ht)) []
  obtain ⟨r, hstep, hr⟩ := returnStep_return jsonParse headers rets₁ tag d htitle hd
    (htype tag (by simp))
  obtain ⟨rets₂, h₂, hkeep⟩ := foldlM_returnStep jsonParse headers post
    (fun t ht => hret t (by simp [ht]))
    (fun t ht => htype t (by simp [ht])) (rets₁.set (returnKey d) r)
  refine ⟨rets₂, r, ?_, ?_, hr⟩
  · have hh : parseHeaders (pre ++ tag :: post) = .ok headers := hheaders
    rw [parseReturn_eq, hh]
    simp [Except.bind, List.foldlM_append, h₁, List.foldlM, hstep, h₂, bind]
  · rw [hkeep (returnKey d) hlast]
    exact Obj.get_set_self rets₁ (returnKey d) r

/-- Witness of `parseReturn_second_piece` at the tags `200 - OK` and
`404 - Not-found`. -/
theorem parseReturn_second_piece_witness :
    ∃ rets r,
      parseReturn { thisValue := .globalObject, jsonParse := fun _ => none }
          ([{ title := "returns", description := some "200 - OK" }]
            ++ { title := "returns", description := some "404 - Not-found" } :: [])
          = .ok rets
      ∧ rets.get (returnKey "404 - Not-found") = some r
      ∧ r.description
          = (match (split '-' "404 - Not-found")[1]? with
             | some piece => trim piece
             | none => "") :=
  parseReturn_second_piece (fun _ => none)
    [{ title := "returns", description := some "200 - OK" }] []
    { title := "returns", description := some "404 - Not-found" } "404 - Not-found"
    (by intro t ht _; simp at ht; rcases ht with rfl | rfl <;> rfl)
    (by intro t ht; simp at ht; rcases ht with rfl | rfl <;> exact Or.inl rfl)
    (Or.inl rfl) rfl (by simp)

/-! ## Enums -/

theorem regexSplitAux_length_pos (matchAt : List Char → Option Nat) (cs : List Char) :
    ∀ (skip : Nat) (cur : List Char), 1 ≤ (regexSplitAux matchAt skip cur cs).length := by
  induction cs with
  | nil => intro skip cur; simp [regexSplitAux]
  | cons c cs ih =>
    intro skip cur
    cases skip with
    | succ skip => simpa [regexSplitAux] using ih skip cur
    | zero =>
      rw [regexSplitAux]
      split
      · simp
      · exact ih 0 (c :: cur)

theorem regexSplitAux_of_match (matchAt : List Char → Option Nat) (c : Char) (rest : List Char)
    (n : Nat) (hmatch : matchAt (c :: rest) = some (n + 1)) (before : List Char) :
    ∀ cur : List Char, 2 ≤ (regexSplitAux matchAt 0 cur (before ++ c :: rest)).length := by
  induction before with
  | nil =>
    intro cur
    have := regexSplitAux_length_pos matchAt rest n []
    simp only [List.nil_append]
    rw [regexSplitAux]
    simp only [hmatch, List.length_cons]
    omega
  | cons b before ih =>
    intro cur
    simp only [List.cons_append]
    rw [regexSplitAux]
    split
    · rename_i k hk
      have := regexSplitAux_length_pos matchAt (before ++ c :: rest) k []
      simp only [List.length_cons]
      omega
    · exact ih (b :: cur)

theorem parseEnums_of_marker (description : String)
    (h : 2 ≤ (regexSplit matchExampleMarker description).length) :
    parseEnums description = .error (.typeError "currentParseType[1] is null or undefined") := by
  have : ¬ (regexSplit matchExampleMarker description).length < 2 := by omega
  simp [parseEnums, this, parseType_length, requireString]
  rfl

/-- C18 fails on the code: whenever the description holds the example marker,
`parseEnums` raises. Line 257 tests `parseType.length`, the number of
parameters of the function `parseType`, which is 1, so line 258 replaces the
split `T:v1,...,vn` by `['string', parseType[0]]`, and line 262 calls `split`
on `parseType[0]`, which is `undefined`. For `status - eg:
string:open,closed`, and for every description that holds `-eg:`, the result
is a `TypeError`, and `parseTypedef` raises for a property of the type `enum`
whatever `this` is bound to. -/
theorem parseEnums_marker_raises :
    parseEnums "status - eg: string:open,closed"
        = .error (.typeError "currentParseType[1] is null or undefined")
      ∧ (∀ before after : String,
          parseEnums (before ++ "-eg:" ++ after)
            = .error (.typeError "currentParseType[1] is null or undefined"))
      ∧ ∀ host : Host, ∃ e,
          parseTypedef host (enumTypedefBlock "status - eg: string:open,closed") = .error e := by
  refine ⟨by decide, ?_, ?_⟩
  · intro before after
    apply parseEnums_of_marker
    have hdata : (before ++ "-eg:" ++ after).data
        = before.data ++ '-' :: ('e' :: 'g' :: ':' :: after.data) := by
      simp [String.data_append]
    have hmatch : matchExampleMarker ('-' :: ('e' :: 'g' :: ':' :: after.data))
        = some (3 + spaceRun after.data + 1) := by
      have hrun : spaceRun ('e' :: 'g' :: ':' :: after.data) = 0 := by
        have : isWhiteSpace 'e' = false := by decide
        simp [spaceRun, List.takeWhile, this]
      simp only [matchExampleMarker, hrun, List.drop_zero]
      congr 1
      omega
    simp only [regexSplit, List.length_map, hdata]
    exact regexSplitAux_of_match matchExampleMarker '-' _ _ hmatch before.data []
  · rintro ⟨this, jsonParse⟩
    cases this
    · exact ⟨_, rfl⟩
    · exact ⟨_, rfl⟩

/-! ## Typedefs -/

/-- C16 fails on the code: the name of a property is cut to its first
dot-segment only inside the branch `if (required === true)` of lines 291-295.
With `this` resolved, the property named `id.readOnly` is stored under the key
`id.readOnly` (with `readOnly` true), while `id.readOnly.required` is stored
under `id`; with `this` undefined `parseTypedef` raises at line 302. -/
theorem parseTypedef_modifier_in_key :
    (¬ ∃ (host : Host) (td : Typedef) (prop : PropertySchema),
        parseTypedef host (petTypedefBlock "id.readOnly") = .ok td
          ∧ td.details.properties.get "id" = some prop)
      ∧ (∀ jsonParse : String → Option JsValue,
          parseTypedef { thisValue := .globalObject, jsonParse := jsonParse }
              (petTypedefBlock "id.readOnly")
            = .ok
                { typeName := "Pet"
                  details :=
                    { required := []
                      properties :=
                        [("id.readOnly", .prop { type := some "string", description := "",
                                                 items := none, readOnly := some true })] } })
      ∧ (∀ jsonParse : String → Option JsValue,
          parseTypedef { thisValue := .globalObject, jsonParse := jsonParse }
              (petTypedefBlock "id.readOnly.required")
            = .ok
                { typeName := "Pet"
                  details :=
                    { required := ["id"]
                      properties :=
                        [("id", .prop { type := some "string", description := "",
                                        items := none, readOnly := some true })] } })
      ∧ ∀ jsonParse : String → Option JsValue,
          parseTypedef (moduleHost jsonParse) (petTypedefBlock "id.readOnly")
            = .error (.typeError "this is undefined (reading parseType)") := by
  refine ⟨?_, fun _ => rfl, fun _ => rfl, fun _ => rfl⟩
  rintro ⟨⟨this, jsonParse⟩, td, prop, h, hget⟩
  cases this
  · have e : parseTypedef ⟨.undefined, jsonParse⟩ (petTypedefBlock "id.readOnly")
        = .error (.typeError "this is undefined (reading parseType)") := rfl
    rw [e] at h
    cases h
  · have e : parseTypedef ⟨.globalObject, jsonParse⟩ (petTypedefBlock "id.readOnly")
        = .ok
            { typeName := "Pet"
              details :=
                { required := []
                  properties :=
                    [("id.readOnly", .prop { type := some "string", description := "",
                                             items := none, readOnly := some true })] } } := rfl
    rw [e] at h
    injection h with h
    subst h
    simp [Obj.get] at hget

/-! ## Tag groups -/

/-- C19 fails on the code: line 373 calls `parseTag(comment)` with the route
tag itself, not with the tags of the block, so the loop of `parseTag` runs
over the property values of that tag, none of which has the title `group`.
For a block with a route tag and the group tag `pets - Pet operations`,
whatever `this` is bound to, `fileFormat` returns no record with the entry
`{name: "pets", description: "Pet operations"}`; with `this` resolved the
entry and the operation's tags are those of the default, as without a group
tag. On the tags of the block `parseTag` does find the group. -/
theorem fileFormat_group_ignored :
    (¬ ∃ (host : Host) (r : Formatted),
        fileFormat host (groupBlock "pets - Pet operations") = .ok r
          ∧ { name := "pets", description := "Pet operations" } ∈ r.tags)
      ∧ (∀ jsonParse : String → Option JsValue, ∃ r,
          fileFormat { thisValue := .globalObject, jsonParse := jsonParse }
              (groupBlock "pets - Pet operations") = .ok r
          ∧ r.tags = [{ name := "default", description := "" }]
          ∧ (r.parameters.get "/pets").bind (fun methods => methods.get "get")
              = some
                { parameters := some []
                  description := some ""
                  tags := some ["default"]
                  responses := some [] })
      ∧ parseTag (membersOfTags (groupBlock "pets - Pet operations").tags)
          = .ok ["pets ", " Pet operations"] := by
  refine ⟨?_, fun _ => ⟨_, rfl, rfl, rfl⟩, by decide⟩
  rintro ⟨⟨this, jsonParse⟩, r, h, hmem⟩
  cases this
  · have e : fileFormat ⟨.undefined, jsonParse⟩ (groupBlock "pets - Pet operations")
        = .error (.typeError "this is undefined (reading parseDescription)") := rfl
    rw [e] at h
    cases h
  · have e : fileFormat ⟨.globalObject, jsonParse⟩ (groupBlock "pets - Pet operations")
        = .ok
            { parameters :=
                [("/pets", [("get",
                  { parameters := some []
                    description := some ""
                    tags := some ["default"]
                    responses := some [] })])]
              tags := [{ name := "default", description := "" }]
              definitions := [] } := rfl
    rw [e] at h
    injection h with h
    subst h
    simp at hmem

/-! ## Required properties -/

theorem required_of_bind {α : Type} (P : List String) (m : Except JsError α)
    (f : α → Except JsError Definition)
    (hf : ∀ a, m = .ok a → ∀ r, f a = .ok r → r.required = P)
    (r : Definition) (h : (m >>= f) = .ok r) : r.required = P := by
  cases m with
  | error e => cases h
  | ok a => exact hf a rfl r h

theorem required_of_ite (P : List String) (c : Prop) [Decidable c]
    (a b : Except JsError Definition)
    (ha : ∀ r, a = .ok r → r.required = P) (hb : ∀ r, b = .ok r → r.required = P)
    (r : Definition) (h : (if c then a else b) = .ok r) : r.required = P := by
  split at h
  · exact ha r h
  · exact hb r h

theorem parseProperty_required (host : Host) (details result : Definition) (tag : Tag)
    (h : parseProperty host details tag = .ok result) :
    result.required = details.required ++ (requiredName tag).toList := by
  by_cases htitle : tag.title = "property"
  · have ht : (tag.title == "property") = true := by simpa using htitle
    unfold parseProperty at h
    rw [if_pos ht] at h
    refine required_of_bind _ _ _ ?_ result h
    intro name hname r h
    have hname' : tag.name = some name := by
      cases hn : tag.name with
      | none => rw [hn] at hname; cases hname
      | some n =>
        rw [hn] at hname
        cases hname
        rfl
    have hgoal :
        (if (List.drop 1 (split '.' name)).contains "required" = true then
            { details with
              required := details.required ++
                [if (List.drop 1 (split '.' name)).contains "required" = true then
                  (split '.' name).headD "" else name] }
          else details).required
          = details.required ++ (requiredName tag).toList := by
      by_cases hr : (List.drop 1 (split '.' name)).contains "required" = true
      · have hr' : "required" ∈ List.drop 1 (split '.' name) := by simpa using hr
        rw [if_pos hr, if_pos hr]
        simp only [requiredName, htitle, hname', hr', if_true, Option.toList]
      · have hr' : ¬ "required" ∈ List.drop 1 (split '.' name) := by simpa using hr
        rw [if_neg hr]
        simp only [requiredName, htitle, hname', hr', if_true, if_false, Option.toList,
          List.append_nil]
    refine required_of_bind _ _ _ ?_ r h
    intro schema _ r h
    cases schema with
    | some schema =>
      cases h
      exact hgoal
    | none =>
      refine required_of_bind _ _ _ ?_ r h
      intro type _ r h
      refine required_of_bind _ _ _ ?_ r h
      intro items _ r h
      refine required_of_ite _ _ _ _ ?_ ?_ r h
      · intro r h
        refine required_of_bind _ _ _ ?_ r h
        intro parsedEnum _ r h
        refine required_of_bind _ _ _ ?_ r h
        intro prop _ r h
        cases h
        exact hgoal
      · intro r h
        refine required_of_bind _ _ _ ?_ r h
        intro prop _ r h
        cases h
        exact hgoal
  · have : (tag.title == "property") = false := by simpa using htitle
    simp only [parseProperty, this] at h
    cases h
    simp [requiredName, htitle]

theorem ok_of_bind {α β : Type} (m : Except JsError α) (f : α → Except JsError β) (a : α)
    (hm : m = .ok a) (hf : ∃ r, f a = .ok r) : ∃ r, (m >>= f) = .ok r := by
  subst hm
  exact hf

theorem ok_of_ite_neg {β : Type} (c : Prop) [Decidable c] (a b : Except JsError β)
    (hc : ¬ c) (hb : ∃ r, b = .ok r) : ∃ r, (if c then a else b) = .ok r := by
  rw [if_neg hc]
  exact hb

theorem parseItems_ok_of_present (type : TypeExpr) : ∃ items, parseItems (some type) = .ok items := by
  simp only [parseItems]
  split
  · split <;> exact ⟨_, rfl⟩
  · exact ⟨_, rfl⟩

theorem parseProperty_ok (host : Host) (details : Definition) (tag : Tag)
    (ht : Translatable host tag) : ∃ result, parseProperty host details tag = .ok result := by
  by_cases htitle : tag.title = "property"
  · obtain ⟨hname, hcases⟩ := ht htitle
    obtain ⟨name, hname⟩ := Option.isSome_iff_exists.1 hname
    have htb : (tag.title == "property") = true := by simpa using htitle
    unfold parseProperty
    rw [if_pos htb]
    refine ok_of_bind _ _ name (by rw [hname]; rfl) ?_
    rcases hcases with ⟨schema, hschema⟩ | ⟨hthis, hschema, henum⟩
    · exact ok_of_bind _ _ (some schema) hschema ⟨_, rfl⟩
    · refine ok_of_bind _ _ none hschema ?_
      have htype : thisParseType host tag.type = .ok (parseType tag.type) := by
        simp [thisParseType, hthis]
        rfl
      refine ok_of_bind _ _ (parseType tag.type) htype ?_
      cases hty : tag.type with
      | none =>
        rw [hty] at hschema
        cases hschema
      | some type =>
        obtain ⟨items, hitems⟩ := parseItems_ok_of_present type
        refine ok_of_bind _ _ items hitems ?_
        refine ok_of_ite_neg _ _ _ ?_ ?_
        · rw [hty] at henum
          intro hc
          split at hc
          · exact henum (by simpa using hc)
          · exact henum (by simpa using hc)
        · exact ok_of_bind _ _ _ rfl ⟨_, rfl⟩
  · exact ⟨details, by
      have : (tag.title == "property") = false := by simpa using htitle
      simp [parseProperty, this]
      rfl⟩

theorem foldlM_parseProperty_required (host : Host) (tags : List Tag) (details result : Definition)
    (h : tags.foldlM (parseProperty host) details = .ok result) :
    result.required = details.required ++ requiredNames tags := by
  induction tags generalizing details with
  | nil =>
    cases h
    simp [requiredNames]
  | cons t tags ih =>
    simp only [List.foldlM] at h
    cases hstep : parseProperty host details t with
    | error e =>
      rw [hstep] at h
      cases h
    | ok next =>
      rw [hstep] at h
      have h₁ := parseProperty_required host details next t hstep
      have h₂ := ih next h
      rw [h₂, h₁]
      cases hr : requiredName t <;> simp [requiredNames, List.filterMap_cons, hr]

theorem foldlM_parseProperty_ok (host : Host) (tags : List Tag)
    (ht : ∀ t ∈ tags, Translatable host t) (details : Definition) :
    ∃ result, tags.foldlM (parseProperty host) details = .ok result := by
  induction tags generalizing details with
  | nil => exact ⟨details, rfl⟩
  | cons t tags ih =>
    obtain ⟨next, hnext⟩ := parseProperty_ok host details t (ht t (List.mem_cons_self _ _))
    obtain ⟨result, hresult⟩ := ih (fun y hy => ht y (List.mem_cons_of_mem _ hy)) next
    exact ⟨result, by simp [List.foldlM, hnext, hresult, bind, Except.bind]⟩

/-- C17: for every typedef block (a typedef tag followed by the other tags),
the `required` list of a definition that `parseTypedef` returns is exactly the
sequence, in block order, of the first dot-segments of the names of those
property tags whose modifier segments include `required`; and `parseTypedef`
does return a definition when every property tag of the block has a name and
a type that resolves to a schema, or, with `this.parseType` resolved, a
present type other than `enum`. -/
theorem parseTypedef_required (host : Host) (first : Tag) (rest : List Tag)
    (hfirst : first.title = "typedef") :
    (∀ td, parseTypedef host (first :: rest) = .ok td →
        td.details.required = requiredNames (first :: rest))
      ∧ ((∀ t ∈ rest, Translatable host t) →
          ∃ td, parseTypedef host (first :: rest) = .ok td
            ∧ td.details.required = requiredNames (first :: rest)) := by
  have hnames : requiredNames (first :: rest) = requiredNames rest := by
    have : requiredName first = none := by simp [requiredName, hfirst]
    simp [requiredNames, List.filterMap_cons, this]
  have hreturned : ∀ td, parseTypedef host (first :: rest) = .ok td →
      td.details.required = requiredNames (first :: rest) := by
    intro td h
    simp only [parseTypedef, bind, Except.bind] at h
    split at h
    · cases h
    · rename_i details hfold
      cases h
      have := foldlM_parseProperty_required host rest _ details hfold
      rw [hnames, this]
      split <;> [split; skip] <;> simp
  refine ⟨hreturned, ?_⟩
  intro ht
  obtain ⟨details, hdetails⟩ := foldlM_parseProperty_ok host rest ht
    (match first.type with
      | some type =>
        if truthy type.name then
          { allOf := some [.ref ("#/definitions/" ++ interpolate type.name)] }
        else {}
      | none => {})
  have hok : parseTypedef host (first :: rest)
      = .ok { typeName := interpolate first.name, details := details } := by
    simp only [parseTypedef, bind, Except.bind, hdetails]
    rfl
  exact ⟨_, hok, hreturned _ hok⟩

/-- Witness of `parseTypedef_required`, in the file as it is (`this`
undefined): a typedef block whose property tags all have types that resolve to
schemas; `required` stands first, last and not at all among the modifiers, and
the names listed are `pet` and `owner`. -/
theorem parseTypedef_required_witness :
    requiredNames
        ({ title := "typedef", name := some "Order" }
          :: [{ title := "property", name := some "pet.required",
                type := some (.named "Pet.model") },
              { title := "description", description := some "an order" },
              { title := "property", name := some "tags.readOnly",
                type := some (.applied "Array" [.named "string"]) },
              { title := "property", name := some "owner.readOnly.required",
                type := some (.named "User.model") }])
        = ["pet", "owner"]
      ∧ ∃ td,
          parseTypedef (moduleHost (fun _ => none))
              ({ title := "typedef", name := some "Order" }
                :: [{ title := "property", name := some "pet.required",
                      type := some (.named "Pet.model") },
                    { title := "description", description := some "an order" },
                    { title := "property", name := some "tags.readOnly",
                      type := some (.applied "Array" [.named "string"]) },
                    { title := "property", name := some "owner.readOnly.required",
                      type := some (.named "User.model") }])
            = .ok td
          ∧ td.details.required
              = requiredNames
                  ({ title := "typedef", name := some "Order" }
                    :: [{ title := "property", name := some "pet.required",
                          type := some (.named "Pet.model") },
                        { title := "description", description := some "an order" },
                        { title := "property", name := some "tags.readOnly",
                          type := some (.applied "Array" [.named "string"]) },
                        { title := "property", name := some "owner.readOnly.required",
                          type := some (.named "User.model") }]) :=
  ⟨by decide,
    (parseTypedef_required (moduleHost (fun _ => none))
      { title := "typedef", name := some "Order" } _ rfl).2
      (by
        intro t ht
        simp only [List.mem_cons, List.mem_singleton, List.not_mem_nil, or_false] at ht
        rcases ht with rfl | rfl | rfl | rfl
        · exact fun _ => ⟨rfl, Or.inl ⟨_, rfl⟩⟩
        · intro h
          exact absurd h (by decide)
        · exact fun _ => ⟨rfl, Or.inl ⟨_, rfl⟩⟩
        · exact fun _ => ⟨rfl, Or.inl ⟨_, rfl⟩⟩)⟩

/-! ## Seeding and frame of the aggregation -/

/-- C21 fails on the code: `initDefaultSwaggerInstance` sets `swagger`,
`paths`, `responses`, `parameters`, `securityDefinitions` and `tags` on a new
object and never `definitions`, so the result has no `definitions` property
for any seed, also when the seed supplies one; the other five are the seed's
values or empty. For the seed `{definitions: {Pet: {type: "object"}}}` the
result is `{swagger: "2.0", paths: {}, responses: {}, parameters: {},
securityDefinitions: {}, tags: []}`. -/
theorem initDefault_without_definitions :
    (∀ seed : SwaggerObject,
        (initDefaultSwaggerInstance seed).fields.get "definitions" = none
          ∧ (initDefaultSwaggerInstance seed).fields.get "swagger" = some (.str "2.0")
          ∧ (initDefaultSwaggerInstance seed).fields.get "paths"
              = some (seedOr seed.fields "paths" (.obj []))
          ∧ (initDefaultSwaggerInstance seed).tags = some (seed.tags.getD []))
      ∧ (initDefaultSwaggerInstance
            { tags := none
              fields := [("definitions", .obj [("Pet", .obj [("type", .str "object")])])] }).fields
          = [("swagger", .str "2.0"), ("paths", .obj []), ("responses", .obj []),
             ("parameters", .obj []), ("securityDefinitions", .obj [])]
      ∧ (initDefaultSwaggerInstance
            { tags := none
              fields := [("definitions", .obj [("Pet", .obj [("type", .str "object")])])] }).tags
          = some [] := by
  refine ⟨?_, rfl, rfl⟩
  intro seed
  refine ⟨rfl, rfl, rfl, ?_⟩
  cases h : seed.tags <;> simp [initDefaultSwaggerInstance, h]

theorem pushTagUnlessExists_fields (swaggerObject : SwaggerObject) (tag : JsValue) :
    (pushTagUnlessExists swaggerObject tag).swaggerObject.fields = swaggerObject.fields := by
  unfold pushTagUnlessExists
  split
  · rfl
  · rfl
  · split <;> rfl

theorem runEach_fields {α : Type} (body : SwaggerObject → α → Run)
    (hbody : ∀ swaggerObject x, (body swaggerObject x).swaggerObject.fields = swaggerObject.fields)
    (xs : List α) (swaggerObject : SwaggerObject) :
    (runEach body xs swaggerObject).swaggerObject.fields = swaggerObject.fields := by
  induction xs generalizing swaggerObject with
  | nil => rfl
  | cons x xs ih =>
    rw [runEach]
    have hx := hbody swaggerObject x
    split
    · exact hx
    · rw [ih, hx]

theorem handleSwaggerProperties_fields (swaggerObject : SwaggerObject) (pathObject : Obj JsValue)
    (propertyName : String) :
    (handleSwaggerProperties swaggerObject pathObject propertyName).swaggerObject.fields
      = swaggerObject.fields := by
  unfold handleSwaggerProperties
  dsimp only
  split
  · split <;> rfl
  · split
    · unfold attachTagsProperty
      split
      · exact runEach_fields _ pushTagUnlessExists_fields _ _
      · exact pushTagUnlessExists_fields _ _
    · split <;> rfl

/-- C23: for every swagger object and every list of fragments,
`addDataToSwaggerObject` leaves every property of the swagger object other
than `tags` with exactly the value it had before the call, `paths`,
`definitions`, `parameters`, `responses` and `securityDefinitions` included;
this holds when the call completes without raising, and also for what it
leaves behind when it raises. -/
theorem addData_frame (swaggerObject : SwaggerObject) (data : List (Obj JsValue)) :
    ∃ run, addDataToSwaggerObject (some swaggerObject) (some data) = .ok run
      ∧ run.swaggerObject.fields = swaggerObject.fields
      ∧ ∀ key : String, run.swaggerObject.fields.get key = swaggerObject.fields.get key := by
  refine ⟨_, rfl, ?_, ?_⟩
  · exact runEach_fields _
      (fun doc pathObject => runEach_fields _
        (fun doc propertyName => handleSwaggerProperties_fields doc pathObject propertyName) _ doc)
      data swaggerObject
  · intro key
    rw [runEach_fields _
      (fun doc pathObject => runEach_fields _
        (fun doc propertyName => handleSwaggerProperties_fields doc pathObject propertyName) _ doc)
      data swaggerObject]

/-! ## Parameters of an operation -/

theorem formatParam_eq (host : Host) (st : FormatState) (comment : Tag) :
    formatParam host st comment
      = (translateParam host comment).bind
          (fun parameter => .ok { st with params := st.params ++ [parameter] }) := by
  unfold formatParam translateParam
  cases comment.name with
  | none => rfl
  | some name =>
    cases hs : parseSchema comment.type with
    | error e => simp [requireString, bind, Except.bind, hs, pure, Except.pure]
    | ok schema =>
      cases schema with
      | some schema => simp [requireString, bind, Except.bind, hs, pure, Except.pure]
      | none =>
        cases ht : thisParseType host comment.type with
        | error e => simp [requireString, bind, Except.bind, hs, ht, pure, Except.pure]
        | ok type =>
          by_cases henum : type = some "enum"
          · cases he : parseEnums (stringOfNullable comment.description) with
            | error e => simp [requireString, bind, Except.bind, hs, ht, henum, he, pure, Except.pure]
            | ok parsed =>
              simp [requireString, bind, Except.bind, hs, ht, henum, he, pure, Except.pure]
          · simp [requireString, bind, Except.bind, hs, ht, henum, pure, Except.pure]

theorem state_of_bind {α β : Type} (Q : β → Prop) (m : Except JsError α)
    (f : α → Except JsError β) (hf : ∀ a, m = .ok a → ∀ r, f a = .ok r → Q r)
    (r : β) (h : (m >>= f) = .ok r) : Q r := by
  cases m with
  | error e => cases h
  | ok a => exact hf a rfl r h

theorem state_of_ite {β : Type} (Q : β → Prop) (c : Prop) [Decidable c]
    (a b : Except JsError β) (ha : ∀ r, a = .ok r → Q r) (hb : ∀ r, b = .ok r → Q r)
    (r : β) (h : (if c then a else b) = .ok r) : Q r := by
  split at h
  · exact ha r h
  · exact hb r h

theorem updateOperation_params (st result : FormatState) (route : Route)
    (update : Operation → Operation) (h : st.updateOperation route update = .ok result) :
    result.params = st.params ∧ result.route = st.route := by
  unfold FormatState.updateOperation at h
  split at h
  · cases h
  · split at h
    · cases h
    · cases h
      exact ⟨rfl, rfl⟩

theorem formatRoute_params (desc : String) (st result : FormatState) (comment : Tag)
    (h : formatRoute desc st comment = .ok result) : result.params = st.params := by
  unfold formatRoute at h
  refine state_of_bind (fun r : FormatState => r.params = st.params) _ _ ?_ result h
  intro description _ r h
  refine state_of_bind (fun r : FormatState => r.params = st.params) _ _ ?_ r h
  intro tag _ r h
  cases h
  rfl

theorem formatOperationField_params (host : Host) (st result : FormatState) (comment : Tag)
    (h : formatOperationField host st comment = .ok result) :
    result.params = st.params ∧ result.route = st.route := by
  unfold formatOperationField at h
  split at h
  · cases h
    exact ⟨rfl, rfl⟩
  · rename_i route _
    have hupdate : ∀ (update : Operation → Operation) (r : FormatState),
        st.updateOperation route update = .ok r → r.params = st.params ∧ r.route = st.route :=
      fun update r h => updateOperation_params st r route update h
    refine state_of_ite (fun r : FormatState => r.params = st.params ∧ r.route = st.route)
      _ _ _ (hupdate _) ?_ result h
    intro r h
    refine state_of_ite (fun r : FormatState => r.params = st.params ∧ r.route = st.route)
      _ _ _ (hupdate _) ?_ r h
    intro r h
    refine state_of_ite (fun r : FormatState => r.params = st.params ∧ r.route = st.route)
      _ _ _ ?_ ?_ r h
    · intro r h
      exact state_of_bind (fun r : FormatState => r.params = st.params ∧ r.route = st.route)
        _ _ (fun _ _ => hupdate _) r h
    intro r h
    refine state_of_ite (fun r : FormatState => r.params = st.params ∧ r.route = st.route)
      _ _ _ ?_ ?_ r h
    · intro r h
      exact state_of_bind (fun r : FormatState => r.params = st.params ∧ r.route = st.route)
        _ _ (fun _ _ => hupdate _) r h
    intro r h
    refine state_of_ite (fun r : FormatState => r.params = st.params ∧ r.route = st.route)
      _ _ _ (hupdate _) ?_ r h
    intro r h
    refine state_of_ite (fun r : FormatState => r.params = st.params ∧ r.route = st.route)
      _ _ _ (hupdate _) ?_ r h
    intro r h
    cases h
    exact ⟨rfl, rfl⟩

theorem formatTag_eq (host : Host) (desc : String) (tags : List Tag) (st : FormatState)
    (comment : Tag) :
    formatTag host desc tags st comment
      = ((if comment.title == "route" then formatRoute desc st comment else pure st) >>=
          fun st₁ =>
            (if comment.title == "param" then formatParam host st₁ comment else pure st₁) >>=
              fun st₂ =>
                formatOperationField host st₂ comment >>= fun st₃ =>
                  match st₃.route with
                  | none => pure st₃
                  | some route =>
                    st₃.updateOperation route
                        (fun op => { op with parameters := some st₃.params }) >>=
                      fun st₄ =>
                        parseReturn host tags >>= fun responses =>
                          st₄.updateOperation route
                            (fun op => { op with responses := some responses })) := by
  unfold formatTag
  by_cases h1 : (comment.title == "route") = true <;>
    by_cases h2 : (comment.title == "param") = true <;>
    simp only [h1, h2, if_true, if_false] <;> rfl

theorem formatTag_params (host : Host) (desc : String) (tags : List Tag)
    (st result : FormatState) (comment : Tag)
    (h : formatTag host desc tags st comment = .ok result) :
    (comment.title = "param" ∧ ∃ parameter, translateParam host comment = .ok parameter
        ∧ result.params = st.params ++ [parameter])
      ∨ (comment.title ≠ "param" ∧ result.params = st.params) := by
  rw [formatTag_eq] at h
  refine state_of_bind (fun r : FormatState =>
    (comment.title = "param" ∧ ∃ parameter, translateParam host comment = .ok parameter
        ∧ r.params = st.params ++ [parameter])
      ∨ (comment.title ≠ "param" ∧ r.params = st.params)) _ _ ?_ result h
  intro st₁ h₁ r h
  have hst₁ : st₁.params = st.params := by
    split at h₁
    · exact formatRoute_params desc st st₁ comment h₁
    · cases h₁
      rfl
  refine state_of_bind (fun r : FormatState =>
    (comment.title = "param" ∧ ∃ parameter, translateParam host comment = .ok parameter
        ∧ r.params = st.params ++ [parameter])
      ∨ (comment.title ≠ "param" ∧ r.params = st.params)) _ _ ?_ r h
  intro st₂ h₂ r h
  have hst₂ : (comment.title = "param" ∧ ∃ parameter, translateParam host comment = .ok parameter
        ∧ st₂.params = st.params ++ [parameter])
      ∨ (comment.title ≠ "param" ∧ st₂.params = st.params) := by
    split at h₂
    · rename_i htitle
      left
      refine ⟨by simpa using htitle, ?_⟩
      rw [formatParam_eq] at h₂
      cases hp : translateParam host comment with
      | error e =>
        rw [hp] at h₂
        cases h₂
      | ok parameter =>
        rw [hp] at h₂
        cases h₂
        exact ⟨parameter, rfl, by rw [← hst₁]⟩
    · rename_i htitle
      right
      cases h₂
      exact ⟨by simpa using htitle, hst₁⟩
  refine state_of_bind (fun r : FormatState =>
    (comment.title = "param" ∧ ∃ parameter, translateParam host comment = .ok parameter
        ∧ r.params = st.params ++ [parameter])
      ∨ (comment.title ≠ "param" ∧ r.params = st.params)) _ _ ?_ r h
  intro st₃ h₃ r h
  have hst₃ := (formatOperationField_params host st₂ st₃ comment h₃).1
  have hfinal : r.params = st₃.params := by
    split at h
    · cases h
      rfl
    · rename_i route _
      refine state_of_bind (fun r : FormatState => r.params = st₃.params) _ _ ?_ r h
      intro st₄ h₄ r h
      have hst₄ := (updateOperation_params st₃ st₄ route _ h₄).1
      refine state_of_bind (fun r : FormatState => r.params = st₃.params) _ _ ?_ r h
      intro responses _ r h
      rw [(updateOperation_params st₄ r route _ h).1, hst₄]
  rw [hfinal, hst₃]
  exact hst₂

theorem foldlM_formatTag_params (host : Host) (desc : String) (tags : List Tag)
    (comments : List Tag) (st result : FormatState)
    (h : comments.foldlM (formatTag host desc tags) st = .ok result) :
    ∃ parameters, translateParams host comments = .ok parameters
      ∧ result.params = st.params ++ parameters := by
  induction comments generalizing st with
  | nil =>
    cases h
    exact ⟨[], rfl, by simp⟩
  | cons comment comments ih =>
    simp only [List.foldlM] at h
    cases hstep : formatTag host desc tags st comment with
    | error e =>
      rw [hstep] at h
      cases h
    | ok next =>
      rw [hstep] at h
      obtain ⟨rest, hrest, hparams⟩ := ih next h
      rcases formatTag_params host desc tags st next comment hstep with
        ⟨htitle, parameter, hp, hnext⟩ | ⟨htitle, hnext⟩
      · refine ⟨parameter :: rest, ?_, by rw [hparams, hnext]; simp⟩
        simp [translateParams, htitle, hp, hrest, bind, Except.bind, pure, Except.pure]
      · exact ⟨rest, by simp [translateParams, htitle, hrest], by rw [hparams, hnext]⟩

theorem Obj.get_map {α β : Type} (f : α → β) (o : Obj α) (key : String) :
    Obj.get (o.map (fun kv => (kv.1, f kv.2))) key = (Obj.get o key).map f := by
  induction o with
  | nil => rfl
  | cons kv rest ih =>
    obtain ⟨k, v⟩ := kv
    by_cases h : k = key
    · simp [Obj.get, h]
    · simp only [List.map_cons, Obj.get, h, if_false]
      exact ih

theorem shareParams_eq (params : List Parameter) (parameters : Obj (Obj Operation)) :
    shareParams params parameters
      = parameters.map (fun kv =>
          (kv.1, (fun methods : Obj Operation =>
            methods.map (fun kv =>
              (kv.1, (fun operation : Operation =>
                { operation with parameters := some params }) kv.2))) kv.2)) :=
  rfl

theorem shareParams_get (params : List Parameter) (parameters : Obj (Obj Operation))
    (uri method : String) :
    ((shareParams params parameters).get uri).bind (fun methods => methods.get method)
      = ((parameters.get uri).bind (fun methods => methods.get method)).map
          (fun operation => { operation with parameters := some params }) := by
  rw [shareParams_eq]
  have h := Obj.get_map (fun methods : Obj Operation =>
      methods.map (fun kv =>
        (kv.1, (fun operation : Operation =>
          { operation with parameters := some params }) kv.2))) parameters uri
  rw [show Obj.get (List.map _ parameters) uri = _ from h]
  cases hget : Obj.get parameters uri with
  | none => rfl
  | some methods =>
    simp only [Option.map_some', Option.some_bind]
    exact Obj.get_map (fun operation : Operation => { operation with parameters := some params })
      methods method

theorem formatKey_description (host : Host) (comments : Comment) (st result : FormatState)
    (h : formatKey host comments st "description" = .ok result) : result = st := by
  unfold formatKey at h
  refine state_of_bind (fun r : FormatState => r = st) _ _ ?_ result h
  intro desc _ r h
  rw [if_neg (by decide)] at h
  cases h
  rfl

theorem formatKey_tags (host : Host) (comments : Comment) (st result : FormatState)
    (h : formatKey host comments st "tags" = .ok result) :
    (result.parameters = st.parameters ∧ result.params = st.params)
      ∨ ∃ parameters, translateParams host comments.tags = .ok parameters
          ∧ result.params = st.params ++ parameters := by
  unfold formatKey at h
  refine state_of_bind (fun r : FormatState =>
    (r.parameters = st.parameters ∧ r.params = st.params)
      ∨ ∃ parameters, translateParams host comments.tags = .ok parameters
          ∧ r.params = st.params ++ parameters) _ _ ?_ result h
  intro desc _ r h
  rw [if_pos rfl] at h
  split at h
  · split at h
    · left
      refine state_of_bind (fun r : FormatState =>
        r.parameters = st.parameters ∧ r.params = st.params) _ _ ?_ r h
      intro typedefParsed _ r h
      cases h
      exact ⟨rfl, rfl⟩
    · right
      exact foldlM_formatTag_params host desc comments.tags _ st r h
  · right
    exact foldlM_formatTag_params host desc comments.tags _ st r h

theorem fileFormat_state (host : Host) (comments : Comment) (r : Formatted)
    (h : fileFormat host comments = .ok r) :
    r.parameters = []
      ∨ ∃ (parameters : List Parameter) (operations : Obj (Obj Operation)),
          translateParams host comments.tags = .ok parameters
            ∧ r.parameters = shareParams parameters operations := by
  unfold fileFormat at h
  refine state_of_bind (fun r : Formatted =>
    r.parameters = []
      ∨ ∃ (parameters : List Parameter) (operations : Obj (Obj Operation)),
          translateParams host comments.tags = .ok parameters
            ∧ r.parameters = shareParams parameters operations) _ _ ?_ r h
  intro st hst r h
  cases h
  simp only [Comment.keys, List.foldlM] at hst
  cases h₁ : formatKey host comments {} "description" with
  | error e =>
    rw [h₁] at hst
    cases hst
  | ok st₁ =>
    rw [h₁] at hst
    have e₁ := formatKey_description host comments {} st₁ h₁
    subst e₁
    have hst : (formatKey host comments {} "tags" >>= fun s => pure s) = Except.ok st := hst
    cases h₂ : formatKey host comments {} "tags" with
    | error e =>
      rw [h₂] at hst
      cases hst
    | ok st₂ =>
      rw [h₂] at hst
      have hst : st₂ = st := by
        cases hst
        rfl
      subst hst
      rcases formatKey_tags host comments {} st₂ h₂ with ⟨hp, -⟩ | ⟨parameters, ht, hp⟩
      · left
        show shareParams st₂.params st₂.parameters = []
        rw [hp]
        rfl
      · right
        refine ⟨parameters, st₂.parameters, ht, ?_⟩
        show shareParams st₂.params st₂.parameters = _
        rw [hp]
        rfl

theorem fileFormat_operation_parameters (host : Host) (comments : Comment) (r : Formatted)
    (h : fileFormat host comments = .ok r) (uri method : String) (operation : Operation)
    (hop : (r.parameters.get uri).bind (fun methods => methods.get method) = some operation) :
    ∃ parameters, translateParams host comments.tags = .ok parameters
      ∧ operation.parameters = some parameters := by
  rcases fileFormat_state host comments r h with hnil | ⟨parameters, operations, ht, hp⟩
  · rw [hnil] at hop
    cases hop
  · refine ⟨parameters, ht, ?_⟩
    rw [hp, shareParams_get] at hop
    cases hget : (Obj.get operations uri).bind (fun methods => methods.get method) with
    | none =>
      rw [hget] at hop
      cases hop
    | some original =>
      rw [hget] at hop
      cases hop
      rfl

theorem updateOperation_ok (st : FormatState) (route : Route) (update : Operation → Operation)
    (h : HasOperation st route) :
    ∃ result, st.updateOperation route update = .ok result
      ∧ result.route = st.route ∧ result.params = st.params ∧ HasOperation result route := by
  obtain ⟨methods, operation, hm, ho⟩ := h
  refine ⟨{ st with parameters :=
      st.parameters.set route.uri (methods.set route.method (update operation)) }, ?_, rfl, rfl,
    methods.set route.method (update operation), update operation, ?_, ?_⟩
  · simp only [FormatState.updateOperation, hm, ho]
    rfl
  · exact Obj.get_set_self _ _ _
  · exact Obj.get_set_self _ _ _

theorem parseHeadersLoop_without_headers (tags : List Tag)
    (h : ∀ t ∈ tags, t.title = "param" ∨ t.title = "route") (headers : Obj (Obj Header)) :
    parseHeadersLoop tags headers = .ok headers := by
  induction tags with
  | nil => rfl
  | cons t tags ih =>
    have ht : (t.title == "headers" || t.title == "header") = false := by
      rcases h t (List.mem_cons_self _ _) with e | e <;> rw [e] <;> decide
    rw [parseHeadersLoop]
    simp only [ht]
    exact ih (fun y hy => h y (List.mem_cons_of_mem _ hy))

theorem foldlM_returnStep_without_returns (host : Host) (headers : Obj (Obj Header))
    (tags : List Tag) (h : ∀ t ∈ tags, t.title = "param" ∨ t.title = "route")
    (rets : Obj Response) : tags.foldlM (returnStep host headers) rets = .ok rets := by
  induction tags with
  | nil => rfl
  | cons t tags ih =>
    have ht : ¬ (t.title = "returns" ∨ t.title = "return") := by
      rcases h t (List.mem_cons_self _ _) with e | e <;> rw [e] <;> decide
    simp only [List.foldlM, returnStep_other host headers rets t ht]
    exact ih (fun y hy => h y (List.mem_cons_of_mem _ hy))

theorem parseReturn_without_returns (host : Host) (tags : List Tag)
    (h : ∀ t ∈ tags, t.title = "param" ∨ t.title = "route") : parseReturn host tags = .ok [] := by
  rw [parseReturn_eq]
  have hh : parseHeaders tags = .ok [] := parseHeadersLoop_without_headers tags h []
  rw [hh]
  exact foldlM_returnStep_without_returns host [] tags h []

theorem parseTag_membersOfTag (comment : Tag) (h : comment.description.isSome = true) :
    parseTag (membersOfTag comment) = .ok ["default", ""] := by
  cases ht : comment.type.isSome <;> cases hn : comment.name.isSome <;>
    simp [membersOfTag, h, ht, hn, parseTag] <;> rfl

theorem formatOperationField_other (host : Host) (st : FormatState) (comment : Tag)
    (h : comment.title = "param" ∨ comment.title = "route") :
    formatOperationField host st comment = .ok st := by
  unfold formatOperationField
  cases st.route with
  | none => rfl
  | some route =>
    rcases h with e | e <;> simp [e] <;> rfl

theorem formatTag_finish_ok (host : Host) (tags : List Tag) (st : FormatState)
    (responses : Obj Response) (hret : parseReturn host tags = .ok responses)
    (hinv : ∀ route, st.route = some route → HasOperation st route) :
    ∃ result,
      (match st.route with
        | none => pure st
        | some route =>
          st.updateOperation route (fun op => { op with parameters := some st.params }) >>=
            fun st₄ =>
              parseReturn host tags >>= fun responses =>
                st₄.updateOperation route (fun op => { op with responses := some responses }))
          = Except.ok result
      ∧ result.route = st.route ∧ result.params = st.params
      ∧ ∀ route, result.route = some route → HasOperation result route := by
  cases hroute : st.route with
  | none =>
    refine ⟨st, rfl, hroute, rfl, ?_⟩
    intro route h
    rw [hroute] at h
    cases h
  | some route =>
    obtain ⟨st₄, h₄, hr₄, hp₄, hop₄⟩ := updateOperation_ok st route
      (fun op => { op with parameters := some st.params }) (hinv route hroute)
    obtain ⟨st₅, h₅, hr₅, hp₅, hop₅⟩ := updateOperation_ok st₄ route
      (fun op => { op with responses := some responses }) hop₄
    refine ⟨st₅, ?_, by rw [hr₅, hr₄, hroute], by rw [hp₅, hp₄], ?_⟩
    · show (st.updateOperation route (fun op => { op with parameters := some st.params }) >>=
          fun st₄ =>
            parseReturn host tags >>= fun responses =>
              st₄.updateOperation route (fun op => { op with responses := some responses }))
        = Except.ok st₅
      rw [h₄, hret]
      exact h₅
    · intro route' h
      rw [hr₅, hr₄, hroute] at h
      cases h
      exact hop₅

theorem formatTag_param_ok (host : Host) (desc : String) (tags : List Tag) (st : FormatState)
    (comment : Tag) (parameter : Parameter) (responses : Obj Response)
    (htitle : comment.title = "param") (hp : translateParam host comment = .ok parameter)
    (hret : parseReturn host tags = .ok responses)
    (hinv : ∀ route, st.route = some route → HasOperation st route) :
    ∃ result, formatTag host desc tags st comment = .ok result
      ∧ result.route = st.route
      ∧ ∀ route, result.route = some route → HasOperation result route := by
  obtain ⟨result, hres, hr, -, hop⟩ := formatTag_finish_ok host tags
    { st with params := st.params ++ [parameter] } responses hret hinv
  refine ⟨result, ?_, hr, hop⟩
  rw [formatTag_eq]
  have h1 : (comment.title == "route") = false := by rw [htitle]; decide
  have h2 : (comment.title == "param") = true := by rw [htitle]; decide
  simp only [h1, h2, if_true, if_false, Bool.false_eq_true]
  show (formatParam host st comment >>= _) = _
  rw [formatParam_eq, hp]
  show (formatOperationField host { st with params := st.params ++ [parameter] } comment >>= _) = _
  rw [formatOperationField_other host _ comment (Or.inl htitle)]
  exact hres

theorem formatTag_route_ok (host : Host) (desc : String) (tags : List Tag) (st : FormatState)
    (comment : Tag) (d : String) (responses : Obj Response)
    (htitle : comment.title = "route") (hd : comment.description = some d)
    (hret : parseReturn host tags = .ok responses) :
    ∃ result, formatTag host desc tags st comment = .ok result
      ∧ result.route = some (parseRoute d)
      ∧ ∀ route, result.route = some route → HasOperation result route := by
  have htag : parseTag (membersOfTag comment) = .ok ["default", ""] :=
    parseTag_membersOfTag comment (by rw [hd]; rfl)
  have hroute : ∃ st₁, formatRoute desc st comment = .ok st₁
      ∧ st₁.route = some (parseRoute d) ∧ HasOperation st₁ (parseRoute d) := by
    unfold formatRoute
    rw [hd, htag]
    exact ⟨_, rfl, rfl, _, _, Obj.get_set_self _ _ _, Obj.get_set_self _ _ _⟩
  obtain ⟨st₁, h₁, hr₁, hop₁⟩ := hroute
  obtain ⟨result, hres, hr, -, hop⟩ := formatTag_finish_ok host tags st₁ responses hret
    (by
      intro route h
      rw [hr₁] at h
      cases h
      exact hop₁)
  refine ⟨result, ?_, by rw [hr, hr₁], hop⟩
  rw [formatTag_eq]
  have h1 : (comment.title == "route") = true := by rw [htitle]; decide
  have h2 : (comment.title == "param") = false := by rw [htitle]; decide
  simp only [h1, h2, if_true, if_false, Bool.false_eq_true]
  rw [h₁]
  show (formatOperationField host st₁ comment >>= _) = _
  rw [formatOperationField_other host _ comment (Or.inr htitle)]
  exact hres

theorem foldlM_formatTag_params_ok (host : Host) (desc : String) (tags : List Tag)
    (responses : Obj Response) (hret : parseReturn host tags = .ok responses)
    (comments : List Tag)
    (hc : ∀ t ∈ comments, t.title = "param" ∧ ∃ parameter, translateParam host t = .ok parameter)
    (st : FormatState) (hinv : ∀ route, st.route = some route → HasOperation st route) :
    ∃ result, comments.foldlM (formatTag host desc tags) st = .ok result
      ∧ result.route = st.route
      ∧ ∀ route, result.route = some route → HasOperation result route := by
  induction comments generalizing st with
  | nil => exact ⟨st, rfl, rfl, hinv⟩
  | cons comment comments ih =>
    obtain ⟨htitle, parameter, hp⟩ := hc comment (List.mem_cons_self _ _)
    obtain ⟨next, hnext, hr, hop⟩ := formatTag_param_ok host desc tags st comment parameter
      responses htitle hp hret hinv
    obtain ⟨result, hres, hr', hop'⟩ := ih (fun y hy => hc y (List.mem_cons_of_mem _ hy)) next hop
    exact ⟨result, by simp only [List.foldlM, hnext]; exact hres, by rw [hr', hr], hop'⟩

theorem formatKey_tags_eq (jsonParse : String → Option JsValue) (comments : Comment)
    (st : FormatState)
    (hfirst : ∀ first ∈ comments.tags.head?, first.title = "param" ∨ first.title = "route") :
    formatKey { thisValue := .globalObject, jsonParse := jsonParse } comments st "tags"
      = comments.tags.foldlM
          (formatTag { thisValue := .globalObject, jsonParse := jsonParse }
            (parseDescription comments) comments.tags) st := by
  unfold formatKey
  simp only [thisParseDescription, eq_self_iff_true, if_true]
  cases htags : comments.tags with
  | nil => rfl
  | cons first rest =>
    have ht : (first.title != "" && first.title == "typedef") = false := by
      have := hfirst first (by rw [htags]; rfl)
      rcases this with e | e <;> rw [e] <;> decide
    simp only [ht, Bool.false_eq_true, if_false]
    rfl

theorem fileFormat_block_ok (jsonParse : String → Option JsValue) (description : Option String)
    (pre post : List Tag) (route : Tag) (d : String)
    (hparams : ∀ t ∈ pre ++ post, t.title = "param"
      ∧ ∃ parameter,
          translateParam { thisValue := .globalObject, jsonParse := jsonParse } t = .ok parameter)
    (hroute : route.title = "route") (hd : route.description = some d) :
    ∃ r operation,
      fileFormat { thisValue := .globalObject, jsonParse := jsonParse }
          { description := description, tags := pre ++ route :: post } = .ok r
      ∧ (r.parameters.get (parseRoute d).uri).bind
          (fun methods => methods.get (parseRoute d).method) = some operation := by
  have htitles : ∀ t ∈ pre ++ route :: post, t.title = "param" ∨ t.title = "route" := by
    intro t ht
    rcases List.mem_append.1 ht with h | h
    · exact Or.inl (hparams t (List.mem_append_left _ h)).1
    · rcases List.mem_cons.1 h with rfl | h
      · exact Or.inr hroute
      · exact Or.inl (hparams t (List.mem_append_right _ h)).1
  have hret := parseReturn_without_returns { thisValue := .globalObject, jsonParse := jsonParse }
    (pre ++ route :: post) htitles
  obtain ⟨st₁, h₁, -, hop₁⟩ := foldlM_formatTag_params_ok
    { thisValue := .globalObject, jsonParse := jsonParse }
    (parseDescription { description := description, tags := pre ++ route :: post })
    (pre ++ route :: post) [] hret pre
    (fun t ht => hparams t (List.mem_append_left _ ht)) {}
    (by intro r h; cases h)
  obtain ⟨st₂, h₂, hr₂, hop₂⟩ := formatTag_route_ok
    { thisValue := .globalObject, jsonParse := jsonParse }
    (parseDescription { description := description, tags := pre ++ route :: post })
    (pre ++ route :: post) st₁ route d [] hroute hd hret
  obtain ⟨st₃, h₃, hr₃, hop₃⟩ := foldlM_formatTag_params_ok
    { thisValue := .globalObject, jsonParse := jsonParse }
    (parseDescription { description := description, tags := pre ++ route :: post })
    (pre ++ route :: post) [] hret post
    (fun t ht => hparams t (List.mem_append_right _ ht)) st₂ hop₂
  have hfold : (pre ++ route :: post).foldlM
      (formatTag { thisValue := .globalObject, jsonParse := jsonParse }
        (parseDescription { description := description, tags := pre ++ route :: post })
        (pre ++ route :: post)) {} = .ok st₃ := by
    rw [List.foldlM_append, h₁]
    simp only [bind, Except.bind, List.foldlM_cons, h₂]
    exact h₃
  have hkey := formatKey_tags_eq jsonParse
    { description := description, tags := pre ++ route :: post } {}
    (by
      intro first hfirst
      have hmem : first ∈ pre ++ route :: post := by
        cases hpre : pre with
        | nil =>
          rw [hpre] at hfirst
          simp at hfirst
          simp [hfirst]
        | cons p rest =>
          rw [hpre] at hfirst
          simp at hfirst
          simp [hfirst]
      exact htitles first hmem)
  have hfile : fileFormat { thisValue := .globalObject, jsonParse := jsonParse }
      { description := description, tags := pre ++ route :: post }
      = .ok { parameters := shareParams st₃.params st₃.parameters
              tags := st₃.tags
              definitions := st₃.definitions } := by
    have hdesc : formatKey { thisValue := .globalObject, jsonParse := jsonParse }
        { description := description, tags := pre ++ route :: post } {} "description"
        = .ok {} := rfl
    unfold fileFormat
    simp only [Comment.keys, List.foldlM_cons, List.foldlM_nil, hdesc, hkey, hfold, bind,
      Except.bind, pure, Except.pure]
  obtain ⟨methods, operation, hm, ho⟩ := hop₃ (parseRoute d) (by rw [hr₃, hr₂])
  refine ⟨_, { operation with parameters := some st₃.params }, hfile, ?_⟩
  show ((shareParams st₃.params st₃.parameters).get (parseRoute d).uri).bind _ = _
  rw [shareParams_get, hm]
  simp only [Option.some_bind, ho, Option.map_some']

/-- C22 fails on the code: `fileFormat` is called plainly (line 580) in a
module, where `this` is undefined, so for the block with the param tag
`id.path`, then the route tag `get /pets`, then the param tag `limit.query`,
the call raises at `this.parseDescription` (line 357) and returns no record.
Whatever `this` is bound to, `fileFormat` does not return an operation whose
parameters are the translation of `limit.query` alone; with `this` resolved
the parameters are those of `id.path` and `limit.query`, in this order: the
array `params` of line 353 collects every param tag of the block (line 403)
and line 437 stores that array in the operation. -/
theorem fileFormat_param_before_route_attached :
    (∀ jsonParse : String → Option JsValue,
        fileFormat (moduleHost jsonParse) paramFirstBlock
          = .error (.typeError "this is undefined (reading parseDescription)"))
      ∧ (¬ ∃ (host : Host) (r : Formatted) (operation : Operation),
          fileFormat host paramFirstBlock = .ok r
            ∧ (r.parameters.get "/pets").bind (fun methods => methods.get "get") = some operation
            ∧ operation.parameters
                = some [{ name := "limit", «in» := "query", description := none,
                          required := false, type := some "Integer" }])
      ∧ ∀ jsonParse : String → Option JsValue, ∃ r,
          fileFormat { thisValue := .globalObject, jsonParse := jsonParse } paramFirstBlock = .ok r
          ∧ (r.parameters.get "/pets").bind (fun methods => methods.get "get")
              = some
                { parameters :=
                    some [{ name := "id", «in» := "path", description := none, required := false,
                            type := some "Integer" },
                          { name := "limit", «in» := "query", description := none,
                            required := false, type := some "Integer" }]
                  description := some ""
                  tags := some ["default"]
                  responses := some [] } := by
  refine ⟨fun _ => rfl, ?_, fun _ => ⟨_, rfl, rfl⟩⟩
  rintro ⟨⟨this, jsonParse⟩, r, operation, h, hget, hparams⟩
  cases this
  · have e : fileFormat ⟨.undefined, jsonParse⟩ paramFirstBlock
        = .error (.typeError "this is undefined (reading parseDescription)") := rfl
    rw [e] at h
    cases h
  · obtain ⟨parameters, ht, hp⟩ := fileFormat_operation_parameters _ _ r h "/pets" "get"
      operation hget
    have e : translateParams ⟨.globalObject, jsonParse⟩ paramFirstBlock.tags
        = .ok [{ name := "id", «in» := "path", description := none, required := false,
                 type := some "Integer" },
               { name := "limit", «in» := "query", description := none, required := false,
                 type := some "Integer" }] := rfl
    rw [e] at ht
    cases ht
    rw [hp] at hparams
    simp at hparams

/-- For every comment block, whatever `this` is bound to, the parameters list of every
operation in the record that `fileFormat` returns is the in-order translation
of all the param tags of the block, those that precede the route tag
included; and where `this.parseDescription` and `this.parseType` resolve to
the functions of the file, for every block made of one route tag with a
description and, before and after it, param tags that translate, `fileFormat`
returns a record with such an operation at the route. -/
theorem fileFormat_all_params_attached (host : Host) (comments : Comment) :
    (∀ (r : Formatted) (uri method : String) (operation : Operation),
        fileFormat host comments = .ok r →
        (r.parameters.get uri).bind (fun methods => methods.get method) = some operation →
        ∃ parameters, translateParams host comments.tags = .ok parameters
          ∧ operation.parameters = some parameters)
      ∧ (∀ (pre post : List Tag) (route : Tag) (d : String),
          host.thisValue = .globalObject → comments.tags = pre ++ route :: post →
          (∀ t ∈ pre ++ post, t.title = "param"
            ∧ ∃ parameter, translateParam host t = .ok parameter) →
          route.title = "route" → route.description = some d →
          ∃ r operation parameters,
            fileFormat host comments = .ok r
              ∧ (r.parameters.get (parseRoute d).uri).bind
                  (fun methods => methods.get (parseRoute d).method) = some operation
              ∧ translateParams host comments.tags = .ok parameters
              ∧ operation.parameters = some parameters) := by
  refine ⟨fun r uri method operation h hop =>
    fileFormat_operation_parameters host comments r h uri method operation hop, ?_⟩
  intro pre post route d hthis htags hparams hroute hd
  obtain ⟨this, jsonParse⟩ := host
  obtain ⟨description, tags⟩ := comments
  simp only at hthis htags
  subst hthis htags
  obtain ⟨r, operation, hfile, hop⟩ := fileFormat_block_ok jsonParse description pre post route d
    hparams hroute hd
  obtain ⟨parameters, ht, hp⟩ := fileFormat_operation_parameters _ _ r hfile _ _ operation hop
  exact ⟨r, operation, parameters, hfile, hop, ht, hp⟩

/-- Witness of `fileFormat_all_params_attached` at the block with the param
tag `id.path` before the route tag `get /pets` and the param tag
`limit.query` after it: the translation of the block lists both. -/
theorem fileFormat_all_params_attached_witness :
    translateParams { thisValue := .globalObject, jsonParse := fun _ => none } paramFirstBlock.tags
        = .ok [{ name := "id", «in» := "path", description := none, required := false,
                 type := some "Integer" },
               { name := "limit", «in» := "query", description := none, required := false,
                 type := some "Integer" }]
      ∧ ∃ r operation parameters,
          fileFormat { thisValue := .globalObject, jsonParse := fun _ => none } paramFirstBlock
              = .ok r
            ∧ (r.parameters.get (parseRoute "get /pets").uri).bind
                (fun methods => methods.get (parseRoute "get /pets").method) = some operation
            ∧ translateParams { thisValue := .globalObject, jsonParse := fun _ => none }
                paramFirstBlock.tags = .ok parameters
            ∧ operation.parameters = some parameters :=
  ⟨rfl,
    (fileFormat_all_params_attached { thisValue := .globalObject, jsonParse := fun _ => none }
      paramFirstBlock).2
      [{ title := "param", name := some "id.path", type := some (.named "Integer") }]
      [{ title := "param", name := some "limit.query", type := some (.named "Integer") }]
      { title := "route", description := some "get /pets" } "get /pets" rfl rfl
      (by
        intro t ht
        simp only [List.cons_append, List.nil_append, List.mem_cons, List.mem_singleton,
          List.not_mem_nil, or_false] at ht
        rcases ht with rfl | rfl
        · exact ⟨rfl, _, rfl⟩
        · exact ⟨rfl, _, rfl⟩)
      rfl rfl⟩

end SwaggerExpress
